import Mathlib

/-!
Shallow embedding of `src/FeedbackJSONSync-AI.py` (class `FeedbackJSONSyncAI`).

Modelling conventions:
* Python values occurring in feedback records are modelled by `Feedback.Value`
  (strings, numbers, booleans, `None`, lists, dicts).
* Python numbers are modelled as exact decimals `PyNum` (`man / 10 ^ exp`);
  `exp = 0` models an `int`, `exp ≥ 1` a `float` (floats are kept in the
  canonical form produced by decimal parsing / printing, mirroring the
  shortest-decimal repr of the floats this program actually produces; binary
  floating-point rounding artefacts are outside the model).
* Raised Python exceptions are modelled with `Except PyErr`; `PyErr` records
  the exception class (the message is kept only where the program observes it,
  i.e. for `ValueError`, whose `str` is returned by `process_data`).
* String-handling builtins (`str.lower`, `str.split`, `str.strip`) are
  modelled over the ASCII ranges this program exercises.
-/

namespace Feedback

/-- Exact decimal number `man / 10 ^ exp`.  `exp = 0` models a Python `int`,
`exp ≥ 1` models a `float`. -/
structure PyNum where
  man : Int
  exp : Nat
deriving DecidableEq, Repr

/-- Rational value of a `PyNum`. -/
def PyNum.toRat (d : PyNum) : Rat := (d.man : Rat) / (10 : Rat) ^ d.exp

/-- `d < -1 or d > 1`, computed on integers. -/
def PyNum.outOfRange (d : PyNum) : Bool :=
  d.man < -((10 : Int) ^ d.exp) || (10 : Int) ^ d.exp < d.man

/-- Python exception classes raised by the modelled code.
`json.JSONDecodeError` is a subclass of `ValueError` (see `PyErr.isValueError`). -/
inductive PyErr where
  | valueError (msg : String)
  | typeError
  | attributeError
  | keyError
  | jsonDecodeError
deriving DecidableEq, Repr

/-- Which modelled exceptions an `except ValueError` clause catches. -/
def PyErr.isValueError : PyErr → Bool
  | .valueError _ => true
  | .jsonDecodeError => true
  | _ => false

/-- `str(e)` for the modelled exceptions (observed only for `ValueError`s). -/
def PyErr.msg : PyErr → String
  | .valueError m => m
  | _ => ""

mutual

/-- A Python value as it occurs in decoded feedback records. -/
inductive Value where
  | vStr (s : String)
  | vNum (d : PyNum)
  | vBool (b : Bool)
  | vNull
  | vArr (elems : ValueList)
  | vObj (fields : FieldList)

/-- A Python list of values. -/
inductive ValueList where
  | nil
  | cons (head : Value) (tail : ValueList)

/-- A Python dict (in insertion order). -/
inductive FieldList where
  | nil
  | cons (key : String) (val : Value) (tail : FieldList)

end

deriving instance DecidableEq for Value, ValueList, FieldList
deriving instance DecidableEq for Except

open Value

def ValueList.isNil : ValueList → Bool
  | .nil => true
  | .cons _ _ => false

def ValueList.ofList : List Value → ValueList
  | [] => .nil
  | v :: t => .cons v (ValueList.ofList t)

def ValueList.toList : ValueList → List Value
  | .nil => []
  | .cons v t => v :: t.toList

def FieldList.isNil : FieldList → Bool
  | .nil => true
  | .cons _ _ _ => false

def FieldList.ofPairs : List (String × Value) → FieldList
  | [] => .nil
  | (k, v) :: t => .cons k v (FieldList.ofPairs t)

def FieldList.toPairs : FieldList → List (String × Value)
  | .nil => []
  | .cons k v t => (k, v) :: t.toPairs

/-- Python truthiness (`bool(v)`). -/
def Value.truthy : Value → Bool
  | vStr s => !s.isEmpty
  | vNum d => d.man != 0
  | vBool b => b
  | vNull => false
  | vArr l => !l.isNil
  | vObj l => !l.isNil

/-- Python `v == lit` where `lit` is a string literal (mixed types compare unequal). -/
def Value.eqStr : Value → String → Bool
  | vStr s, t => s == t
  | _, _ => false

/-! ### Decimal digit printing -/

/-- Little-endian decimal digits of `n` (empty for `0`); `fuel`-structured so
that it evaluates inside the kernel (`fuel ≥ n` suffices). -/
def natDigitsRev : Nat → Nat → List Char
  | 0, _ => []
  | _, 0 => []
  | fuel + 1, n => Char.ofNat (n % 10 + 48) :: natDigitsRev fuel (n / 10)

/-- Decimal digits of `n`, most significant first (`"0"` for zero). -/
def natDigits (n : Nat) : List Char :=
  if n = 0 then ['0'] else (natDigitsRev n n).reverse

def natStr (n : Nat) : String := ⟨natDigits n⟩

def intStr (i : Int) : String :=
  if i < 0 then "-" ++ natStr i.natAbs else natStr i.natAbs

/-- Left-pad a digit string with zeros to width `w`. -/
def padZeros (cs : List Char) (w : Nat) : List Char :=
  List.replicate (w - cs.length) '0' ++ cs

/-- `str` of a `PyNum`: `int`s print without a point, `float`s with `exp`
decimal digits (the canonical forms kept by the model match Python's repr). -/
def PyNum.str (d : PyNum) : String :=
  if d.exp = 0 then intStr d.man
  else
    let a := d.man.natAbs
    let p := 10 ^ d.exp
    (if d.man < 0 then "-" else "")
      ++ natStr (a / p) ++ "." ++ String.mk (padZeros (natDigits (a % p)) d.exp)

/-- Canonical `float` equal to `m / 10 ^ e`: at least one decimal digit,
trailing zero decimals stripped. -/
def floatCanon (m : Int) (e : Nat) : PyNum :=
  match e with
  | 0 => ⟨m * 10, 1⟩
  | 1 => ⟨m, 1⟩
  | e + 2 => if m % 10 = 0 then floatCanon (m / 10) (e + 1) else ⟨m, e + 2⟩

/-! ### Python `str` of values (used by f-string report templates) -/

/-- Python `repr` of a string, modelled with single quotes and the escapes
this program can produce. -/
def pyReprS (s : String) : String :=
  "\x27" ++ String.join (s.data.map fun c =>
    if c = '\\' then "\\\\"
    else if c = '\x27' then "\\\x27"
    else if c = '\n' then "\\n"
    else if c = '\r' then "\\r"
    else if c = '\t' then "\\t"
    else String.singleton c) ++ "\x27"

mutual

/-- Python `str(v)` as used when formatting report lines. -/
def pyStr : Value → String
  | vStr s => s
  | vNum d => d.str
  | vBool b => if b then "True" else "False"
  | vNull => "None"
  | vArr l => "[" ++ pyStrList l ++ "]"
  | vObj l => "\x7b" ++ pyStrObj l ++ "\x7d"

def pyStrList : ValueList → String
  | .nil => ""
  | .cons v .nil => pyReprV v
  | .cons v (.cons w rest) => pyReprV v ++ ", " ++ pyStrList (.cons w rest)

def pyStrObj : FieldList → String
  | .nil => ""
  | .cons k v .nil => pyReprS k ++ ": " ++ pyReprV v
  | .cons k v (.cons k2 v2 rest) =>
    pyReprS k ++ ": " ++ pyReprV v ++ ", " ++ pyStrObj (.cons k2 v2 rest)

/-- Python `repr(v)` for container elements (`repr` and `str` agree on
everything except strings). -/
def pyReprV : Value → String
  | vStr s => pyReprS s
  | vNum d => d.str
  | vBool b => if b then "True" else "False"
  | vNull => "None"
  | vArr l => "[" ++ pyStrList l ++ "]"
  | vObj l => "\x7b" ++ pyStrObj l ++ "\x7d"

end

/-! ### `float(...)` builtin -/

/-- Numeric value of a list of decimal digit characters. -/
def digitsVal (cs : List Char) : Nat :=
  cs.foldl (fun a c => a * 10 + (c.toNat - 48)) 0

/-- Core of parsing a Python float literal (after whitespace stripping):
`[+-] digits [. digits] [(e|E) [+-] digits]`, at least one mantissa digit.
Returns `(mantissa, decimals)` before canonicalisation.  `inf`, `nan` and
underscore separators are outside the model. -/
def floatCore (cs : List Char) : Option (Int × Nat) :=
  let (neg, cs) : Bool × List Char :=
    match cs with
    | '-' :: t => (true, t)
    | '+' :: t => (false, t)
    | _ => (false, cs)
  let (ip, cs) := cs.span (·.isDigit)
  let (fp, cs) : List Char × List Char :=
    match cs with
    | '.' :: t => t.span (·.isDigit)
    | _ => ([], cs)
  if ip.isEmpty && fp.isEmpty then none
  else
    let m : Nat := digitsVal ip * 10 ^ fp.length + digitsVal fp
    let sm : Int := if neg then -(m : Int) else (m : Int)
    match cs with
    | [] => some (sm, fp.length)
    | c :: t =>
      if c = 'e' || c = 'E' then
        let (eneg, t) : Bool × List Char :=
          match t with
          | '-' :: u => (true, u)
          | '+' :: u => (false, u)
          | _ => (false, t)
        let (ed, t) := t.span (·.isDigit)
        if ed.isEmpty || !t.isEmpty then none
        else
          let ev := digitsVal ed
          if eneg then some (sm, fp.length + ev)
          else if ev ≤ fp.length then some (sm, fp.length - ev)
          else some (sm * (10 : Int) ^ (ev - fp.length), 0)
      else none

/-- Python whitespace characters recognised by `str.split()` / `str.strip()`
(ASCII range): space, tab, newline, carriage return, vertical tab, form feed,
written via code points for proof convenience. -/
def isPySpace (c : Char) : Bool :=
  c.toNat = 32 || c.toNat = 9 || c.toNat = 10 || c.toNat = 13
    || c.toNat = 11 || c.toNat = 12

/-- `str.strip()`. -/
def pyStrip (s : String) : String :=
  ⟨(s.data.dropWhile isPySpace).reverse.dropWhile isPySpace |>.reverse⟩

/-- `float(s)` on a string. -/
def floatOfString (s : String) : Except PyErr PyNum :=
  match floatCore (pyStrip s).data with
  | some (m, e) => .ok (floatCanon m e)
  | none => .error (.valueError ("could not convert string to float: " ++ pyReprS s))

/-- The `float(v)` builtin on a value. -/
def pyFloat : Value → Except PyErr PyNum
  | vStr s => floatOfString s
  | vNum ⟨m, 0⟩ => .ok (floatCanon m 0)
  | vNum d => .ok d
  | vBool b => .ok ⟨if b then 10 else 0, 1⟩
  | vNull => .error .typeError
  | vArr _ => .error .typeError
  | vObj _ => .error .typeError

/-! ### `str.split()` and `str.lower()` -/

def splitWsAux : List Char → List Char → List (List Char)
  | [], cur => if cur.isEmpty then [] else [cur.reverse]
  | c :: cs, cur =>
    if isPySpace c then
      if cur.isEmpty then splitWsAux cs [] else cur.reverse :: splitWsAux cs []
    else splitWsAux cs (c :: cur)

/-- Python `s.split()`: split on whitespace runs, no empty tokens. -/
def pySplitWs (s : String) : List String :=
  (splitWsAux s.data []).map fun cs => ⟨cs⟩

/-- Python `s.lower()` (ASCII range; the lexicons and report text are ASCII). -/
def pyLower (s : String) : String := ⟨s.data.map Char.toLower⟩

/-! ### Lexicons (constructor, lines 14-17) -/

def positive_words : List String :=
  ["good", "excellent", "great", "happy", "love", "positive", "satisfied"]

def negative_words : List String :=
  ["bad", "poor", "terrible", "unhappy", "hate", "negative", "dissatisfied"]

def required_fields : List String :=
  ["feedback_id", "language", "feedback_text", "timestamp"]

/-! ### `round(x, 2)` -/

/-- Round to nearest integer, ties to even (Python `round` on exact values);
specification form over `Rat`. -/
def roundHalfEven (q : Rat) : Int :=
  if q - (⌊q⌋ : Rat) < 1 / 2 then ⌊q⌋
  else if 1 / 2 < q - (⌊q⌋ : Rat) then ⌊q⌋ + 1
  else if ⌊q⌋ % 2 = 0 then ⌊q⌋ else ⌊q⌋ + 1

/-- `round(q, 2)` producing a Python float; specification form over `Rat`. -/
def round2 (q : Rat) : PyNum := floatCanon (roundHalfEven (q * 100)) 2

/-- `roundHalfEven` of `num / den` (`den > 0`), computed on integers
(`num / den` is floor division, and `2 * (num - num / den * den)` compares the
remainder against half the denominator). -/
def rheFrac (num den : Int) : Int :=
  if 2 * (num - num / den * den) < den then num / den
  else if den < 2 * (num - num / den * den) then num / den + 1
  else if (num / den) % 2 = 0 then num / den else num / den + 1

/-- `round(num / den, 2)` producing a Python float, computed on integers. -/
def round2Frac (num den : Int) : PyNum := floatCanon (rheFrac (num * 100) den) 2

/-! ### `calculate_sentiment_score` (lines 153-182) -/

/-- `calculate_sentiment_score(text)`: returns
`(sentiment_score, positive_count, negative_count, total_words)`; the
division-then-`round(..., 2)` of lines 174-180 is computed exactly on the
integer fraction. -/
def calculate_sentiment_score (text : String) : PyNum × Nat × Nat × Nat :=
  let lower_text := pyLower text
  let positive_count := positive_words.countP fun w => (pySplitWs lower_text).contains w
  let negative_count := negative_words.countP fun w => (pySplitWs lower_text).contains w
  let total_words := (pySplitWs lower_text).length
  let sentiment_score : PyNum :=
    if total_words > 0 then
      round2Frac ((positive_count : Int) - (negative_count : Int)) (total_words : Int)
    else round2Frac 0 1
  (sentiment_score, positive_count, negative_count, total_words)

/-! ### `datetime` model

`datetime.datetime.fromisoformat` is modelled after the CPython (≤ 3.10) C
parser: `YYYY-MM-DD` (exactly four/two/two digits), optionally one separator
character followed by a time `HH[:MM[:SS]][.fff[fff]]`, optionally followed by
a UTC offset `[+-]HH[:MM[:SS]][.ffffff]` (read with the same time parser after
splitting at the first `+`/`-` of the time part; offset microseconds are
dropped).  A naive datetime carries no offset. -/

structure PyDateTime where
  year : Int
  month : Nat
  day : Nat
  hour : Nat
  minute : Nat
  second : Nat
  micro : Nat
  /-- UTC offset in seconds, `none` for a naive datetime. -/
  tzSec : Option Int
deriving DecidableEq, Repr

/-- Two decimal digits. -/
def twoDigits : List Char → Option (Nat × List Char)
  | a :: b :: rest =>
    if a.isDigit && b.isDigit then some ((a.toNat - 48) * 10 + (b.toNat - 48), rest)
    else none
  | _ => none

/-- `.fff` or `.ffffff` fractional-second digits (value in microseconds). -/
def parseFrac (cs : List Char) : Option Nat :=
  if cs.all (·.isDigit) then
    if cs.length = 3 then some (digitsVal cs * 1000)
    else if cs.length = 6 then some (digitsVal cs)
    else none
  else none

/-- `HH[:MM[:SS]][.fff[fff]]`, consuming the whole input. -/
def parseHMSF (cs : List Char) : Option (Nat × Nat × Nat × Nat) := do
  let (h, cs) ← twoDigits cs
  match cs with
  | [] => some (h, 0, 0, 0)
  | '.' :: t => do
    let f ← parseFrac t
    some (h, 0, 0, f)
  | ':' :: t => do
    let (m, cs) ← twoDigits t
    match cs with
    | [] => some (h, m, 0, 0)
    | '.' :: t => do
      let f ← parseFrac t
      some (h, m, 0, f)
    | ':' :: t => do
      let (s, cs) ← twoDigits t
      match cs with
      | [] => some (h, m, s, 0)
      | '.' :: t => do
        let f ← parseFrac t
        some (h, m, s, f)
      | _ => none
    | _ => none
  | _ => none

/-- `YYYY-MM-DD` with exact digit positions. -/
def parseDate10 : List Char → Option (Int × Nat × Nat)
  | [y1, y2, y3, y4, s1, m1, m2, s2, d1, d2] =>
    if [y1, y2, y3, y4, m1, m2, d1, d2].all (·.isDigit) && s1 = '-' && s2 = '-' then
      some ((digitsVal [y1, y2, y3, y4] : Int), digitsVal [m1, m2], digitsVal [d1, d2])
    else none
  | _ => none

def isLeapYear (y : Int) : Bool := y % 4 = 0 && (y % 100 != 0 || y % 400 = 0)

def daysInMonth (y : Int) (m : Nat) : Nat :=
  if m = 2 then (if isLeapYear y then 29 else 28)
  else if m = 4 || m = 6 || m = 9 || m = 11 then 30
  else 31

/-- Range checks done by the `datetime` constructor. -/
def validDateTime (y : Int) (mo d h mi s : Nat) : Bool :=
  1 ≤ y && y ≤ 9999 && 1 ≤ mo && mo ≤ 12 && 1 ≤ d && d ≤ daysInMonth y mo
    && h ≤ 23 && mi ≤ 59 && s ≤ 59

/-- `datetime.datetime.fromisoformat` (see section comment for the grammar). -/
def fromisoformat (s : String) : Option PyDateTime := do
  let cs := s.data
  let (y, mo, d) ← parseDate10 (cs.take 10)
  if cs.length ≤ 10 then
    if cs.length = 10 && validDateTime y mo d 0 0 0 then
      some ⟨y, mo, d, 0, 0, 0, 0, none⟩
    else none
  else
    let tstr := cs.drop 11
    let timePart := tstr.takeWhile fun c => c ≠ '+' && c ≠ '-'
    let tzPart := tstr.dropWhile fun c => c ≠ '+' && c ≠ '-'
    let (h, mi, sec, mic) ← parseHMSF timePart
    let off : Option Int ← (match tzPart with
      | [] => some none
      | sign :: rest => do
        let (oh, om, os, _) ← parseHMSF rest
        let total : Int := (oh : Int) * 3600 + (om : Int) * 60 + (os : Int)
        if total < 86400 then
          some (some (if sign = '-' then -total else total))
        else none)
    if validDateTime y mo d h mi sec then
      some ⟨y, mo, d, h, mi, sec, mic, off⟩
    else none

/-- Days since 1970-01-01 of a civil date (Gregorian, proleptic). -/
def daysFromCivil (y : Int) (m d : Nat) : Int :=
  let y' : Int := if m ≤ 2 then y - 1 else y
  let era : Int := (if 0 ≤ y' then y' else y' - 399) / 400
  let yoe : Int := y' - era * 400
  let mp : Int := ((m : Int) + 9) % 12
  let doy : Int := (153 * mp + 2) / 5 + (d : Int) - 1
  let doe : Int := yoe * 365 + yoe / 4 - yoe / 100 + doy
  era * 146097 + doe - 719468

/-- Civil date from days since 1970-01-01. -/
def civilFromDays (z0 : Int) : Int × Nat × Nat :=
  let z : Int := z0 + 719468
  let era : Int := (if 0 ≤ z then z else z - 146096) / 146097
  let doe : Int := z - era * 146097
  let yoe : Int := (doe - doe / 1460 + doe / 36524 - doe / 146096) / 365
  let y : Int := yoe + era * 400
  let doy : Int := doe - (365 * yoe + yoe / 4 - yoe / 100)
  let mp : Int := (5 * doy + 2) / 153
  let d : Int := doy - (153 * mp + 2) / 5 + 1
  let m : Int := if mp < 10 then mp + 3 else mp - 9
  ((if m ≤ 2 then y + 1 else y), m.toNat, d.toNat)

/-- `dt.astimezone(datetime.timezone.utc)`.  An aware datetime is converted by
its own offset; a naive datetime is presumed to be in the system timezone
(documented `astimezone` behaviour), modelled as the fixed offset
`hostTzSec` seconds east of UTC. -/
def astimezoneUtc (hostTzSec : Int) (dt : PyDateTime) : PyDateTime :=
  let off : Int := dt.tzSec.getD hostTzSec
  let total : Int :=
    daysFromCivil dt.year dt.month dt.day * 86400
      + (dt.hour : Int) * 3600 + (dt.minute : Int) * 60 + (dt.second : Int) - off
  let days : Int := total / 86400 - (if total % 86400 < 0 then 1 else 0)
  let rem : Int := total - days * 86400
  let (y, mo, d) := civilFromDays days
  ⟨y, mo, d, (rem / 3600).toNat, ((rem % 3600) / 60).toNat, (rem % 60).toNat,
    dt.micro, some 0⟩

/-- Fixed-width decimal with leading zeros. -/
def padNat (n w : Nat) : String := ⟨padZeros (natDigits n) w⟩

/-- `datetime.isoformat()` (default timespec: seconds always printed,
microseconds printed only when nonzero). -/
def PyDateTime.isoformat (dt : PyDateTime) : String :=
  padNat dt.year.toNat 4 ++ "-" ++ padNat dt.month 2 ++ "-" ++ padNat dt.day 2
    ++ "T" ++ padNat dt.hour 2 ++ ":" ++ padNat dt.minute 2 ++ ":" ++ padNat dt.second 2
    ++ (if dt.micro ≠ 0 then "." ++ padNat dt.micro 6 else "")
    ++ match dt.tzSec with
       | none => ""
       | some off =>
         let a := off.natAbs
         (if off < 0 then "-" else "+") ++ padNat (a / 3600) 2 ++ ":" ++ padNat (a % 3600 / 60) 2
           ++ (if a % 60 ≠ 0 then ":" ++ padNat (a % 60) 2 else "")

/-- `ts.replace('Z', '+00:00')` (every occurrence). -/
def replaceZ (s : String) : String :=
  ⟨(s.data.map fun c => if c = 'Z' then "+00:00".data else [c]).flatten⟩

/-! ### Records -/

/-- A decoded feedback record: a Python dict in insertion order. -/
abbrev Record := List (String × Value)

def Record.findVal : Record → String → Option Value
  | [], _ => none
  | (k, v) :: r, key => if k = key then some v else Record.findVal r key

/-- `key in record`. -/
def Record.hasKey (r : Record) (k : String) : Bool := (r.findVal k).isSome

/-- `record[k]` when the key is known to be present (default for the guard idiom). -/
def Record.getV (r : Record) (k : String) : Value := (r.findVal k).getD .vNull

/-- `record[k]`, raising `KeyError` when absent. -/
def Record.getKey (r : Record) (k : String) : Except PyErr Value :=
  match r.findVal k with
  | some v => .ok v
  | none => .error .keyError

/-- `record[k] = v`: replace in place, append when absent (dict semantics). -/
def Record.setVal : Record → String → Value → Record
  | [], key, v => [(key, v)]
  | (k, w) :: r, key, v =>
    if k = key then (k, v) :: r else (k, w) :: Record.setVal r key v

/-! ### `validate_data` (lines 19-66) -/

/-- Line 36: required fields that are absent or falsy. -/
def missingFields (record : Record) : List String :=
  required_fields.filter fun field =>
    !record.hasKey field || !(record.getV field).truthy

/-- Lines 35-39. -/
def missingCheck (record : Record) (row_num : Nat) : List String :=
  let missing := missingFields record
  if missing.isEmpty then []
  else ["ERROR: Missing required field(s): " ++ String.intercalate ", " missing
          ++ " in row " ++ natStr row_num ++ "."]

/-- Lines 41-50: `sentiment_score` range/type check (`float` errors caught). -/
def scoreCheck (record : Record) (row_num : Nat) : List String :=
  match record.findVal "sentiment_score" with
  | some .vNull => []
  | some v =>
    match pyFloat v with
    | .ok score =>
      if score.outOfRange then
        ["ERROR: Invalid value for the field(s): sentiment_score in row "
           ++ natStr row_num ++ ". Score must be between -1 and 1."]
      else []
    | .error _ =>
      ["ERROR: Invalid data type for the field(s): sentiment_score in row "
         ++ natStr row_num ++ ". Please ensure correct data types."]
  | none => []

/-- `re.match(r'^[a-z]{2}$', s)` as a Boolean (`$` also matches before a
trailing newline). -/
def matchesLangRe (s : String) : Bool :=
  match s.data with
  | [a, b] => a.isLower && b.isLower
  | [a, b, '\n'] => a.isLower && b.isLower
  | _ => false

/-- Lines 52-56: `re.match` raises `TypeError` on a non-string argument. -/
def languageCheck (record : Record) (row_num : Nat) : Except PyErr (List String) :=
  match record.findVal "language" with
  | some v =>
    if v.truthy then
      match v with
      | .vStr s =>
        if matchesLangRe s then .ok []
        else .ok ["ERROR: Invalid value for the field(s): language in row "
                    ++ natStr row_num ++ ". Language must be in ISO 639-1 format."]
      | _ => .error .typeError
    else .ok []
  | none => .ok []

/-- Lines 58-64: `.replace` on a non-string raises `AttributeError`, which the
`except (ValueError, TypeError)` clause does not catch. -/
def timestampCheck (record : Record) (row_num : Nat) : Except PyErr (List String) :=
  match record.findVal "timestamp" with
  | some v =>
    if v.truthy then
      match v with
      | .vStr s =>
        match fromisoformat (replaceZ s) with
        | some _ => .ok []
        | none => .ok ["ERROR: Invalid value for the field(s): timestamp in row "
                         ++ natStr row_num ++ ". Timestamp must be in ISO 8601 format."]
      | _ => .error .attributeError
    else .ok []
  | none => .ok []

/-- The four per-record checks, in source order. -/
def recordErrors (record : Record) (row_num : Nat) : Except PyErr (List String) :=
  match languageCheck record row_num with
  | .error e => .error e
  | .ok l =>
    match timestampCheck record row_num with
    | .error e => .error e
    | .ok t => .ok (missingCheck record row_num ++ scoreCheck record row_num ++ l ++ t)

def validateAux : List Record → Nat → Except PyErr (List String)
  | [], _ => .ok []
  | r :: rest, n =>
    match recordErrors r n with
    | .error e => .error e
    | .ok msgs =>
      match validateAux rest (n + 1) with
      | .error e => .error e
      | .ok more => .ok (msgs ++ more)

/-- `validate_data(data)` (`is_valid` is set to `False` exactly when a message
is appended, so it equals the emptiness of the message list). -/
def validate_data (data : List Record) : Except PyErr (Bool × List String) :=
  match validateAux data 1 with
  | .error e => .error e
  | .ok msgs => .ok (msgs.isEmpty, msgs)

/-! ### `generate_validation_report` (lines 68-118) -/

/-- Line 82. -/
def fidStatus (data : List Record) : String :=
  if data.all (fun r => r.hasKey "feedback_id" && (r.getV "feedback_id").truthy)
  then "present" else "missing"

/-- Line 83: lazy `all` over records having a `language` key; `re.match` on a
non-string present value raises `TypeError`. -/
def langStatus : List Record → Except PyErr String
  | [] => .ok "valid"
  | r :: rest =>
    match r.findVal "language" with
    | none => langStatus rest
    | some (.vStr s) => if matchesLangRe s then langStatus rest else .ok "invalid"
    | some _ => .error .typeError

/-- Line 84. -/
def ftextStatus (data : List Record) : String :=
  if data.all (fun r => r.hasKey "feedback_text") then "valid" else "invalid"

/-- Line 85. -/
def tsStatus (data : List Record) : String :=
  if data.all (fun r => r.hasKey "timestamp" && (r.getV "timestamp").truthy)
  then "valid" else "invalid"

/-- Lines 89-99: first offending record wins (`break`). -/
def scoreStatus : List Record → String
  | [] => "valid"
  | r :: rest =>
    match r.findVal "sentiment_score" with
    | some .vNull => scoreStatus rest
    | some v =>
      match pyFloat v with
      | .ok sc => if sc.outOfRange then "invalid" else scoreStatus rest
      | .error _ => "invalid"
    | none => scoreStatus rest

/-- The report header of lines 101-111 (`lang` is the `field_status` entry
computed by `langStatus`). -/
def valReportHeader (data : List Record) (lang : String) : String :=
  "# Customer Feedback Data Validation Report:\n- Total Feedback Records: "
    ++ natStr data.length
    ++ "\n## Required Fields Check:\n  feedback_id: " ++ fidStatus data
    ++ "\n  language: " ++ lang
    ++ "\n  feedback_text: " ++ ftextStatus data
    ++ "\n  timestamp: " ++ tsStatus data
    ++ "\n  sentiment_score: " ++ scoreStatus data
    ++ "\n\n## Validation Status:\n"

def generate_validation_report (data : List Record) : Except PyErr String :=
  match validate_data data with
  | .error e => .error e
  | .ok (is_valid, error_messages) =>
  match langStatus data with
  | .error e => .error e
  | .ok lang =>
  if is_valid then
    .ok (valReportHeader data lang ++ "Data validation is successful! Would you like to proceed with the analysis or provide another dataset?")
  else
    .ok (valReportHeader data lang ++ String.intercalate "\n" error_messages)

/-! ### `translate_feedback` (lines 120-137), `synchronize_timestamp` (139-151) -/

/-- `translate_feedback(text, language)` at the value level (the f-string
formats non-string values with `str`). -/
def translate_feedback (text language : Value) : Value :=
  if language.eqStr "en" then text
  else .vStr ("[Translated from " ++ pyStr language ++ "] " ++ pyStr text)

/-- `synchronize_timestamp(timestamp)`; the host timezone (used by
`astimezone` for naive datetimes) is the explicit parameter `hostTzSec`. -/
def synchronize_timestamp (hostTzSec : Int) (timestamp : String) : Except PyErr String :=
  match fromisoformat (replaceZ timestamp) with
  | some dt => .ok (astimezoneUtc hostTzSec dt).isoformat
  | none =>
    .error (.valueError ("Invalid isoformat string: " ++ pyReprS (replaceZ timestamp)))

/-- `synchronize_timestamp` applied to a record value (`.replace` raises
`AttributeError` on non-strings). -/
def syncValue (hostTzSec : Int) : Value → Except PyErr Value
  | .vStr s => (synchronize_timestamp hostTzSec s).map .vStr
  | _ => .error .attributeError

/-- `calculate_sentiment_score` applied to a record value (`.lower` raises
`AttributeError` on non-strings). -/
def calcValue : Value → Except PyErr (PyNum × Nat × Nat × Nat)
  | .vStr s => .ok (calculate_sentiment_score s)
  | _ => .error .attributeError

/-! ### `process_feedback` (lines 184-214) -/

/-- The `sentiment_score` selection of lines 205-210. -/
def enrichScore (record : Record) (translated : Value) : Except PyErr Value :=
  match record.findVal "sentiment_score" with
  | none => (calcValue translated).map fun q => Value.vNum q.1
  | some .vNull => (calcValue translated).map fun q => Value.vNum q.1
  | some v => (pyFloat v).map Value.vNum

/-- Lines 196-212: build one processed record. -/
def enrichRecord (hostTzSec : Int) (record : Record) : Except PyErr Record :=
  match record.getKey "feedback_id" with
  | .error e => .error e
  | .ok fid =>
  match record.getKey "language" with
  | .error e => .error e
  | .ok lang =>
  match record.getKey "feedback_text" with
  | .error e => .error e
  | .ok ftext =>
  let translated := translate_feedback ftext lang
  match record.getKey "timestamp" with
  | .error e => .error e
  | .ok tsv =>
  match syncValue hostTzSec tsv with
  | .error e => .error e
  | .ok synced =>
  match enrichScore record translated with
  | .error e => .error e
  | .ok score =>
    .ok [("feedback_id", fid), ("language", lang), ("feedback_text", translated),
         ("timestamp", synced), ("sentiment_score", score)]

/-- The `for` loop of lines 194-213 (append to `processed_data`). -/
def processAux (hostTzSec : Int) : List Record → Except PyErr (List Record)
  | [] => .ok []
  | r :: rest =>
    match enrichRecord hostTzSec r with
    | .error e => .error e
    | .ok pr =>
      match processAux hostTzSec rest with
      | .error e => .error e
      | .ok prs => .ok (pr :: prs)

def process_feedback (hostTzSec : Int) (data : List Record) : Except PyErr (List Record) :=
  processAux hostTzSec data

/-! ### `json.dumps(..., indent=2)` (default `ensure_ascii=True`) -/

def hexDigitChar (n : Nat) : Char :=
  if n < 10 then Char.ofNat (48 + n) else Char.ofNat (87 + n)

/-- Four lowercase hex digits of `n < 0x10000`. -/
def hex4 (n : Nat) : List Char :=
  [hexDigitChar (n / 4096 % 16), hexDigitChar (n / 256 % 16),
   hexDigitChar (n / 16 % 16), hexDigitChar (n % 16)]

/-- `json.dumps` escaping of one character: printable ASCII kept, the named
two-character escapes, everything else `\uXXXX` (astral characters as a
surrogate pair). -/
def jsonEscapeChar (c : Char) : List Char :=
  if c = '"' then ['\\', '"']
  else if c = '\\' then ['\\', '\\']
  else if c = '\n' then ['\\', 'n']
  else if c = '\r' then ['\\', 'r']
  else if c = '\t' then ['\\', 't']
  else if c = '\x08' then ['\\', 'b']
  else if c = '\x0c' then ['\\', 'f']
  else if 0x20 ≤ c.toNat && c.toNat ≤ 0x7e then [c]
  else if c.toNat < 0x10000 then '\\' :: 'u' :: hex4 c.toNat
  else
    let v := c.toNat - 0x10000
    ('\\' :: 'u' :: hex4 (0xd800 + v / 0x400)) ++ ('\\' :: 'u' :: hex4 (0xdc00 + v % 0x400))

def jsonQuote (s : String) : String :=
  "\"" ++ ⟨(s.data.map jsonEscapeChar).flatten⟩ ++ "\""

def spaces (n : Nat) : String := ⟨List.replicate n ' '⟩

mutual

/-- `json.dumps(v, indent=2)` at nesting indentation `ind`. -/
def dumpVal : Value → Nat → String
  | .vStr s, _ => jsonQuote s
  | .vNum d, _ => d.str
  | .vBool b, _ => if b then "true" else "false"
  | .vNull, _ => "null"
  | .vArr .nil, _ => "[]"
  | .vArr (.cons x xs), ind =>
    "[\n" ++ dumpItems (.cons x xs) (ind + 2) ++ "\n" ++ spaces ind ++ "]"
  | .vObj .nil, _ => "\x7b\x7d"
  | .vObj (.cons k v fs), ind =>
    "\x7b\n" ++ dumpFields (.cons k v fs) (ind + 2) ++ "\n" ++ spaces ind ++ "\x7d"

def dumpItems : ValueList → Nat → String
  | .nil, _ => ""
  | .cons v .nil, ind => spaces ind ++ dumpVal v ind
  | .cons v (.cons w rest), ind =>
    spaces ind ++ dumpVal v ind ++ ",\n" ++ dumpItems (.cons w rest) ind

def dumpFields : FieldList → Nat → String
  | .nil, _ => ""
  | .cons k v .nil, ind => spaces ind ++ jsonQuote k ++ ": " ++ dumpVal v ind
  | .cons k v (.cons k2 v2 rest), ind =>
    spaces ind ++ jsonQuote k ++ ": " ++ dumpVal v ind ++ ",\n"
      ++ dumpFields (.cons k2 v2 rest) ind

end

def jsonDumps2 (v : Value) : String := dumpVal v 0

/-! ### `json.loads` -/

/-- JSON whitespace. -/
def isJsonWs (c : Char) : Bool := c = ' ' || c = '\t' || c = '\n' || c = '\r'

def skipWs (cs : List Char) : List Char := cs.dropWhile isJsonWs

def hexVal? (c : Char) : Option Nat :=
  if '0' ≤ c && c ≤ '9' then some (c.toNat - 48)
  else if 'a' ≤ c && c ≤ 'f' then some (c.toNat - 87)
  else if 'A' ≤ c && c ≤ 'F' then some (c.toNat - 55)
  else none

def hex4Val? (a b c d : Char) : Option Nat :=
  match hexVal? a, hexVal? b, hexVal? c, hexVal? d with
  | some x, some y, some z, some w => some (x * 4096 + y * 256 + z * 16 + w)
  | _, _, _, _ => none

/-- Single-character string escapes (`\"`, `\\`, `\/`, `\n`, `\r`, `\t`,
`\b`, `\f`). -/
def escTable (e : Char) : Option Char :=
  if e = '"' then some '"'
  else if e = '\\' then some '\\'
  else if e = '/' then some '/'
  else if e = 'n' then some '\n'
  else if e = 'r' then some '\r'
  else if e = 't' then some '\t'
  else if e = 'b' then some '\x08'
  else if e = 'f' then some '\x0c'
  else none

/-- JSON string body after the opening quote (strict mode: raw control
characters rejected; surrogate-pair escapes recombined; lone surrogates are
not representable in the model's strings). -/
def parseJStr : Nat → List Char → Option (List Char × List Char)
  | 0, _ => none
  | _, [] => none
  | fuel + 1, c :: rest =>
    if c = '"' then some ([], rest)
    else if c = '\\' then
      match rest with
      | [] => none
      | e :: rest2 =>
        if e = 'u' then
          match rest2 with
          | a :: b :: c2 :: d :: rest3 =>
            (match hex4Val? a b c2 d with
             | none => none
             | some n =>
               if 0xd800 ≤ n && n ≤ 0xdbff then
                 match rest3 with
                 | s1 :: u1 :: a2 :: b2 :: c3 :: d2 :: rest4 =>
                   if s1 = '\\' && u1 = 'u' then
                     match hex4Val? a2 b2 c3 d2 with
                     | none => none
                     | some n2 =>
                       if 0xdc00 ≤ n2 && n2 ≤ 0xdfff then
                         match parseJStr fuel rest4 with
                         | none => none
                         | some (s, r) =>
                           some (Char.ofNat
                             (0x10000 + (n - 0xd800) * 0x400 + (n2 - 0xdc00)) :: s, r)
                       else none
                   else none
                 | _ => none
               else if 0xdc00 ≤ n && n ≤ 0xdfff then none
               else
                 match parseJStr fuel rest3 with
                 | none => none
                 | some (s, r) => some (Char.ofNat n :: s, r))
          | _ => none
        else
          match escTable e with
          | none => none
          | some ch =>
            match parseJStr fuel rest2 with
            | none => none
            | some (s, r) => some (ch :: s, r)
    else if c.toNat ≤ 0x1f then none
    else
      match parseJStr fuel rest with
      | none => none
      | some (s, r) => some (c :: s, r)

/-- JSON number: `-?(0|[1-9]\d*)(\.\d+)?([eE][+-]?\d+)?`; an integer literal
yields a Python `int`, presence of a fraction or exponent a `float`. -/
def parseJNum (cs : List Char) : Option (PyNum × List Char) :=
  let (neg, cs) : Bool × List Char :=
    match cs with
    | '-' :: t => (true, t)
    | _ => (false, cs)
  match cs with
  | '0' :: t =>
    if (t.headD ' ').isDigit then none else parseJNumRest neg [( '0' : Char )] t
  | c :: t =>
    if c.isDigit then
      let (ds, t') := t.span (·.isDigit)
      parseJNumRest neg (c :: ds) t'
    else none
  | [] => none
where
  parseJNumRest (neg : Bool) (ip : List Char) (cs : List Char) : Option (PyNum × List Char) :=
    let (fp, cs, isF) : List Char × List Char × Bool :=
      match cs with
      | '.' :: t =>
        let (f, r) := t.span (·.isDigit)
        (f, r, true)
      | _ => ([], cs, false)
    if isF && fp.isEmpty then none
    else
      let m : Nat := digitsVal ip * 10 ^ fp.length + digitsVal fp
      let sm : Int := if neg then -(m : Int) else (m : Int)
      match cs with
      | 'e' :: t => parseExp sm fp.length t
      | 'E' :: t => parseExp sm fp.length t
      | _ =>
        if isF then some (floatCanon sm fp.length, cs)
        else some (⟨sm, 0⟩, cs)
  parseExp (sm : Int) (fl : Nat) (cs : List Char) : Option (PyNum × List Char) :=
    let (eneg, cs) : Bool × List Char :=
      match cs with
      | '-' :: t => (true, t)
      | '+' :: t => (false, t)
      | _ => (false, cs)
    let (ed, cs) := cs.span (·.isDigit)
    if ed.isEmpty then none
    else
      let ev := digitsVal ed
      if eneg then some (floatCanon sm (fl + ev), cs)
      else if ev ≤ fl then some (floatCanon sm (fl - ev), cs)
      else some (floatCanon (sm * (10 : Int) ^ (ev - fl)) 0, cs)

mutual

/-- One JSON value (leading whitespace skipped, dispatch on the first
character as in the CPython scanner); `fuel` bounds the recursion. -/
def parseJVal : Nat → List Char → Option (Value × List Char)
  | 0, _ => none
  | fuel + 1, cs =>
    match skipWs cs with
    | [] => none
    | c :: t =>
      if c = '"' then
        match parseJStr (t.length + 1) t with
        | none => none
        | some (s, r) => some (.vStr ⟨s⟩, r)
      else if c = 't' then
        match t with
        | 'r' :: 'u' :: 'e' :: t2 => some (.vBool true, t2)
        | _ => none
      else if c = 'f' then
        match t with
        | 'a' :: 'l' :: 's' :: 'e' :: t2 => some (.vBool false, t2)
        | _ => none
      else if c = 'n' then
        match t with
        | 'u' :: 'l' :: 'l' :: t2 => some (.vNull, t2)
        | _ => none
      else if c = '[' then
        match skipWs t with
        | ']' :: r => some (.vArr .nil, r)
        | _ =>
          match parseJElems fuel t with
          | none => none
          | some (vs, r) => some (.vArr (ValueList.ofList vs), r)
      else if c = '\x7b' then
        match skipWs t with
        | '\x7d' :: r => some (.vObj .nil, r)
        | _ =>
          match parseJMembers fuel t with
          | none => none
          | some (fs, r) =>
            some (.vObj (FieldList.ofPairs
              (fs.foldl (fun acc (kv : String × Value) =>
                Record.setVal acc kv.1 kv.2) [])), r)
      else
        match parseJNum (c :: t) with
        | none => none
        | some (d, r) => some (.vNum d, r)

/-- Comma-separated array elements up to the closing bracket. -/
def parseJElems : Nat → List Char → Option (List Value × List Char)
  | 0, _ => none
  | fuel + 1, cs =>
    match parseJVal fuel cs with
    | none => none
    | some (v, rest) =>
      match skipWs rest with
      | [] => none
      | c :: t =>
        if c = ',' then
          match parseJElems fuel t with
          | none => none
          | some (vs, r) => some (v :: vs, r)
        else if c = ']' then some ([v], t)
        else none

/-- Comma-separated object members up to the closing brace (duplicate keys:
last wins, applied by the caller's fold). -/
def parseJMembers : Nat → List Char → Option (List (String × Value) × List Char)
  | 0, _ => none
  | fuel + 1, cs =>
    match skipWs cs with
    | [] => none
    | c :: t =>
      if c = '"' then
        match parseJStr (t.length + 1) t with
        | none => none
        | some (k, rest) =>
          match skipWs rest with
          | [] => none
          | c2 :: t2 =>
            if c2 = ':' then
              match parseJVal fuel t2 with
              | none => none
              | some (v, rest2) =>
                match skipWs rest2 with
                | [] => none
                | c3 :: t3 =>
                  if c3 = ',' then
                    match parseJMembers fuel t3 with
                    | none => none
                    | some (fs, r) => some ((⟨k⟩, v) :: fs, r)
                  else if c3 = '\x7d' then some ([(⟨k⟩, v)], t3)
                  else none
            else none
      else none

end

/-- `json.loads`: one value, nothing but whitespace after it. -/
def jsonLoads (s : String) : Option Value :=
  match parseJVal (s.length + 1) s.data with
  | none => none
  | some (v, rest) => if (skipWs rest).isEmpty then some v else none

/-! ### `parse_json` (lines 311-337) -/

def startsWithChars : List Char → List Char → Bool
  | _, [] => true
  | [], _ :: _ => false
  | a :: as, b :: bs => a = b && startsWithChars as bs

def hasSub : List Char → List Char → Bool
  | hay, needle =>
    if startsWithChars hay needle then true
    else match hay with
      | [] => false
      | _ :: t => hasSub t needle

/-- Lines 327-331 applied to one record of the `feedbacks` array. -/
def normalizeJsonRecord (record : Record) : Except PyErr Record :=
  match record.findVal "sentiment_score" with
  | some v =>
    if (match v with | .vNull => true | _ => v.eqStr "null") then
      .ok (record.setVal "sentiment_score" .vNull)
    else if !v.eqStr "" then
      (pyFloat v).map fun d => record.setVal "sentiment_score" (.vNum d)
    else .ok record
  | none => .ok record

/-- The elements of `feedbacks` as records.  Non-dict elements raise
`TypeError` at the first key-membership test (the model treats the unexercised
string-element case the same way). -/
def asRecords : List Value → Except PyErr (List Record)
  | [] => .ok []
  | .vObj o :: rest =>
    (match asRecords rest with
     | .error e => .error e
     | .ok rs => .ok (o.toPairs :: rs))
  | _ :: _ => .error .typeError

/-- The normalisation loop over the `feedbacks` records (first error wins). -/
def normalizeRecords : List Record → Except PyErr (List Record)
  | [] => .ok []
  | r :: rest =>
    match normalizeJsonRecord r with
    | .error e => .error e
    | .ok nr =>
      match normalizeRecords rest with
      | .error e => .error e
      | .ok nrs => .ok (nr :: nrs)

/-- `parse_json(json_data)`: `json.loads`, the `feedbacks` check, per-record
`sentiment_score` normalisation.  Only `json.JSONDecodeError` is caught and
re-raised as `ValueError`; a `float` conversion failure escapes. -/
def parse_json (json_data : String) : Except PyErr (List Record) :=
  let body : Except PyErr (List Record) :=
    match jsonLoads json_data with
    | none => .error .jsonDecodeError
    | some (.vObj fields) =>
      match Record.findVal fields.toPairs "feedbacks" with
      | some (.vArr elems) =>
        (match asRecords elems.toList with
         | .error e => .error e
         | .ok records => normalizeRecords records)
      | _ => .error (.valueError "ERROR: Invalid JSON structure. Expected 'feedbacks' array.")
    | some (.vArr elems) =>
      if elems.toList.any (·.eqStr "feedbacks") then .error .typeError
      else .error (.valueError "ERROR: Invalid JSON structure. Expected 'feedbacks' array.")
    | some (.vStr s) =>
      if hasSub s.data "feedbacks".data then .error .typeError
      else .error (.valueError "ERROR: Invalid JSON structure. Expected 'feedbacks' array.")
    | some _ => .error .typeError
  match body with
  | .error .jsonDecodeError => .error (.valueError "ERROR: Invalid JSON format.")
  | other => other

/-! ### `parse_csv` (lines 286-309)

`csv.DictReader` over `csv_data.strip().split('\n')` with the default
dialect: comma separator, `"`-quoting with `""` doubling (text after a
closing quote is appended leniently), blank lines skipped, missing cells
filled with `None`; surplus cells (the `None` rest key) are dropped by the
model. -/

/-- Inside a quoted cell: collect until the closing quote (`""` escapes). -/
def csvQuoted : List Char → List Char → List Char × List Char
  | acc, [] => (acc.reverse, [])
  | acc, '"' :: '"' :: t => csvQuoted ('"' :: acc) t
  | acc, '"' :: t => (acc.reverse, t)
  | acc, c :: t => csvQuoted (c :: acc) t

/-- Unquoted run up to a comma; `none` when the line ends. -/
def csvPlain : List Char → List Char → List Char × Option (List Char)
  | acc, [] => (acc.reverse, none)
  | acc, ',' :: t => (acc.reverse, some t)
  | acc, c :: t => csvPlain (c :: acc) t

/-- Split one CSV line into cells. -/
def csvRowGo (cs : List Char) (fuel : Nat) : List String :=
  match fuel with
  | 0 => []
  | fuel + 1 =>
    match cs with
    | '"' :: t =>
      let (q, r) := csvQuoted [] t
      let (u, r2) := csvPlain [] r
      (match r2 with
       | none => [⟨q ++ u⟩]
       | some rest => String.mk (q ++ u) :: csvRowGo rest fuel)
    | _ =>
      let (u, r2) := csvPlain [] cs
      (match r2 with
       | none => [⟨u⟩]
       | some rest => String.mk u :: csvRowGo rest fuel)

/-- One parsed CSV row (the empty line gives the empty row). -/
def csvRow (cs : List Char) : List String :=
  if cs.isEmpty then [] else csvRowGo cs (cs.length + 1)

/-- `DictReader` row dict: `dict(zip(fieldnames, row))` completed with
`None` for missing trailing fields. -/
def mkRow (names : List String) (cells : List String) : Record :=
  (names.enum.foldl (fun acc nk =>
    Record.setVal acc nk.2 ((cells.get? nk.1).elim Value.vNull Value.vStr)) [])

/-- `s.split('\n')` at the character level (keeps empty pieces). -/
def splitNl : List Char → List (List Char)
  | [] => [[]]
  | '\n' :: t => [] :: splitNl t
  | c :: t =>
    match splitNl t with
    | [] => [[c]]
    | p :: ps => (c :: p) :: ps

/-- Header and data rows of `csv.DictReader(csv_data.strip().split('\n'))`
(blank rows skipped). -/
def dictRows (csv_data : String) : List Record :=
  match splitNl (pyStrip csv_data).data with
  | [] => []
  | header :: rest =>
    let names := csvRow header
    ((rest.map csvRow).filter fun r => !r.isEmpty).map (mkRow names)

/-- Lines 300-304 applied to one row. -/
def normalizeCsvRow (row : Record) : Except PyErr Record :=
  match row.findVal "sentiment_score" with
  | some v =>
    if !v.truthy then .ok (row.setVal "sentiment_score" .vNull)
    else
      match v with
      | .vStr s =>
        if pyLower s == "null" then .ok (row.setVal "sentiment_score" .vNull)
        else (floatOfString s).map fun d => row.setVal "sentiment_score" (.vNum d)
      | w => (pyFloat w).map fun d => row.setVal "sentiment_score" (.vNum d)
  | none => .ok row

/-- The row-normalisation loop of lines 299-306 (first error wins). -/
def normalizeRows : List Record → Except PyErr (List Record)
  | [] => .ok []
  | r :: rest =>
    match normalizeCsvRow r with
    | .error e => .error e
    | .ok nr =>
      match normalizeRows rest with
      | .error e => .error e
      | .ok nrs => .ok (nr :: nrs)

/-- `parse_csv(csv_data)`: every exception in the loop is re-raised as
`ValueError("ERROR: Invalid CSV format. " + str(e))`. -/
def parse_csv (csv_data : String) : Except PyErr (List Record) :=
  match normalizeRows (dictRows csv_data) with
  | .ok records => .ok records
  | .error e => .error (.valueError ("ERROR: Invalid CSV format. " ++ e.msg))

/-! ### `generate_detailed_report` (lines 216-284) -/

/-- `original.get("sentiment_score", "Not provided")` formatted by the template. -/
def origScoreStr (original : Record) : String :=
  match original.findVal "sentiment_score" with
  | some v => pyStr v
  | none => "Not provided"

/-- One iteration of the report loop (lines 235-270). -/
def recordBlock (original processed : Record) : Except PyErr String :=
  match processed.getKey "feedback_text" with
  | .error e => .error e
  | .ok ptext =>
  match calcValue ptext with
  | .error e => .error e
  | .ok (sentiment_score, positive_count, negative_count, total_words) =>
  match original.getKey "feedback_id" with
  | .error e => .error e
  | .ok fid =>
  match original.getKey "language" with
  | .error e => .error e
  | .ok lang =>
  match original.getKey "feedback_text" with
  | .error e => .error e
  | .ok ftext =>
  match original.getKey "timestamp" with
  | .error e => .error e
  | .ok ts =>
  match processed.getKey "sentiment_score" with
  | .error e => .error e
  | .ok pscore =>
  match processed.getKey "timestamp" with
  | .error e => .error e
  | .ok pts =>
  .ok ("## Detailed Analysis per Feedback\n\n### Feedback: " ++ pyStr fid
    ++ "\n\n#### Input Data:\n- **Language:** " ++ pyStr lang
    ++ "\n- **Feedback Text:** " ++ pyStr ftext
    ++ "\n- **Sentiment Score (if provided):** " ++ origScoreStr original
    ++ "\n- **Timestamp:** " ++ pyStr ts
    ++ "\n\n---\n\n## Processing Steps\n\n### 1. Translation Check\n- **IF** language is not \"en\", **THEN** the translated text is: "
    ++ pyStr ptext
    ++ "\n- **ELSE**: Use the original text.\n\n### 2. Sentiment Analysis Calculation\n- **Count of Positive Words (P):** "
    ++ natStr positive_count
    ++ "\n- **Count of Negative Words (N):** " ++ natStr negative_count
    ++ "\n- **Total Words:** " ++ natStr total_words
    ++ "\n- **Calculation:**  \n  $$ \\text\x7bsentiment\\_score\x7d = \\frac\x7b("
    ++ natStr positive_count ++ " - " ++ natStr negative_count
    ++ ")\x7d\x7btotal\\_words\x7d = \\frac\x7b"
    ++ intStr ((positive_count : Int) - (negative_count : Int))
    ++ "\x7d\x7b" ++ natStr total_words ++ "\x7d = " ++ sentiment_score.str
    ++ " $$\n- **Final Sentiment Score:** " ++ pyStr pscore
    ++ "\n\n### 3. Timestamp Synchronization\n- **Synchronized Timestamp:** " ++ pyStr pts
    ++ "\n\n---\n\n")

def recordBlocks : List (Record × Record) → Except PyErr String
  | [] => .ok ""
  | (o, p) :: rest =>
    match recordBlock o p with
    | .error e => .error e
    | .ok b =>
      match recordBlocks rest with
      | .error e => .error e
      | .ok bs => .ok (b ++ bs)

/-- The trailing structured payload of the detail report. -/
def detailPayload (processed_data : List Record) : String :=
  jsonDumps2 (.vObj (FieldList.ofPairs
    [("feedbacks", .vArr (ValueList.ofList
       (processed_data.map fun r => .vObj (FieldList.ofPairs r))))]))

def generate_detailed_report (data processed_data : List Record) : Except PyErr String :=
  match recordBlocks (data.zip processed_data) with
  | .error e => .error e
  | .ok blocks =>
  .ok ("# Customer Feedback JSON Summary\n\n**Total Feedback Records Evaluated:** "
    ++ natStr data.length ++ "\n\n---\n\n"
    ++ blocks
    ++ "## Structured JSON OUTPUT\n\n```json\n"
    ++ detailPayload processed_data
    ++ "\n```")

/-! ### `process_data` (lines 339-367) -/

/-- `process_data(data_input)`: decode (only this step sits in a
`try/except ValueError`, whose message becomes the returned string), then the
validation gate, then enrichment and the detail report.  `hostTzSec` is the
host timezone used by `astimezone` on naive datetimes. -/
def process_data (hostTzSec : Int) (data_input : String) : Except PyErr String :=
  match (if startsWithChars (pyStrip data_input).data "\x7b".data then parse_json data_input
         else parse_csv data_input) with
  | .error e => if e.isValueError then .ok e.msg else .error e
  | .ok data =>
    match validate_data data with
    | .error e => .error e
    | .ok (is_valid, _error_messages) =>
      if !is_valid then
        generate_validation_report data
      else
        match process_feedback hostTzSec data with
        | .error e => .error e
        | .ok processed_data => generate_detailed_report data processed_data

/-! ### Specification-side definitions (used only in theorem statements) -/

/-- The positive-token count as the specification words it: the number of
tokens (counted with multiplicity) that exactly equal some entry of the
positive lexicon. -/
def specPositiveCount (text : String) : Nat :=
  ((pySplitWs (pyLower text)).filter fun t => positive_words.contains t).length

/-- Present `language` values are strings (they reach `re.match`). -/
def langTyped (r : Record) : Bool :=
  match r.findVal "language" with
  | some (.vStr _) => true
  | some _ => false
  | none => true

/-- Truthy `timestamp` values are strings (they reach `.replace`). -/
def tsTyped (r : Record) : Bool :=
  match r.findVal "timestamp" with
  | some (.vStr _) => true
  | some v => !v.truthy
  | none => true

/-- Present `feedback_text` values are strings (they reach `.lower()`). -/
def ftextTyped (r : Record) : Bool :=
  match r.findVal "feedback_text" with
  | some (.vStr _) => true
  | some _ => false
  | none => true

/-- The typing every delimited-table row with all its cells present enjoys:
string-valued `language`, `timestamp` and `feedback_text`. -/
def wellTypedRecord (r : Record) : Bool :=
  langTyped r && tsTyped r && ftextTyped r

def wellTypedBatch (data : List Record) : Bool := data.all wellTypedRecord

/-- A record whose (string) timestamp, when it parses at all, carries an
explicit UTC offset, so that `astimezone` never consults the host timezone. -/
def awareRecord (r : Record) : Bool :=
  match r.findVal "timestamp" with
  | some (.vStr s) =>
    match fromisoformat (replaceZ s) with
    | some dt => dt.tzSec.isSome
    | none => true
  | _ => true

/-- Canonical-number side condition: an `int`, or a `float` in the canonical
decimal form that parsing and printing preserve. -/
def PyNum.wf (d : PyNum) : Bool :=
  d.exp = 0 || d.exp = 1 || decide (d.man % 10 ≠ 0)

/-- A `sentiment_score` value the decode normalisation leaves unchanged:
absent, `None`, or a `float` number. -/
def scoreClean (r : Record) : Bool :=
  match r.findVal "sentiment_score" with
  | none => true
  | some .vNull => true
  | some (.vNum d) => decide (1 ≤ d.exp)
  | some _ => false

/-- Distinct keys (true of every record the enricher emits). -/
def keysNodup (r : Record) : Bool := decide (r.map Prod.fst).Nodup

/-- Scalar values in canonical form (what decoded JSON scalars look like). -/
def cleanVal : Value → Bool
  | .vNum d => d.wf
  | .vArr _ => false
  | .vObj _ => false
  | _ => true

def cleanRecord (r : Record) : Bool := r.all fun kv => cleanVal kv.2

end Feedback

/-! ## Theorems -/

namespace Feedback

/-! ### Arithmetic lemmas about rounding -/

theorem rheFrac_eq_roundHalfEven (num : Int) (den : Nat) (hden : 0 < den) :
    rheFrac num den = roundHalfEven ((num : Rat) / (den : Rat)) := by
  have hd0 : ((den : Rat)) ≠ 0 := by positivity
  have hdQ : (0 : Rat) < (den : Rat) := by positivity
  have hfloor : ⌊((num : Rat) / (den : Rat))⌋ = num / (den : Int) :=
    Rat.floor_intCast_div_natCast num den
  unfold rheFrac roundHalfEven
  rw [hfloor]
  have hr : (num : Rat) / (den : Rat) - ((num / (den : Int) : Int) : Rat)
      = ((num - num / (den : Int) * den : Int) : Rat) / (den : Rat) := by
    push_cast
    field_simp
    try ring
  rw [hr]
  have hlt : (((num - num / (den : Int) * den : Int) : Rat) / (den : Rat) < 1 / 2)
      ↔ (2 * (num - num / (den : Int) * den) < (den : Int)) := by
    rw [div_lt_div_iff₀ hdQ (by norm_num : (0 : Rat) < 2), one_mul,
      show ((num - num / (den : Int) * den : Int) : Rat) * 2
          = ((2 * (num - num / (den : Int) * den) : Int) : Rat) by push_cast; ring]
    exact_mod_cast Iff.rfl
  have hgt : ((1 : Rat) / 2 < ((num - num / (den : Int) * den : Int) : Rat) / (den : Rat))
      ↔ ((den : Int) < 2 * (num - num / (den : Int) * den)) := by
    rw [div_lt_div_iff₀ (by norm_num : (0 : Rat) < 2) hdQ, one_mul,
      show ((num - num / (den : Int) * den : Int) : Rat) * 2
          = ((2 * (num - num / (den : Int) * den) : Int) : Rat) by push_cast; ring]
    exact_mod_cast Iff.rfl
  by_cases h1 : 2 * (num - num / (den : Int) * den) < (den : Int)
  · rw [if_pos h1, if_pos (hlt.mpr h1)]
  · rw [if_neg h1, if_neg (fun hc => h1 (hlt.mp hc))]
    by_cases h2 : (den : Int) < 2 * (num - num / (den : Int) * den)
    · rw [if_pos h2, if_pos (hgt.mpr h2)]
    · rw [if_neg h2, if_neg (fun hc => h2 (hgt.mp hc))]

theorem round2Frac_eq_round2 (num : Int) (den : Nat) (hden : 0 < den) :
    round2Frac num den = round2 ((num : Rat) / (den : Rat)) := by
  unfold round2Frac round2
  congr 1
  rw [rheFrac_eq_roundHalfEven _ _ hden]
  congr 1
  have hd0 : ((den : Rat)) ≠ 0 := by positivity
  push_cast
  field_simp
  try ring

theorem floatCanon_toRat : ∀ (e : Nat) (m : Int), (floatCanon m e).toRat = (m : Rat) / 10 ^ e
  | 0, m => by
    simp only [floatCanon, PyNum.toRat]
    push_cast
    ring
  | 1, _ => by
    simp only [floatCanon, PyNum.toRat]
  | e + 2, m => by
    simp only [floatCanon]
    by_cases h : m % 10 = 0
    · rw [if_pos h, floatCanon_toRat (e + 1) (m / 10)]
      obtain ⟨k, hk⟩ : (10 : Int) ∣ m := Int.dvd_of_emod_eq_zero h
      subst hk
      rw [Int.mul_ediv_cancel_left _ (by norm_num)]
      push_cast
      rw [show ((10 : Rat)) ^ (e + 2) = 10 ^ (e + 1) * 10 by ring,
        div_eq_div_iff (by positivity) (by positivity)]
      ring
    · rw [if_neg h]
      simp only [PyNum.toRat]

theorem rheFrac_le {num den k : Int} (hden : 0 < den) (h : num ≤ k * den) :
    rheFrac num den ≤ k := by
  have hf : num / den ≤ k := by
    calc num / den ≤ k * den / den := Int.ediv_le_ediv hden h
    _ = k := Int.mul_ediv_cancel _ (ne_of_gt hden)
  unfold rheFrac
  rcases lt_or_eq_of_le hf with hlt | heq
  · split
    · exact hf
    · split
      · omega
      · split <;> omega
  · have hrem : num - num / den * den ≤ 0 := by
      rw [heq] at *
      omega
    rw [if_pos (by omega)]
    exact hf

theorem le_rheFrac {num den k : Int} (hden : 0 < den) (h : -(k * den) ≤ num) :
    -k ≤ rheFrac num den := by
  have hf : -k ≤ num / den := by
    calc (-k) = -(k * den) / den := by
          rw [Int.neg_mul_eq_neg_mul, Int.mul_ediv_cancel _ (ne_of_gt hden)]
    _ ≤ num / den := Int.ediv_le_ediv hden h
  unfold rheFrac
  split
  · exact hf
  · split
    · omega
    · split <;> omega

theorem countLex_le (lex : List String) (hnd : lex.Nodup) (tks : List String) :
    (lex.countP fun w => tks.contains w) ≤ tks.length := by
  rw [List.countP_eq_length_filter]
  have hl : (lex.filter fun w => tks.contains w).Nodup := hnd.filter _
  have hsub : (lex.filter fun w => tks.contains w).toFinset ⊆ tks.toFinset := by
    intro x hx
    rw [List.mem_toFinset] at hx ⊢
    have hmem := List.of_mem_filter hx
    exact List.elem_iff.mp hmem
  calc (lex.filter fun w => tks.contains w).length
      = (lex.filter fun w => tks.contains w).toFinset.card := (List.toFinset_card_of_nodup hl).symm
    _ ≤ tks.toFinset.card := Finset.card_le_card hsub
    _ ≤ tks.length := tks.toFinset_card_le

/-! ### `str.lower` leaves the token structure intact -/

theorem isPySpace_toLower (c : Char) : isPySpace c.toLower = isPySpace c := by
  simp only [Char.toLower]
  have hspace : ∀ k : Nat, 65 ≤ k →
      ((decide (k = 32) || decide (k = 9) || decide (k = 10) || decide (k = 13)
        || decide (k = 11) || decide (k = 12)) = false) := by
    intro k hk
    simp only [Bool.or_eq_false_iff, decide_eq_false_iff_not]
    omega
  split
  · next h =>
    obtain ⟨h1, h2⟩ := h
    have hv : (Char.ofNat (c.toNat + 32)).toNat = c.toNat + 32 := by
      set n := c.toNat with hn
      interval_cases n <;> decide
    unfold isPySpace
    rw [hv, hspace _ (by omega), hspace _ (by omega)]
  · rfl

theorem splitWsAux_map_toLower (cs cur : List Char) :
    splitWsAux (cs.map Char.toLower) (cur.map Char.toLower)
      = (splitWsAux cs cur).map fun l => l.map Char.toLower := by
  induction cs generalizing cur with
  | nil =>
    simp only [List.map_nil, splitWsAux, List.isEmpty_eq_true, List.map_eq_nil_iff]
    by_cases h : cur = []
    · simp [h, splitWsAux]
    · rw [if_neg h, if_neg (by simpa using h)]
      simp [splitWsAux, h]
  | cons c cs ih =>
    simp only [List.map_cons, splitWsAux, isPySpace_toLower]
    by_cases hsp : isPySpace c = true
    · rw [hsp]
      simp only [if_true]
      by_cases h : cur = []
      · subst h
        simpa using ih []
      · rw [if_neg (by simpa using h), if_neg (by simpa using h)]
        simp only [List.map_cons]
        rw [show (cur.map Char.toLower).reverse = cur.reverse.map Char.toLower by
              simp [List.map_reverse]]
        simpa using congrArg (List.cons (cur.reverse.map Char.toLower)) (ih [])
    · rw [Bool.not_eq_true] at hsp
      rw [hsp]
      simp only [if_false, Bool.false_eq_true]
      exact ih (c :: cur)

theorem pySplitWs_pyLower_nil (s : String) :
    pySplitWs (pyLower s) = [] ↔ pySplitWs s = [] := by
  unfold pySplitWs pyLower
  rw [show (String.mk (s.data.map Char.toLower)).data = s.data.map Char.toLower from rfl,
    show s.data.map Char.toLower = s.data.map Char.toLower by rfl]
  rw [show ([] : List Char) = ([] : List Char).map Char.toLower from rfl,
    splitWsAux_map_toLower]
  simp

/-! ### Claim C2 -/

/-- C2, counterexample: the claim counts matching tokens with multiplicity.
On `"good good"` that count is 2 and the claimed score `round(2/2, 2) = 1.0`,
but `calculate_sentiment_score` counts each lexicon entry at most once,
reporting `positive_count = 1` and score `0.5`. -/
theorem C2_token_multiplicity_counterexample :
    (calculate_sentiment_score "good good").2.1 = 1
      ∧ specPositiveCount "good good" = 2
      ∧ (calculate_sentiment_score "good good").1 = ⟨5, 1⟩
      ∧ round2Frac ((specPositiveCount "good good" : Int) - 0)
          ((pySplitWs (pyLower "good good")).length : Int) = ⟨10, 1⟩ := by
  constructor
  · decide
  constructor
  · decide
  constructor
  · decide
  · decide

/-- C2, amended: the scorer lowercases the text, splits it on whitespace,
and returns `positiveCount` equal to the number of **positive-lexicon
entries** that occur among the tokens (each entry counted at most once,
regardless of how often it occurs), likewise `negativeCount`;
`totalWordCount` is the token count and
`score = round((positiveCount - negativeCount) / totalWordCount, 2)`
when the token count is positive, else `0.0`.  Matching is whole-token
equality. -/
theorem C2_lexicon_entry_counts (text : String) :
    calculate_sentiment_score text
      = (round2 (if 0 < (pySplitWs (pyLower text)).length
            then (((positive_words.filter fun w =>
                      (pySplitWs (pyLower text)).contains w).length : Int)
                  - ((negative_words.filter fun w =>
                      (pySplitWs (pyLower text)).contains w).length : Int) : Rat)
                 / ((pySplitWs (pyLower text)).length : Rat)
            else 0),
         (positive_words.filter fun w => (pySplitWs (pyLower text)).contains w).length,
         (negative_words.filter fun w => (pySplitWs (pyLower text)).contains w).length,
         (pySplitWs (pyLower text)).length) := by
  simp only [calculate_sentiment_score, List.countP_eq_length_filter]
  by_cases h : 0 < (pySplitWs (pyLower text)).length
  · rw [if_pos h, if_pos h,
      round2Frac_eq_round2 _ _ h]
    congr 2
    push_cast
    ring
  · rw [if_neg h, if_neg h]
    rw [show round2 (0 : Rat) = round2 (((0 : Int) : Rat) / ((1 : Nat) : Rat)) by norm_num]
    rw [← round2Frac_eq_round2 0 1 (by norm_num)]
    norm_num

/-! ### Claim C7 -/

/-- C7: the score returned by `calculate_sentiment_score` always lies in
`[-1, 1]`, and on a text with no whitespace tokens the function returns
score `0.0` with all counts zero instead of failing on the division. -/
theorem C7_score_bounds (text : String) :
    -1 ≤ (calculate_sentiment_score text).1.toRat
      ∧ (calculate_sentiment_score text).1.toRat ≤ 1
      ∧ (pySplitWs text = [] → calculate_sentiment_score text = (⟨0, 1⟩, 0, 0, 0)) := by
  have hzero : (round2Frac 0 1).toRat = 0 := by
    rw [show round2Frac 0 1 = ⟨0, 1⟩ by decide]
    simp [PyNum.toRat]
  refine ⟨?_, ?_, ?_⟩
  · simp only [calculate_sentiment_score]
    by_cases h : (pySplitWs (pyLower text)).length > 0
    · rw [if_pos h]
      have hn : (negative_words.countP fun w => (pySplitWs (pyLower text)).contains w)
          ≤ (pySplitWs (pyLower text)).length :=
        countLex_le negative_words (by decide) _
      unfold round2Frac
      rw [floatCanon_toRat]
      have hR : -100 ≤ rheFrac
          ((((positive_words.countP fun w => (pySplitWs (pyLower text)).contains w) : Int)
            - ((negative_words.countP fun w => (pySplitWs (pyLower text)).contains w) : Int))
           * 100) ((pySplitWs (pyLower text)).length : Int) := by
        have := @le_rheFrac
          ((((positive_words.countP fun w => (pySplitWs (pyLower text)).contains w) : Int)
            - ((negative_words.countP fun w => (pySplitWs (pyLower text)).contains w) : Int)) * 100)
          (((pySplitWs (pyLower text)).length : Int)) 100
          (by exact_mod_cast h) (by omega)
        omega
      rw [show ((10 : Rat)) ^ (2 : Nat) = 100 by norm_num]
      rw [le_div_iff₀ (by norm_num : (0 : Rat) < 100)]
      have hRQ : ((-100 : Int) : Rat) ≤ _ := Int.cast_le.mpr hR
      push_cast at hRQ ⊢
      linarith [hRQ]
    · rw [if_neg h, hzero]
      norm_num
  · simp only [calculate_sentiment_score]
    by_cases h : (pySplitWs (pyLower text)).length > 0
    · rw [if_pos h]
      have hp : (positive_words.countP fun w => (pySplitWs (pyLower text)).contains w)
          ≤ (pySplitWs (pyLower text)).length :=
        countLex_le positive_words (by decide) _
      unfold round2Frac
      rw [floatCanon_toRat]
      have hR : rheFrac
          ((((positive_words.countP fun w => (pySplitWs (pyLower text)).contains w) : Int)
            - ((negative_words.countP fun w => (pySplitWs (pyLower text)).contains w) : Int))
           * 100) ((pySplitWs (pyLower text)).length : Int) ≤ 100 :=
        rheFrac_le (by exact_mod_cast h) (by omega)
      rw [show ((10 : Rat)) ^ (2 : Nat) = 100 by norm_num]
      rw [div_le_one (by norm_num : (0 : Rat) < 100)]
      exact_mod_cast hR
    · rw [if_neg h, hzero]
      norm_num
  · intro h0
    have htks : pySplitWs (pyLower text) = [] := (pySplitWs_pyLower_nil text).mpr h0
    simp only [calculate_sentiment_score, htks]
    decide

/-- Witness for C7 at the empty text. -/
theorem C7_score_bounds_witness :
    -1 ≤ (calculate_sentiment_score "").1.toRat
      ∧ (calculate_sentiment_score "").1.toRat ≤ 1
      ∧ calculate_sentiment_score "" = (⟨0, 1⟩, 0, 0, 0) :=
  ⟨(C7_score_bounds "").1, (C7_score_bounds "").2.1,
    (C7_score_bounds "").2.2 (by decide)⟩

/-! ### Claim C5 -/

/-- C5: the claim says the validation path always returns normally, with
wrong-type values surfaced as per-row messages.  In fact a numeric
`timestamp` (reachable from structured input) makes `validate_data` raise an
uncaught `AttributeError` at `.replace` (line 61; the handler catches only
`ValueError`/`TypeError`), and a present null `language` makes
`generate_validation_report` raise `TypeError` at `re.match` (line 83) even
though `validate_data` returned normally. -/
theorem C5_validation_raises_on_wrong_types :
    validate_data [[("feedback_id", .vStr "a"), ("language", .vStr "en"),
        ("feedback_text", .vStr "x"), ("timestamp", .vNum ⟨5, 0⟩)]]
      = .error .attributeError
    ∧ generate_validation_report [[("feedback_id", .vStr "a"), ("language", .vNull),
        ("feedback_text", .vStr "x"), ("timestamp", .vStr "2023-01-01T00:00:00Z")]]
      = .error .typeError := by
  constructor
  · decide
  · decide

/-! ### Claim C6 -/

/-- C6, counterexample: a record that is valid except for an empty
`feedback_text` does not pass validation — the truthiness test of line 36
reports the empty string as a missing required field. -/
theorem C6_empty_text_counterexample :
    validate_data [[("feedback_id", .vStr "F1"), ("language", .vStr "en"),
        ("feedback_text", .vStr ""), ("timestamp", .vStr "2023-01-01T00:00:00Z")]]
      = .ok (false, ["ERROR: Missing required field(s): feedback_text in row 1."]) := by
  decide

theorem languageCheck_ok_of_typed (r : Record) (n : Nat) (h : langTyped r = true) :
    ∃ l, languageCheck r n = .ok l := by
  unfold langTyped at h
  unfold languageCheck
  cases hv : r.findVal "language" with
  | none => exact ⟨[], rfl⟩
  | some v =>
    rw [hv] at h
    cases v with
    | vStr s =>
      dsimp only
      split
      · split
        · exact ⟨_, rfl⟩
        · exact ⟨_, rfl⟩
      · exact ⟨_, rfl⟩
    | vNum d => simp at h
    | vBool b => simp at h
    | vNull => simp at h
    | vArr l => simp at h
    | vObj l => simp at h

theorem timestampCheck_ok_of_typed (r : Record) (n : Nat) (h : tsTyped r = true) :
    ∃ l, timestampCheck r n = .ok l := by
  unfold tsTyped at h
  unfold timestampCheck
  cases hv : r.findVal "timestamp" with
  | none => exact ⟨[], rfl⟩
  | some v =>
    rw [hv] at h
    cases v with
    | vStr s =>
      dsimp only
      split
      · split <;> exact ⟨_, rfl⟩
      · exact ⟨_, rfl⟩
    | vNum d =>
      simp only [Bool.not_eq_true'] at h
      dsimp only
      rw [if_neg (by simp [h])]
      exact ⟨[], rfl⟩
    | vBool b =>
      simp only [Bool.not_eq_true'] at h
      dsimp only
      rw [if_neg (by simp [h])]
      exact ⟨[], rfl⟩
    | vNull =>
      simp only [Bool.not_eq_true'] at h
      dsimp only
      rw [if_neg (by simp [h])]
      exact ⟨[], rfl⟩
    | vArr l =>
      simp only [Bool.not_eq_true'] at h
      dsimp only
      rw [if_neg (by simp [h])]
      exact ⟨[], rfl⟩
    | vObj l =>
      simp only [Bool.not_eq_true'] at h
      dsimp only
      rw [if_neg (by simp [h])]
      exact ⟨[], rfl⟩

theorem recordErrors_eq_of_typed (r : Record) (n : Nat)
    (hl : langTyped r = true) (ht : tsTyped r = true) :
    ∃ l t, languageCheck r n = .ok l ∧ timestampCheck r n = .ok t
      ∧ recordErrors r n = .ok (missingCheck r n ++ scoreCheck r n ++ l ++ t) := by
  obtain ⟨l, hll⟩ := languageCheck_ok_of_typed r n hl
  obtain ⟨t, htt⟩ := timestampCheck_ok_of_typed r n ht
  refine ⟨l, t, hll, htt, ?_⟩
  unfold recordErrors
  rw [hll, htt]

/-- C6, amended: a record whose `feedback_text` is present but equal to the
empty string is reported as a **missing required field** (the validator tests
truthiness, not presence): validation fails, and the first message for the
row is the combined missing-fields message naming `feedback_text`.  (The
scorer itself would map an empty text to `0.0`, but enrichment is gated off
by the failure.) -/
theorem C6_empty_text_is_missing (r : Record)
    (hft : r.findVal "feedback_text" = some (.vStr ""))
    (hl : langTyped r = true) (ht : tsTyped r = true) :
    "feedback_text" ∈ missingFields r
      ∧ ∃ rest, validate_data [r]
          = .ok (false, ("ERROR: Missing required field(s): "
              ++ String.intercalate ", " (missingFields r)
              ++ " in row " ++ natStr 1 ++ ".") :: rest) := by
  have hmem : "feedback_text" ∈ missingFields r := by
    unfold missingFields
    rw [List.mem_filter]
    refine ⟨by decide, ?_⟩
    unfold Record.hasKey Record.getV
    rw [hft]
    decide
  refine ⟨hmem, ?_⟩
  obtain ⟨l, t, _, _, hre⟩ := recordErrors_eq_of_typed r 1 hl ht
  have hmce : missingCheck r 1
      = ["ERROR: Missing required field(s): "
          ++ String.intercalate ", " (missingFields r) ++ " in row " ++ natStr 1 ++ "."] := by
    unfold missingCheck
    rw [if_neg (by
      simp only [List.isEmpty_eq_true]
      intro hnil
      rw [hnil] at hmem
      exact absurd hmem (List.not_mem_nil _))]
  have haux : validateAux [r] 1 = .ok (missingCheck r 1 ++ scoreCheck r 1 ++ l ++ t) := by
    unfold validateAux
    rw [hre]
    show Except.ok ((missingCheck r 1 ++ scoreCheck r 1 ++ l ++ t) ++ []) = _
    rw [List.append_nil]
  unfold validate_data
  rw [haux, hmce]
  exact ⟨_, rfl⟩

/-! ### Validity implies enrichment succeeds (shared by C1, C8, C9, C10) -/

theorem missingFields_nil_present (r : Record) (h : missingFields r = [])
    (f : String) (hf : f ∈ required_fields) :
    ∃ v, r.findVal f = some v ∧ v.truthy = true := by
  unfold missingFields at h
  rw [List.filter_eq_nil_iff] at h
  have hp := h f hf
  rw [Bool.not_eq_true, Bool.or_eq_false_iff] at hp
  obtain ⟨h1, h2⟩ := hp
  rw [Bool.not_eq_false'] at h1 h2
  unfold Record.hasKey at h1
  obtain ⟨v, hv⟩ := Option.isSome_iff_exists.mp h1
  refine ⟨v, hv, ?_⟩
  unfold Record.getV at h2
  rw [hv] at h2
  exact h2

theorem getKey_ok_of_findVal (r : Record) (f : String) (v : Value)
    (h : r.findVal f = some v) : r.getKey f = .ok v := by
  unfold Record.getKey
  rw [h]

theorem scoreCheck_nil_float_ok (r : Record) (n : Nat) (h : scoreCheck r n = [])
    (v : Value) (hv : r.findVal "sentiment_score" = some v) (hnn : v ≠ .vNull) :
    ∃ d, pyFloat v = .ok d := by
  unfold scoreCheck at h
  rw [hv] at h
  cases hpf : pyFloat v with
  | ok d => exact ⟨d, rfl⟩
  | error e =>
    cases v with
    | vNull => exact absurd rfl hnn
    | vStr s => dsimp only at h; rw [hpf] at h; simp at h
    | vNum d => dsimp only at h; rw [hpf] at h; simp at h
    | vBool b => dsimp only at h; rw [hpf] at h; simp at h
    | vArr l => dsimp only at h; rw [hpf] at h; simp at h
    | vObj l => dsimp only at h; rw [hpf] at h; simp at h

theorem timestampCheck_nil_parses (r : Record) (n : Nat) (h : timestampCheck r n = .ok [])
    (v : Value) (hv : r.findVal "timestamp" = some v) (htr : v.truthy = true) :
    ∃ s dt, v = .vStr s ∧ fromisoformat (replaceZ s) = some dt := by
  unfold timestampCheck at h
  rw [hv] at h
  cases v with
  | vStr s =>
    dsimp only at h
    rw [if_pos htr] at h
    cases hfm : fromisoformat (replaceZ s) with
    | some dt => exact ⟨s, dt, rfl, hfm⟩
    | none => rw [hfm] at h; simp at h
  | vNum d => dsimp only at h; rw [if_pos htr] at h; simp at h
  | vBool b => dsimp only at h; rw [if_pos htr] at h; simp at h
  | vNull => simp [Value.truthy] at htr
  | vArr l => dsimp only at h; rw [if_pos htr] at h; simp at h
  | vObj l => dsimp only at h; rw [if_pos htr] at h; simp at h

theorem translated_is_str (r : Record) (ftext lang : Value)
    (hft : ftextTyped r = true) (hfv : r.findVal "feedback_text" = some ftext) :
    ∃ s, translate_feedback ftext lang = .vStr s := by
  unfold ftextTyped at hft
  rw [hfv] at hft
  cases ftext with
  | vStr s =>
    unfold translate_feedback
    by_cases he : lang.eqStr "en" = true
    · rw [if_pos he]; exact ⟨s, rfl⟩
    · rw [if_neg he]; exact ⟨_, rfl⟩
  | vNum d => simp at hft
  | vBool b => simp at hft
  | vNull => simp at hft
  | vArr l => simp at hft
  | vObj l => simp at hft

theorem enrichScore_ok (r : Record) (n : Nat) (translated : Value)
    (hsc : scoreCheck r n = [])
    (htr : ∃ s, translated = .vStr s) :
    ∃ w, enrichScore r translated = .ok w := by
  obtain ⟨s, rfl⟩ := htr
  unfold enrichScore
  cases hv : r.findVal "sentiment_score" with
  | none => exact ⟨_, rfl⟩
  | some v =>
    cases v with
    | vNull => exact ⟨_, rfl⟩
    | vStr s2 =>
      obtain ⟨d, hd⟩ := scoreCheck_nil_float_ok r n hsc _ hv (by intro hc; cases hc)
      dsimp only
      rw [hd]
      exact ⟨_, rfl⟩
    | vNum d2 =>
      obtain ⟨d, hd⟩ := scoreCheck_nil_float_ok r n hsc _ hv (by intro hc; cases hc)
      dsimp only
      rw [hd]
      exact ⟨_, rfl⟩
    | vBool b =>
      obtain ⟨d, hd⟩ := scoreCheck_nil_float_ok r n hsc _ hv (by intro hc; cases hc)
      dsimp only
      rw [hd]
      exact ⟨_, rfl⟩
    | vArr l =>
      obtain ⟨d, hd⟩ := scoreCheck_nil_float_ok r n hsc _ hv (by intro hc; cases hc)
      dsimp only
      rw [hd]
      exact ⟨_, rfl⟩
    | vObj l =>
      obtain ⟨d, hd⟩ := scoreCheck_nil_float_ok r n hsc _ hv (by intro hc; cases hc)
      dsimp only
      rw [hd]
      exact ⟨_, rfl⟩

theorem recordErrors_nil_parts (r : Record) (n : Nat) (h : recordErrors r n = .ok []) :
    missingFields r = [] ∧ scoreCheck r n = []
      ∧ languageCheck r n = .ok [] ∧ timestampCheck r n = .ok [] := by
  unfold recordErrors at h
  cases hl : languageCheck r n with
  | error e => rw [hl] at h; simp at h
  | ok l =>
    rw [hl] at h
    cases ht : timestampCheck r n with
    | error e => rw [ht] at h; simp at h
    | ok t =>
      rw [ht] at h
      simp only [Except.ok.injEq, List.append_eq_nil] at h
      obtain ⟨⟨⟨hmc, hsc⟩, hll⟩, htt⟩ := h
      have hmf : missingFields r = [] := by
        unfold missingCheck at hmc
        by_cases he : (missingFields r).isEmpty
        · exact List.isEmpty_eq_true.mp he
        · rw [if_neg he] at hmc; simp at hmc
      exact ⟨hmf, hsc, by rw [hll], by rw [htt]⟩

theorem enrichScore_is_num (r : Record) (translated : Value) (w : Value)
    (h : enrichScore r translated = .ok w) : ∃ d, w = Value.vNum d := by
  unfold enrichScore at h
  cases hv : r.findVal "sentiment_score" with
  | none =>
    rw [hv] at h
    cases hc : calcValue translated with
    | ok q => rw [hc] at h; exact ⟨q.1, by simpa [Except.map] using h.symm⟩
    | error e => rw [hc] at h; simp [Except.map] at h
  | some v =>
    rw [hv] at h
    cases v with
    | vNull =>
      cases hc : calcValue translated with
      | ok q => rw [hc] at h; exact ⟨q.1, by simpa [Except.map] using h.symm⟩
      | error e => rw [hc] at h; simp [Except.map] at h
    | vStr s =>
      dsimp only at h
      cases hc : pyFloat (Value.vStr s) with
      | ok d => rw [hc] at h; exact ⟨d, by simpa [Except.map] using h.symm⟩
      | error e => rw [hc] at h; simp [Except.map] at h
    | vNum d2 =>
      dsimp only at h
      cases hc : pyFloat (Value.vNum d2) with
      | ok d => rw [hc] at h; exact ⟨d, by simpa [Except.map] using h.symm⟩
      | error e => rw [hc] at h; simp [Except.map] at h
    | vBool b =>
      dsimp only at h
      cases hc : pyFloat (Value.vBool b) with
      | ok d => rw [hc] at h; exact ⟨d, by simpa [Except.map] using h.symm⟩
      | error e => rw [hc] at h; simp [Except.map] at h
    | vArr l =>
      dsimp only at h
      cases hc : pyFloat (Value.vArr l) with
      | ok d => rw [hc] at h; exact ⟨d, by simpa [Except.map] using h.symm⟩
      | error e => rw [hc] at h; simp [Except.map] at h
    | vObj l =>
      dsimp only at h
      cases hc : pyFloat (Value.vObj l) with
      | ok d => rw [hc] at h; exact ⟨d, by simpa [Except.map] using h.symm⟩
      | error e => rw [hc] at h; simp [Except.map] at h

/-- A record that validated cleanly enriches to a record of the fixed
five-field shape (string text and timestamp, numeric score). -/
theorem enrichRecord_ok_shape (tz : Int) (r : Record) (n : Nat)
    (h : recordErrors r n = .ok []) (hft : ftextTyped r = true) :
    ∃ fid lang s2 synced score,
      enrichRecord tz r = .ok [("feedback_id", fid), ("language", lang),
        ("feedback_text", Value.vStr s2), ("timestamp", Value.vStr synced),
        ("sentiment_score", Value.vNum score)] := by
  obtain ⟨hmf, hsc, _, hts⟩ := recordErrors_nil_parts r n h
  obtain ⟨fid, hfid, -⟩ := missingFields_nil_present r hmf "feedback_id" (by decide)
  obtain ⟨lang, hlang, -⟩ := missingFields_nil_present r hmf "language" (by decide)
  obtain ⟨ftext, hftv, -⟩ := missingFields_nil_present r hmf "feedback_text" (by decide)
  obtain ⟨tsv, htsv, htst⟩ := missingFields_nil_present r hmf "timestamp" (by decide)
  obtain ⟨s, dt, rfl, hfm⟩ := timestampCheck_nil_parses r n hts tsv htsv htst
  obtain ⟨s2, hs2⟩ := translated_is_str r ftext lang hft hftv
  obtain ⟨w, hw⟩ := enrichScore_ok r n (translate_feedback ftext lang) hsc ⟨s2, hs2⟩
  obtain ⟨d, rfl⟩ := enrichScore_is_num r _ _ hw
  refine ⟨fid, lang, s2, (astimezoneUtc tz dt).isoformat, d, ?_⟩
  unfold enrichRecord
  rw [getKey_ok_of_findVal r _ _ hfid, getKey_ok_of_findVal r _ _ hlang,
    getKey_ok_of_findVal r _ _ hftv, getKey_ok_of_findVal r _ _ htsv]
  dsimp only
  unfold syncValue synchronize_timestamp
  dsimp only
  rw [hfm]
  dsimp only
  rw [hw]
  dsimp only
  rw [hs2]
  rfl

theorem enrichRecord_ok (tz : Int) (r : Record) (n : Nat)
    (h : recordErrors r n = .ok []) (hft : ftextTyped r = true) :
    ∃ pr, enrichRecord tz r = .ok pr := by
  obtain ⟨fid, lang, s2, synced, score, hpr⟩ := enrichRecord_ok_shape tz r n h hft
  exact ⟨_, hpr⟩

theorem validateAux_cons_nil (r : Record) (rest : List Record) (n : Nat)
    (h : validateAux (r :: rest) n = .ok []) :
    recordErrors r n = .ok [] ∧ validateAux rest (n + 1) = .ok [] := by
  unfold validateAux at h
  cases hre : recordErrors r n with
  | error e => rw [hre] at h; simp at h
  | ok msgs =>
    rw [hre] at h
    cases hva : validateAux rest (n + 1) with
    | error e => rw [hva] at h; simp at h
    | ok more =>
      rw [hva] at h
      simp only [Except.ok.injEq, List.append_eq_nil] at h
      obtain ⟨h1, h2⟩ := h
      exact ⟨by rw [h1], by rw [h2]⟩

theorem validate_data_true_nil (data : List Record) (h : validate_data data = .ok (true, [])) :
    validateAux data 1 = .ok [] := by
  unfold validate_data at h
  cases ha : validateAux data 1 with
  | error e => rw [ha] at h; simp at h
  | ok msgs =>
    rw [ha] at h
    simp only [Except.ok.injEq, Prod.mk.injEq] at h
    rw [h.2]

theorem processAux_ok (tz : Int) (data : List Record) (n : Nat)
    (h : validateAux data n = .ok []) (hft : data.all ftextTyped = true) :
    ∃ out, processAux tz data = .ok out
      ∧ out.length = data.length
      ∧ ∀ i (hi : i < out.length) (hi2 : i < data.length),
          enrichRecord tz (data.get ⟨i, hi2⟩) = .ok (out.get ⟨i, hi⟩) := by
  induction data generalizing n with
  | nil =>
    refine ⟨[], rfl, rfl, ?_⟩
    intro i hi
    exact absurd hi (by simp)
  | cons r rest ih =>
    obtain ⟨hre, hva⟩ := validateAux_cons_nil r rest n h
    rw [List.all_cons, Bool.and_eq_true] at hft
    obtain ⟨pr, hpr⟩ := enrichRecord_ok tz r n hre hft.1
    obtain ⟨outs, houts, hlen, hpos⟩ := ih (n + 1) hva hft.2
    refine ⟨pr :: outs, ?_, by simpa using hlen, ?_⟩
    · unfold processAux
      rw [hpr, houts]
    · intro i hi hi2
      cases i with
      | zero => simpa using hpr
      | succ j =>
        have hj : j < outs.length := by simpa using hi
        have hj2 : j < rest.length := by simpa using hi2
        simpa using hpos j hj hj2

theorem all_of_wellTyped (data : List Record) (h : wellTypedBatch data = true) :
    data.all langTyped = true ∧ data.all tsTyped = true ∧ data.all ftextTyped = true := by
  unfold wellTypedBatch at h
  rw [List.all_eq_true] at h
  refine ⟨?_, ?_, ?_⟩ <;> rw [List.all_eq_true] <;> intro r hr <;>
    have hh := h r hr <;> unfold wellTypedRecord at hh <;>
    simp only [Bool.and_eq_true] at hh
  · exact hh.1.1
  · exact hh.1.2
  · exact hh.2

theorem validateAux_ok_of_typed (data : List Record) (n : Nat)
    (hl : data.all langTyped = true) (ht : data.all tsTyped = true) :
    ∃ msgs, validateAux data n = .ok msgs := by
  induction data generalizing n with
  | nil => exact ⟨[], rfl⟩
  | cons r rest ih =>
    rw [List.all_cons, Bool.and_eq_true] at hl ht
    obtain ⟨l, t, _, _, hre⟩ := recordErrors_eq_of_typed r n hl.1 ht.1
    obtain ⟨msgs, hva⟩ := ih (n + 1) hl.2 ht.2
    refine ⟨(missingCheck r n ++ scoreCheck r n ++ l ++ t) ++ msgs, ?_⟩
    unfold validateAux
    rw [hre, hva]

theorem langStatus_ok_of_typed (data : List Record) (h : data.all langTyped = true) :
    ∃ lang, langStatus data = .ok lang := by
  induction data with
  | nil => exact ⟨"valid", rfl⟩
  | cons r rest ih =>
    rw [List.all_cons, Bool.and_eq_true] at h
    have h1 := h.1
    obtain ⟨lang2, ih2⟩ := ih h.2
    unfold langTyped at h1
    unfold langStatus
    cases hv : r.findVal "language" with
    | none => exact ⟨lang2, ih2⟩
    | some v =>
      rw [hv] at h1
      cases v with
      | vStr s =>
        dsimp only
        by_cases hm : matchesLangRe s = true
        · rw [if_pos hm]; exact ⟨lang2, ih2⟩
        · rw [if_neg hm]; exact ⟨"invalid", rfl⟩
      | vNum d => simp at h1
      | vBool b => simp at h1
      | vNull => simp at h1
      | vArr l => simp at h1
      | vObj l => simp at h1

theorem recordBlock_ok (orig : Record) (fid lang : Value) (s2 synced : String)
    (score : PyNum) (hmf : missingFields orig = []) :
    ∃ b, recordBlock orig [("feedback_id", fid), ("language", lang),
        ("feedback_text", Value.vStr s2), ("timestamp", Value.vStr synced),
        ("sentiment_score", Value.vNum score)] = .ok b := by
  obtain ⟨ofid, hofid, -⟩ := missingFields_nil_present orig hmf "feedback_id" (by decide)
  obtain ⟨olang, holang, -⟩ := missingFields_nil_present orig hmf "language" (by decide)
  obtain ⟨oft, hoft, -⟩ := missingFields_nil_present orig hmf "feedback_text" (by decide)
  obtain ⟨ots, hots, -⟩ := missingFields_nil_present orig hmf "timestamp" (by decide)
  unfold recordBlock
  rw [show Record.getKey [("feedback_id", fid), ("language", lang),
        ("feedback_text", Value.vStr s2), ("timestamp", Value.vStr synced),
        ("sentiment_score", Value.vNum score)] "feedback_text" = .ok (Value.vStr s2) from rfl]
  dsimp only
  rw [show calcValue (Value.vStr s2) = .ok (calculate_sentiment_score s2) from rfl]
  dsimp only
  rw [getKey_ok_of_findVal orig _ _ hofid, getKey_ok_of_findVal orig _ _ holang,
    getKey_ok_of_findVal orig _ _ hoft, getKey_ok_of_findVal orig _ _ hots]
  exact ⟨_, rfl⟩

/-- On a batch that validates cleanly (string-typed texts), the whole success
path goes through: enrichment and every report block succeed. -/
theorem pipeline_valid_ok (tz : Int) (data : List Record) (n : Nat)
    (h : validateAux data n = .ok []) (hft : data.all ftextTyped = true) :
    ∃ out blocks, processAux tz data = .ok out
      ∧ recordBlocks (data.zip out) = .ok blocks := by
  induction data generalizing n with
  | nil => exact ⟨[], "", rfl, rfl⟩
  | cons r rest ih =>
    obtain ⟨hre, hva⟩ := validateAux_cons_nil r rest n h
    rw [List.all_cons, Bool.and_eq_true] at hft
    obtain ⟨hmf, -, -, -⟩ := recordErrors_nil_parts r n hre
    obtain ⟨fid, lang, s2, synced, score, hpr⟩ := enrichRecord_ok_shape tz r n hre hft.1
    obtain ⟨out, blocks, hout, hblocks⟩ := ih (n + 1) hva hft.2
    obtain ⟨b, hb⟩ := recordBlock_ok r fid lang s2 synced score hmf
    refine ⟨[("feedback_id", fid), ("language", lang), ("feedback_text", Value.vStr s2),
      ("timestamp", Value.vStr synced), ("sentiment_score", Value.vNum score)] :: out,
      b ++ blocks, ?_, ?_⟩
    · unfold processAux
      rw [hpr, hout]
    · rw [List.zip_cons_cons]
      unfold recordBlocks
      rw [hb, hblocks]

/-! ### Claim C1 -/

/-- C1, counterexample: the input decodes successfully, validation returns
normally with one error message, yet `process_data` does not return the
validation report — it raises `TypeError` while the report's `field_status`
evaluates `re.match` on the null `language` value. -/
theorem C1_gate_counterexample :
    (parse_json "\x7b\"feedbacks\": [\x7b\"feedback_id\": \"a\", \"language\": null, \"feedback_text\": \"x\", \"timestamp\": \"2023-01-01T00:00:00Z\"\x7d]\x7d").isOk = true
      ∧ validate_data [[("feedback_id", .vStr "a"), ("language", .vNull),
          ("feedback_text", .vStr "x"), ("timestamp", .vStr "2023-01-01T00:00:00Z")]]
        = .ok (false, ["ERROR: Missing required field(s): language in row 1."])
      ∧ process_data 0 "\x7b\"feedbacks\": [\x7b\"feedback_id\": \"a\", \"language\": null, \"feedback_text\": \"x\", \"timestamp\": \"2023-01-01T00:00:00Z\"\x7d]\x7d"
        = .error .typeError := by
  refine ⟨?_, ?_, ?_⟩
  · decide
  · decide
  · decide

/-- C1, amended: for every input string that decodes successfully into a
batch in which every present `language` and `feedback_text` value is a string
and every truthy `timestamp` value is a string (true of delimited-table rows
with all their cells), validation returns an outcome `(msgs.isEmpty, msgs)`;
if `msgs` is nonempty `process_data` returns exactly the validation report —
header followed by every collected message in order — and enrichment is not
run; if `msgs` is empty `process_data` returns the detail report of the
enriched batch. -/
theorem C1_validation_gate (tz : Int) (input : String) (data : List Record)
    (hdec : (if startsWithChars (pyStrip input).data "\x7b".data then parse_json input
             else parse_csv input) = .ok data)
    (hwt : wellTypedBatch data = true) :
    ∃ msgs, validate_data data = .ok (msgs.isEmpty, msgs)
      ∧ (msgs = [] →
          ∃ pd rep, process_feedback tz data = .ok pd
            ∧ generate_detailed_report data pd = .ok rep
            ∧ process_data tz input = .ok rep)
      ∧ (msgs ≠ [] →
          ∃ lang, langStatus data = .ok lang
            ∧ generate_validation_report data
                = .ok (valReportHeader data lang ++ String.intercalate "\n" msgs)
            ∧ process_data tz input
                = .ok (valReportHeader data lang ++ String.intercalate "\n" msgs)) := by
  obtain ⟨hl, ht, hft⟩ := all_of_wellTyped data hwt
  obtain ⟨msgs, hva⟩ := validateAux_ok_of_typed data 1 hl ht
  have hvd : validate_data data = .ok (msgs.isEmpty, msgs) := by
    unfold validate_data
    rw [hva]
  refine ⟨msgs, hvd, ?_, ?_⟩
  · rintro rfl
    obtain ⟨out, blocks, hout, hblocks⟩ := pipeline_valid_ok tz data 1 hva hft
    have hrep : generate_detailed_report data out
        = .ok ("# Customer Feedback JSON Summary\n\n**Total Feedback Records Evaluated:** "
            ++ natStr data.length ++ "\n\n---\n\n" ++ blocks
            ++ "## Structured JSON OUTPUT\n\n```json\n" ++ detailPayload out ++ "\n```") := by
      unfold generate_detailed_report
      rw [hblocks]
    refine ⟨out, _, hout, hrep, ?_⟩
    unfold process_data
    rw [hdec]
    dsimp only
    rw [hvd]
    dsimp only [List.isEmpty_nil, Bool.not_true]
    rw [if_neg (by simp)]
    unfold process_feedback
    rw [hout]
    exact hrep
  · intro hne
    obtain ⟨lang, hls⟩ := langStatus_ok_of_typed data hl
    have hemp : msgs.isEmpty = false := by
      cases msgs with
      | nil => exact absurd rfl hne
      | cons a l => rfl
    have hrep : generate_validation_report data
        = .ok (valReportHeader data lang ++ String.intercalate "\n" msgs) := by
      unfold generate_validation_report
      rw [hvd, hls]
      dsimp only
      rw [hemp]
      rfl
    refine ⟨lang, hls, hrep, ?_⟩
    unfold process_data
    rw [hdec]
    dsimp only
    rw [hvd]
    dsimp only
    rw [hemp]
    have hcond : (!false) = true := rfl
    rw [if_pos hcond]
    exact hrep

/-- Witness for C1 (amended) at a concrete delimited input whose single row
has an invalid language code, exercising the validation-report branch. -/
theorem C1_validation_gate_witness :
    ∃ msgs, validate_data [[("feedback_id", Value.vStr "F1"),
        ("language", Value.vStr "ENG"), ("feedback_text", Value.vStr "ok product"),
        ("sentiment_score", Value.vNull),
        ("timestamp", Value.vStr "2024-01-01T00:00:00Z")]] = .ok (msgs.isEmpty, msgs)
      ∧ (msgs = [] →
          ∃ pd rep, process_feedback 0 [[("feedback_id", Value.vStr "F1"),
              ("language", Value.vStr "ENG"), ("feedback_text", Value.vStr "ok product"),
              ("sentiment_score", Value.vNull),
              ("timestamp", Value.vStr "2024-01-01T00:00:00Z")]] = .ok pd
            ∧ generate_detailed_report [[("feedback_id", Value.vStr "F1"),
                ("language", Value.vStr "ENG"), ("feedback_text", Value.vStr "ok product"),
                ("sentiment_score", Value.vNull),
                ("timestamp", Value.vStr "2024-01-01T00:00:00Z")]] pd = .ok rep
            ∧ process_data 0 "feedback_id,language,feedback_text,sentiment_score,timestamp\nF1,ENG,ok product,null,2024-01-01T00:00:00Z" = .ok rep)
      ∧ (msgs ≠ [] →
          ∃ lang, langStatus [[("feedback_id", Value.vStr "F1"),
              ("language", Value.vStr "ENG"), ("feedback_text", Value.vStr "ok product"),
              ("sentiment_score", Value.vNull),
              ("timestamp", Value.vStr "2024-01-01T00:00:00Z")]] = .ok lang
            ∧ generate_validation_report [[("feedback_id", Value.vStr "F1"),
                ("language", Value.vStr "ENG"), ("feedback_text", Value.vStr "ok product"),
                ("sentiment_score", Value.vNull),
                ("timestamp", Value.vStr "2024-01-01T00:00:00Z")]]
                = .ok (valReportHeader [[("feedback_id", Value.vStr "F1"),
                    ("language", Value.vStr "ENG"), ("feedback_text", Value.vStr "ok product"),
                    ("sentiment_score", Value.vNull),
                    ("timestamp", Value.vStr "2024-01-01T00:00:00Z")]] lang
                  ++ String.intercalate "\n" msgs)
            ∧ process_data 0 "feedback_id,language,feedback_text,sentiment_score,timestamp\nF1,ENG,ok product,null,2024-01-01T00:00:00Z"
                = .ok (valReportHeader [[("feedback_id", Value.vStr "F1"),
                    ("language", Value.vStr "ENG"), ("feedback_text", Value.vStr "ok product"),
                    ("sentiment_score", Value.vNull),
                    ("timestamp", Value.vStr "2024-01-01T00:00:00Z")]] lang
                  ++ String.intercalate "\n" msgs)) :=
  C1_validation_gate 0
    "feedback_id,language,feedback_text,sentiment_score,timestamp\nF1,ENG,ok product,null,2024-01-01T00:00:00Z"
    _ rfl (by decide)

/-! ### Claim C8 -/

/-- C8: on a batch that passes validation (with string-typed feedback texts,
as the data model prescribes), `process_feedback` succeeds, returns exactly
as many records as the input, and the record at each position is the
enrichment (`enrichRecord`) of the input record at the same position. -/
theorem C8_enrichment_preserves_order (tz : Int) (data : List Record)
    (hval : validate_data data = .ok (true, []))
    (hft : data.all ftextTyped = true) :
    ∃ out, process_feedback tz data = .ok out
      ∧ out.length = data.length
      ∧ ∀ i (hi : i < out.length) (hi2 : i < data.length),
          enrichRecord tz (data.get ⟨i, hi2⟩) = .ok (out.get ⟨i, hi⟩) :=
  processAux_ok tz data 1 (validate_data_true_nil data hval) hft

/-- Witness for C8 at a concrete one-record batch. -/
theorem C8_enrichment_preserves_order_witness :
    ∃ out, process_feedback 0 [[("feedback_id", .vStr "F3"), ("language", .vStr "en"),
        ("feedback_text", .vStr "love it"), ("timestamp", .vStr "2024-02-02T10:00:00Z")]]
      = .ok out
      ∧ out.length = 1
      ∧ ∀ i (hi : i < out.length)
          (hi2 : i < [[("feedback_id", Value.vStr "F3"), ("language", Value.vStr "en"),
            ("feedback_text", Value.vStr "love it"),
            ("timestamp", Value.vStr "2024-02-02T10:00:00Z")]].length),
          enrichRecord 0 ([[("feedback_id", Value.vStr "F3"), ("language", Value.vStr "en"),
            ("feedback_text", Value.vStr "love it"),
            ("timestamp", Value.vStr "2024-02-02T10:00:00Z")]].get ⟨i, hi2⟩)
            = .ok (out.get ⟨i, hi⟩) :=
  C8_enrichment_preserves_order 0 _ (by decide) (by decide)

/-- Witness for C6 (amended) at a concrete record. -/
theorem C6_empty_text_is_missing_witness :
    "feedback_text" ∈ missingFields [("feedback_id", .vStr "F2"),
        ("language", .vStr "fr"), ("feedback_text", .vStr ""),
        ("timestamp", .vStr "2024-05-05")]
      ∧ ∃ rest, validate_data [[("feedback_id", .vStr "F2"),
          ("language", .vStr "fr"), ("feedback_text", .vStr ""),
          ("timestamp", .vStr "2024-05-05")]]
          = .ok (false, ("ERROR: Missing required field(s): "
              ++ String.intercalate ", " (missingFields [("feedback_id", .vStr "F2"),
                  ("language", .vStr "fr"), ("feedback_text", .vStr ""),
                  ("timestamp", .vStr "2024-05-05")])
              ++ " in row " ++ natStr 1 ++ ".") :: rest) :=
  C6_empty_text_is_missing _ rfl (by decide) (by decide)


/-! ### Claim C10 -/

theorem synchronize_timestamp_tz_eq (tz1 tz2 : Int) (s : String)
    (h : ∀ dt, fromisoformat (replaceZ s) = some dt → dt.tzSec.isSome = true) :
    synchronize_timestamp tz1 s = synchronize_timestamp tz2 s := by
  unfold synchronize_timestamp
  cases hf : fromisoformat (replaceZ s) with
  | none => rfl
  | some dt =>
    obtain ⟨o, ho⟩ := Option.isSome_iff_exists.mp (h dt hf)
    dsimp only
    have : astimezoneUtc tz1 dt = astimezoneUtc tz2 dt := by
      unfold astimezoneUtc
      rw [ho]
      rfl
    rw [this]

theorem enrichRecord_tz_eq (tz1 tz2 : Int) (r : Record) (h : awareRecord r = true) :
    enrichRecord tz1 r = enrichRecord tz2 r := by
  unfold enrichRecord
  cases h1 : r.getKey "feedback_id" with
  | error e => rfl
  | ok fid =>
  cases h2 : r.getKey "language" with
  | error e => rfl
  | ok lang =>
  cases h3 : r.getKey "feedback_text" with
  | error e => rfl
  | ok ftext =>
  cases h4 : r.getKey "timestamp" with
  | error e => rfl
  | ok tsv =>
  have hfv : r.findVal "timestamp" = some tsv := by
    unfold Record.getKey at h4
    cases hf : r.findVal "timestamp" with
    | none => rw [hf] at h4; exact absurd h4 (by simp)
    | some v =>
      rw [hf] at h4
      dsimp only at h4
      injection h4 with hv
      rw [hv]
  have hsv : syncValue tz1 tsv = syncValue tz2 tsv := by
    cases tsv with
    | vStr s =>
      unfold syncValue
      dsimp only
      have hst : synchronize_timestamp tz1 s = synchronize_timestamp tz2 s := by
        apply synchronize_timestamp_tz_eq
        intro dt hdt
        unfold awareRecord at h
        rw [hfv] at h
        dsimp only at h
        rw [hdt] at h
        exact h
      rw [hst]
    | vNum d => rfl
    | vBool b => rfl
    | vNull => rfl
    | vArr l => rfl
    | vObj l => rfl
  dsimp only
  rw [hsv]

theorem processAux_tz_eq (tz1 tz2 : Int) (data : List Record)
    (h : data.all awareRecord = true) :
    processAux tz1 data = processAux tz2 data := by
  induction data with
  | nil => rfl
  | cons r rest ih =>
    rw [List.all_cons, Bool.and_eq_true] at h
    unfold processAux
    rw [enrichRecord_tz_eq tz1 tz2 r h.1, ih h.2]

set_option maxRecDepth 8192 in
/-- C10, counterexample: determinism across host environments fails — on a
delimited input whose (valid) timestamp is naive, `astimezone` consults the
host timezone, so the same input produces different reports under host
offsets 0 and +3600 seconds. -/
theorem C10_host_tz_counterexample :
    process_data 0 "feedback_id,language,feedback_text,sentiment_score,timestamp\nFB1,en,hello there,null,2023-03-21T08:00:00"
      ≠ process_data 3600 "feedback_id,language,feedback_text,sentiment_score,timestamp\nFB1,en,hello there,null,2023-03-21T08:00:00" := by
  decide

/-- C10, amended: `process_data` depends on the host environment only
through `astimezone`'s treatment of naive timestamps.  For every input that
decodes into a batch whose every parsing string timestamp carries an
explicit UTC offset, the output is identical under any two host
timezones. -/
theorem C10_tz_independence (tz1 tz2 : Int) (input : String) (data : List Record)
    (hdec : (if startsWithChars (pyStrip input).data "\x7b".data then parse_json input
             else parse_csv input) = .ok data)
    (haw : data.all awareRecord = true) :
    process_data tz1 input = process_data tz2 input := by
  unfold process_data
  rw [hdec]
  dsimp only
  have hpf : process_feedback tz1 data = process_feedback tz2 data :=
    processAux_tz_eq tz1 tz2 data haw
  rw [hpf]

/-- Witness for C10 (amended) at a concrete input with a `Z`-suffixed
(aware) timestamp and two different host offsets. -/
theorem C10_tz_independence_witness :
    process_data 5 "feedback_id,language,feedback_text,sentiment_score,timestamp\nF1,en,good stuff,null,2024-01-01T00:00:00Z"
      = process_data (-3600) "feedback_id,language,feedback_text,sentiment_score,timestamp\nF1,en,good stuff,null,2024-01-01T00:00:00Z" :=
  C10_tz_independence 5 (-3600)
    "feedback_id,language,feedback_text,sentiment_score,timestamp\nF1,en,good stuff,null,2024-01-01T00:00:00Z"
    _ rfl (by decide)


/-! ### Claim C3 -/

theorem findVal_setVal (r : Record) (k : String) (v : Value) :
    (Record.setVal r k v).findVal k = some v := by
  induction r with
  | nil => simp [Record.setVal, Record.findVal]
  | cons kv rest ih =>
    obtain ⟨k0, v0⟩ := kv
    unfold Record.setVal
    by_cases h : k0 = k
    · rw [if_pos h]
      unfold Record.findVal
      rw [if_pos h]
    · rw [if_neg h]
      unfold Record.findVal
      rw [if_neg h]
      exact ih

theorem truthy_vStr_of_ne (s : String) (h : s ≠ "") : (Value.vStr s).truthy = true := by
  cases hb : s.isEmpty with
  | false => simp [Value.truthy, hb]
  | true => exact absurd ((String.isEmpty_iff s).mp hb) h

set_option maxRecDepth 8192 in
/-- C3, counterexample: the structured decoder's normalisation is neither
case-insensitive nor does it cover the empty string.  A JSON
`sentiment_score` of `"NULL"` reaches `float()`, whose `ValueError` escapes
`parse_json`, so `process_data` returns the conversion-error text instead of
any report; and a JSON score of `""` is left as the empty string, which
validation then flags as a type error rather than passing the record. -/
theorem C3_json_normalization_counterexample :
    parse_json "\x7b\"feedbacks\": [\x7b\"feedback_id\": \"a\", \"language\": \"en\", \"feedback_text\": \"x\", \"sentiment_score\": \"NULL\", \"timestamp\": \"2023-01-01T00:00:00Z\"\x7d]\x7d"
      = .error (.valueError "could not convert string to float: 'NULL'")
    ∧ process_data 0 "\x7b\"feedbacks\": [\x7b\"feedback_id\": \"a\", \"language\": \"en\", \"feedback_text\": \"x\", \"sentiment_score\": \"NULL\", \"timestamp\": \"2023-01-01T00:00:00Z\"\x7d]\x7d"
      = .ok "could not convert string to float: 'NULL'"
    ∧ parse_json "\x7b\"feedbacks\": [\x7b\"feedback_id\": \"a\", \"language\": \"en\", \"feedback_text\": \"x\", \"sentiment_score\": \"\", \"timestamp\": \"2023-01-01T00:00:00Z\"\x7d]\x7d"
      = .ok [[("feedback_id", Value.vStr "a"), ("language", Value.vStr "en"),
          ("feedback_text", Value.vStr "x"), ("sentiment_score", Value.vStr ""),
          ("timestamp", Value.vStr "2023-01-01T00:00:00Z")]]
    ∧ validate_data [[("feedback_id", Value.vStr "a"), ("language", Value.vStr "en"),
          ("feedback_text", Value.vStr "x"), ("sentiment_score", Value.vStr ""),
          ("timestamp", Value.vStr "2023-01-01T00:00:00Z")]]
      = .ok (false, ["ERROR: Invalid data type for the field(s): sentiment_score in row 1. Please ensure correct data types."]) := by
  refine ⟨?_, ?_, ?_, ?_⟩
  · decide
  · decide
  · decide
  · decide

/-- C3, amended: the delimited-table decoder normalises a `sentiment_score`
cell to null exactly when it is falsy (empty) or case-insensitively equal to
`null`; the structured decoder normalises only the exact literal `"null"`
and leaves the empty string untouched; a normalised (null) score passes the
sentiment-score validation check and enrichment recomputes it from the
translated text. -/
theorem C3_null_score_normalization (s : String) (row r : Record) (n : Nat) (tr : Value)
    (hrow : row.findVal "sentiment_score" = some (Value.vStr s))
    (hr : r.findVal "sentiment_score" = some (Value.vStr s))
    (hnull : s = "" ∨ pyLower s = "null") :
    normalizeCsvRow row = .ok (row.setVal "sentiment_score" Value.vNull)
    ∧ (s = "null" → normalizeJsonRecord r = .ok (r.setVal "sentiment_score" Value.vNull))
    ∧ (s = "" → normalizeJsonRecord r = .ok r)
    ∧ scoreCheck (row.setVal "sentiment_score" Value.vNull) n = []
    ∧ enrichScore (row.setVal "sentiment_score" Value.vNull) tr
        = (calcValue tr).map fun q => Value.vNum q.1 := by
  refine ⟨?_, ?_, ?_, ?_, ?_⟩
  · unfold normalizeCsvRow
    rw [hrow]
    dsimp only
    rcases hnull with rfl | hlow
    · rw [if_pos (by decide)]
    · by_cases hE : s = ""
      · subst hE
        rw [if_pos (by decide)]
      · rw [if_neg (by rw [truthy_vStr_of_ne s hE]; decide)]
        rw [if_pos (show (pyLower s == "null") = true by rw [hlow]; rfl)]
  · rintro rfl
    unfold normalizeJsonRecord
    rw [hr]
    dsimp only
    rw [if_pos (by decide)]
  · rintro rfl
    unfold normalizeJsonRecord
    rw [hr]
    dsimp only
    rw [if_neg (by decide), if_neg (by decide)]
  · unfold scoreCheck
    rw [findVal_setVal]
  · unfold enrichScore
    rw [findVal_setVal]

/-- Witness for C3 (amended) at a mixed-case `nUll` score cell. -/
theorem C3_null_score_normalization_witness :
    normalizeCsvRow [("sentiment_score", Value.vStr "nUll")]
        = .ok (Record.setVal [("sentiment_score", Value.vStr "nUll")] "sentiment_score" Value.vNull)
    ∧ ("nUll" = "null" → normalizeJsonRecord [("sentiment_score", Value.vStr "nUll")]
        = .ok (Record.setVal [("sentiment_score", Value.vStr "nUll")] "sentiment_score" Value.vNull))
    ∧ ("nUll" = "" → normalizeJsonRecord [("sentiment_score", Value.vStr "nUll")]
        = .ok [("sentiment_score", Value.vStr "nUll")])
    ∧ scoreCheck (Record.setVal [("sentiment_score", Value.vStr "nUll")] "sentiment_score" Value.vNull) 1 = []
    ∧ enrichScore (Record.setVal [("sentiment_score", Value.vStr "nUll")] "sentiment_score" Value.vNull) (Value.vStr "good")
        = (calcValue (Value.vStr "good")).map fun q => Value.vNum q.1 :=
  C3_null_score_normalization "nUll" [("sentiment_score", Value.vStr "nUll")]
    [("sentiment_score", Value.vStr "nUll")] 1 (Value.vStr "good")
    (by decide) (by decide) (Or.inr (by decide))

/-! ### Claim C4 -/

theorem normalizeRows_append_error (pre post : List Record) (row : Record)
    (npre : List Record) (e : PyErr)
    (hpre : normalizeRows pre = .ok npre) (hrow : normalizeCsvRow row = .error e) :
    normalizeRows (pre ++ row :: post) = .error e := by
  induction pre generalizing npre with
  | nil =>
    rw [List.nil_append]
    unfold normalizeRows
    rw [hrow]
  | cons r0 rest ih =>
    rw [List.cons_append]
    unfold normalizeRows at hpre ⊢
    cases h0 : normalizeCsvRow r0 with
    | error e0 =>
      rw [h0] at hpre
      exact absurd hpre (by simp)
    | ok nr0 =>
      rw [h0] at hpre
      dsimp only at hpre ⊢
      cases hrest : normalizeRows rest with
      | error e1 =>
        rw [hrest] at hpre
        exact absurd hpre (by simp)
      | ok nrest =>
        rw [ih nrest hrest]

theorem normalizeRecords_append_error (pre post : List Record) (r : Record)
    (npre : List Record) (e : PyErr)
    (hpre : normalizeRecords pre = .ok npre) (hr : normalizeJsonRecord r = .error e) :
    normalizeRecords (pre ++ r :: post) = .error e := by
  induction pre generalizing npre with
  | nil =>
    rw [List.nil_append]
    unfold normalizeRecords
    rw [hr]
  | cons r0 rest ih =>
    rw [List.cons_append]
    unfold normalizeRecords at hpre ⊢
    cases h0 : normalizeJsonRecord r0 with
    | error e0 =>
      rw [h0] at hpre
      exact absurd hpre (by simp)
    | ok nr0 =>
      rw [h0] at hpre
      dsimp only at hpre ⊢
      cases hrest : normalizeRecords rest with
      | error e1 =>
        rw [hrest] at hpre
        exact absurd hpre (by simp)
      | ok nrest =>
        rw [ih nrest hrest]

set_option maxRecDepth 8192 in
/-- C4, counterexample: a present, non-numeric string `sentiment_score`
(`abc`) never reaches validation — both decoders call `float()` on it, so
`process_data` returns a decode-failure string (prefixed for the delimited
form, bare for the structured form), and neither output is the claimed
validation report: the type-error wording does not occur in them. -/
theorem C4_decode_error_counterexample :
    process_data 0 "feedback_id,language,feedback_text,sentiment_score,timestamp\nF1,en,x,abc,2024-01-01T00:00:00Z"
      = .ok "ERROR: Invalid CSV format. could not convert string to float: 'abc'"
    ∧ process_data 0 "\x7b\"feedbacks\": [\x7b\"feedback_id\": \"a\", \"language\": \"en\", \"feedback_text\": \"x\", \"sentiment_score\": \"abc\", \"timestamp\": \"2023-01-01T00:00:00Z\"\x7d]\x7d"
      = .ok "could not convert string to float: 'abc'"
    ∧ hasSub "ERROR: Invalid CSV format. could not convert string to float: 'abc'".data "Invalid data type".data = false
    ∧ hasSub "could not convert string to float: 'abc'".data "Invalid data type".data = false := by
  refine ⟨?_, ?_, ?_, ?_⟩
  · decide
  · decide
  · decide
  · decide

/-- C4, amended: a `sentiment_score` that is present as a non-numeric string
(one `float()` rejects, not empty and not a `null` token) terminates decoding:
the delimited-form decoder's row loop raises, caught and re-raised as
`ValueError` with the `Invalid CSV format.` prefix, while in the structured
form the `float()` `ValueError` escapes unprefixed; in both cases
`process_data` returns that decode-failure text, never the claimed
type-error validation report. -/
theorem C4_nonnumeric_score_is_decode_error
    (tz : Int) (s : String) (input jinput : String) (row r : Record)
    (pre post jpre jpost npre njpre : List Record)
    (fields : FieldList) (elems : ValueList)
    (hfail : floatCore (pyStrip s).data = none)
    (hne : s ≠ "") (hlow : pyLower s ≠ "null") (hjs : s ≠ "null")
    (hrow : row.findVal "sentiment_score" = some (Value.vStr s))
    (hdict : dictRows input = pre ++ row :: post)
    (hpre : normalizeRows pre = .ok npre)
    (hcsv : startsWithChars (pyStrip input).data "\x7b".data = false)
    (hr : r.findVal "sentiment_score" = some (Value.vStr s))
    (hload : jsonLoads jinput = some (Value.vObj fields))
    (hfb : Record.findVal fields.toPairs "feedbacks" = some (Value.vArr elems))
    (has : asRecords elems.toList = .ok (jpre ++ r :: jpost))
    (hjpre : normalizeRecords jpre = .ok njpre)
    (hjson : startsWithChars (pyStrip jinput).data "\x7b".data = true) :
    process_data tz input
      = .ok ("ERROR: Invalid CSV format. "
          ++ ("could not convert string to float: " ++ pyReprS s))
    ∧ process_data tz jinput
      = .ok ("could not convert string to float: " ++ pyReprS s) := by
  have hfs : floatOfString s
      = .error (.valueError ("could not convert string to float: " ++ pyReprS s)) := by
    unfold floatOfString
    rw [hfail]
  constructor
  · have hcerr : normalizeCsvRow row
        = .error (.valueError ("could not convert string to float: " ++ pyReprS s)) := by
      unfold normalizeCsvRow
      rw [hrow]
      dsimp only
      rw [if_neg (by rw [truthy_vStr_of_ne s hne]; decide)]
      rw [if_neg (by simp only [beq_iff_eq]; exact hlow)]
      rw [hfs]
      rfl
    have hrows : normalizeRows (pre ++ row :: post)
        = .error (.valueError ("could not convert string to float: " ++ pyReprS s)) :=
      normalizeRows_append_error pre post row npre _ hpre hcerr
    have hpc : parse_csv input
        = .error (.valueError ("ERROR: Invalid CSV format. "
            ++ ("could not convert string to float: " ++ pyReprS s))) := by
      unfold parse_csv
      rw [hdict, hrows]
      rfl
    unfold process_data
    rw [if_neg (by rw [hcsv]; decide)]
    rw [hpc]
    rfl
  · have hjerr : normalizeJsonRecord r
        = .error (.valueError ("could not convert string to float: " ++ pyReprS s)) := by
      unfold normalizeJsonRecord
      rw [hr]
      dsimp only
      rw [if_neg (by dsimp only [Value.eqStr]; simp only [beq_iff_eq]; exact hjs)]
      rw [if_pos (by dsimp only [Value.eqStr]; rw [Bool.not_eq_true', beq_eq_false_iff_ne]; exact hne)]
      dsimp only [pyFloat]
      rw [hfs]
      rfl
    have hjrows : normalizeRecords (jpre ++ r :: jpost)
        = .error (.valueError ("could not convert string to float: " ++ pyReprS s)) :=
      normalizeRecords_append_error jpre jpost r njpre _ hjpre hjerr
    have hpj : parse_json jinput
        = .error (.valueError ("could not convert string to float: " ++ pyReprS s)) := by
      unfold parse_json
      rw [hload]
      dsimp only
      rw [hfb]
      dsimp only
      rw [has]
      dsimp only
      rw [hjrows]
    unfold process_data
    rw [if_pos hjson]
    rw [hpj]
    rfl

set_option maxRecDepth 8192 in
/-- Witness for C4 (amended) at the non-numeric score `xyz` in both input
forms. -/
theorem C4_nonnumeric_score_is_decode_error_witness :
    process_data 0 "feedback_id,language,feedback_text,sentiment_score,timestamp\nF1,en,x,xyz,2024-01-01T00:00:00Z"
      = .ok ("ERROR: Invalid CSV format. "
          ++ ("could not convert string to float: " ++ pyReprS "xyz"))
    ∧ process_data 0 "\x7b\"feedbacks\": [\x7b\"feedback_id\": \"a\", \"language\": \"en\", \"feedback_text\": \"x\", \"sentiment_score\": \"xyz\", \"timestamp\": \"2023-01-01T00:00:00Z\"\x7d]\x7d"
      = .ok ("could not convert string to float: " ++ pyReprS "xyz") :=
  C4_nonnumeric_score_is_decode_error 0 "xyz"
    "feedback_id,language,feedback_text,sentiment_score,timestamp\nF1,en,x,xyz,2024-01-01T00:00:00Z"
    "\x7b\"feedbacks\": [\x7b\"feedback_id\": \"a\", \"language\": \"en\", \"feedback_text\": \"x\", \"sentiment_score\": \"xyz\", \"timestamp\": \"2023-01-01T00:00:00Z\"\x7d]\x7d"
    [("feedback_id", Value.vStr "F1"), ("language", Value.vStr "en"),
     ("feedback_text", Value.vStr "x"), ("sentiment_score", Value.vStr "xyz"),
     ("timestamp", Value.vStr "2024-01-01T00:00:00Z")]
    [("feedback_id", Value.vStr "a"), ("language", Value.vStr "en"),
     ("feedback_text", Value.vStr "x"), ("sentiment_score", Value.vStr "xyz"),
     ("timestamp", Value.vStr "2023-01-01T00:00:00Z")]
    [] [] [] [] [] [] _ _
    (by decide) (by decide) (by decide) (by decide) (by decide) (by decide) rfl
    (by decide) (by decide) rfl rfl rfl rfl rfl

/-! ### C9: detail-payload round-trip through `parse_json` -/


theorem toNat_ofNat_valid (n : Nat) (h : n.isValidChar) : (Char.ofNat n).toNat = n := by
  unfold Char.ofNat
  rw [dif_pos h]
  rfl

theorem digitChar_isDigit : ∀ m, m < 10 → (Char.ofNat (m + 48)).isDigit = true := by decide

theorem digitChar_toNat : ∀ m, m < 10 → (Char.ofNat (m + 48)).toNat = m + 48 := by decide

theorem digitChar_ne_zero : ∀ m, m < 10 → 1 ≤ m → Char.ofNat (m + 48) ≠ '0' := by decide

theorem natDigitsRev_zero (fuel : Nat) : natDigitsRev fuel 0 = [] := by
  cases fuel <;> rfl

theorem natDigitsRev_succ (fuel n : Nat) :
    natDigitsRev (fuel + 1) (n + 1)
      = Char.ofNat ((n + 1) % 10 + 48) :: natDigitsRev fuel ((n + 1) / 10) := rfl

theorem natDigitsRev_all_digit (fuel : Nat) :
    ∀ n c, c ∈ natDigitsRev fuel n → c.isDigit = true := by
  induction fuel with
  | zero => intro n c hc; simp [natDigitsRev] at hc
  | succ f ih =>
    intro n c hc
    cases n with
    | zero => rw [natDigitsRev_zero] at hc; simp at hc
    | succ k =>
      rw [natDigitsRev_succ] at hc
      rcases List.mem_cons.mp hc with rfl | hc
      · have : (k + 1) % 10 + 48 = (k + 1) % 10 + 48 := rfl
        exact digitChar_isDigit _ (Nat.mod_lt _ (by norm_num))
      · exact ih _ c hc

theorem digitsVal_foldl (cs : List Char) :
    ∀ a, cs.foldl (fun a c => a * 10 + (c.toNat - 48)) a
      = a * 10 ^ cs.length + digitsVal cs := by
  induction cs with
  | nil => intro a; simp [digitsVal]
  | cons c t ih =>
    intro a
    show List.foldl _ (a * 10 + (c.toNat - 48)) t = _
    rw [ih (a * 10 + (c.toNat - 48))]
    have h2 : digitsVal (c :: t) = (c.toNat - 48) * 10 ^ t.length + digitsVal t := by
      show List.foldl _ (0 * 10 + (c.toNat - 48)) t = _
      rw [ih (0 * 10 + (c.toNat - 48))]
      ring
    rw [h2]
    simp [List.length_cons]
    ring

theorem digitsVal_cons (c : Char) (t : List Char) :
    digitsVal (c :: t) = (c.toNat - 48) * 10 ^ t.length + digitsVal t := by
  show List.foldl _ (0 * 10 + (c.toNat - 48)) t = _
  rw [digitsVal_foldl]
  ring

theorem digitsVal_append (xs ys : List Char) :
    digitsVal (xs ++ ys) = digitsVal xs * 10 ^ ys.length + digitsVal ys := by
  show List.foldl _ 0 (xs ++ ys) = _
  rw [List.foldl_append, digitsVal_foldl]
  rfl

theorem digitsVal_rev_natDigitsRev (fuel : Nat) :
    ∀ n, n ≤ fuel → digitsVal (natDigitsRev fuel n).reverse = n := by
  induction fuel with
  | zero =>
    intro n hn
    interval_cases n
    simp [natDigitsRev, digitsVal]
  | succ f ih =>
    intro n hn
    cases n with
    | zero => rw [natDigitsRev_zero]; simp [digitsVal]
    | succ k =>
      rw [natDigitsRev_succ]
      rw [List.reverse_cons, digitsVal_append]
      rw [ih ((k + 1) / 10) (by omega)]
      have hd : digitsVal [Char.ofNat ((k + 1) % 10 + 48)] = (k + 1) % 10 := by
        show List.foldl _ _ _ = _
        simp [List.foldl, digitChar_toNat _ (Nat.mod_lt _ (by norm_num : (0:Nat) < 10))]
      rw [hd]
      simp
      omega

theorem natDigits_spec (n : Nat) :
    digitsVal (natDigits n) = n ∧ (∀ c ∈ natDigits n, c.isDigit = true)
      ∧ natDigits n ≠ [] := by
  unfold natDigits
  by_cases h : n = 0
  · subst h
    refine ⟨by decide, by decide, by decide⟩
  · rw [if_neg h]
    refine ⟨digitsVal_rev_natDigitsRev n n le_rfl, ?_, ?_⟩
    · intro c hc
      exact natDigitsRev_all_digit n n c (List.mem_reverse.mp hc)
    · intro he
      have := digitsVal_rev_natDigitsRev n n le_rfl
      rw [he] at this
      simp [digitsVal] at this
      exact h this.symm

theorem natDigits_head_ne_zero (fuel : Nat) :
    ∀ n, 0 < n → n ≤ fuel →
      ∃ d ds, (natDigitsRev fuel n).reverse = d :: ds ∧ d ≠ '0' := by
  induction fuel with
  | zero => intro n h1 h2; omega
  | succ f ih =>
    intro n h1 h2
    cases n with
    | zero => omega
    | succ k =>
      rw [natDigitsRev_succ]
      rw [List.reverse_cons]
      by_cases hq : (k + 1) / 10 = 0
      · rw [hq, natDigitsRev_zero]
        refine ⟨Char.ofNat ((k + 1) % 10 + 48), [], by simp, ?_⟩
        have hlt : (k + 1) % 10 < 10 := Nat.mod_lt _ (by norm_num)
        have h10 : k + 1 < 10 := by omega
        have : (k + 1) % 10 = k + 1 := Nat.mod_eq_of_lt h10
        exact digitChar_ne_zero _ hlt (by omega)
      · obtain ⟨d, ds, hds, hd⟩ := ih ((k + 1) / 10) (by omega) (by omega)
        exact ⟨d, ds ++ [Char.ofNat ((k + 1) % 10 + 48)], by rw [hds]; simp, hd⟩

theorem natDigits_cons_ne_zero (n : Nat) (h : 0 < n) :
    ∃ d ds, natDigits n = d :: ds ∧ d ≠ '0' := by
  unfold natDigits
  rw [if_neg (by omega)]
  exact natDigits_head_ne_zero n n h le_rfl

theorem digitsVal_zero_prefix (z : Nat) (ds : List Char) :
    digitsVal (List.replicate z '0' ++ ds) = digitsVal ds := by
  induction z with
  | zero => simp
  | succ m ih =>
    rw [List.replicate_succ, List.cons_append]
    show List.foldl _ (0 * 10 + ('0'.toNat - 48)) _ = _
    have : (0 : Nat) * 10 + ('0'.toNat - 48) = 0 := by decide
    rw [this]
    exact ih

theorem natDigits_length_le (fuel : Nat) :
    ∀ n e, n ≤ fuel → n < 10 ^ e → (natDigitsRev fuel n).length ≤ e := by
  induction fuel with
  | zero =>
    intro n e hn he
    interval_cases n
    simp [natDigitsRev]
  | succ f ih =>
    intro n e hn he
    cases n with
    | zero => rw [natDigitsRev_zero]; simp
    | succ k =>
      rw [natDigitsRev_succ]
      rw [List.length_cons]
      cases e with
      | zero => simp at he
      | succ e' =>
        have h1 : (k + 1) / 10 < 10 ^ e' := by
          rw [Nat.div_lt_iff_lt_mul (by norm_num : (0:Nat) < 10)]
          calc k + 1 < 10 ^ (e' + 1) := he
          _ = 10 ^ e' * 10 := by ring
        have := ih ((k + 1) / 10) e' (by omega) h1
        omega

theorem hexVal_hexDigitChar : ∀ m, m < 16 → hexVal? (hexDigitChar m) = some m := by decide

theorem hex4Val_hex4 (n : Nat) (h : n < 65536) :
    hex4Val? (hexDigitChar (n / 4096 % 16)) (hexDigitChar (n / 256 % 16))
      (hexDigitChar (n / 16 % 16)) (hexDigitChar (n % 16)) = some n := by
  unfold hex4Val?
  rw [hexVal_hexDigitChar _ (Nat.mod_lt _ (by norm_num)),
      hexVal_hexDigitChar _ (Nat.mod_lt _ (by norm_num)),
      hexVal_hexDigitChar _ (Nat.mod_lt _ (by norm_num)),
      hexVal_hexDigitChar _ (Nat.mod_lt _ (by norm_num))]
  rw [Option.some.injEq]
  omega

theorem char_valid_nat (c : Char) :
    c.toNat < 0xd800 ∨ (0xe000 ≤ c.toNat ∧ c.toNat < 0x110000) := by
  have h : c.val.toNat < 55296 ∨ 57343 < c.val.toNat ∧ c.val.toNat < 1114112 := c.valid
  have he : c.toNat = c.val.toNat := rfl
  omega

/-! String escape round-trip -/

theorem parseJStr_closequote (fuel : Nat) (rest : List Char) :
    parseJStr (fuel + 1) ('"' :: rest) = some ([], rest) := rfl

theorem parseJStr_esc_quote (fuel : Nat) (t : List Char) :
    parseJStr (fuel + 1) ('\\' :: '"' :: t)
      = match parseJStr fuel t with
        | none => none
        | some (s, r) => some ('"' :: s, r) := rfl

theorem parseJStr_esc_backslash (fuel : Nat) (t : List Char) :
    parseJStr (fuel + 1) ('\\' :: '\\' :: t)
      = match parseJStr fuel t with
        | none => none
        | some (s, r) => some ('\\' :: s, r) := rfl

theorem parseJStr_esc_n (fuel : Nat) (t : List Char) :
    parseJStr (fuel + 1) ('\\' :: 'n' :: t)
      = match parseJStr fuel t with
        | none => none
        | some (s, r) => some ('\n' :: s, r) := rfl

theorem parseJStr_esc_r (fuel : Nat) (t : List Char) :
    parseJStr (fuel + 1) ('\\' :: 'r' :: t)
      = match parseJStr fuel t with
        | none => none
        | some (s, r) => some ('\r' :: s, r) := rfl

theorem parseJStr_esc_t (fuel : Nat) (t : List Char) :
    parseJStr (fuel + 1) ('\\' :: 't' :: t)
      = match parseJStr fuel t with
        | none => none
        | some (s, r) => some ('\t' :: s, r) := rfl

theorem parseJStr_esc_b (fuel : Nat) (t : List Char) :
    parseJStr (fuel + 1) ('\\' :: 'b' :: t)
      = match parseJStr fuel t with
        | none => none
        | some (s, r) => some ('\x08' :: s, r) := rfl

theorem parseJStr_esc_f (fuel : Nat) (t : List Char) :
    parseJStr (fuel + 1) ('\\' :: 'f' :: t)
      = match parseJStr fuel t with
        | none => none
        | some (s, r) => some ('\x0c' :: s, r) := rfl

theorem parseJStr_plain (fuel : Nat) (c : Char) (t : List Char)
    (h1 : c ≠ '"') (h2 : c ≠ '\\') (h3 : 0x1f < c.toNat) :
    parseJStr (fuel + 1) (c :: t)
      = match parseJStr fuel t with
        | none => none
        | some (s, r) => some (c :: s, r) := by
  conv_lhs => unfold parseJStr
  rw [if_neg h1, if_neg h2, if_neg (by omega)]

theorem parseJStr_u (fuel : Nat) (a b c d : Char) (t : List Char) :
    parseJStr (fuel + 1) ('\\' :: 'u' :: a :: b :: c :: d :: t)
      = match hex4Val? a b c d with
        | none => none
        | some n =>
          if 0xd800 ≤ n && n ≤ 0xdbff then
            match t with
            | s1 :: u1 :: a2 :: b2 :: c3 :: d2 :: rest4 =>
              if s1 = '\\' && u1 = 'u' then
                match hex4Val? a2 b2 c3 d2 with
                | none => none
                | some n2 =>
                  if 0xdc00 ≤ n2 && n2 ≤ 0xdfff then
                    match parseJStr fuel rest4 with
                    | none => none
                    | some (s, r) =>
                      some (Char.ofNat
                        (0x10000 + (n - 0xd800) * 0x400 + (n2 - 0xdc00)) :: s, r)
                  else none
              else none
            | _ => none
          else if 0xdc00 ≤ n && n ≤ 0xdfff then none
          else
            match parseJStr fuel t with
            | none => none
            | some (s, r) => some (Char.ofNat n :: s, r) := rfl

theorem parseJStr_u_some (fuel : Nat) (a b c d : Char) (t : List Char) (n : Nat)
    (hh : hex4Val? a b c d = some n) :
    parseJStr (fuel + 1) ('\\' :: 'u' :: a :: b :: c :: d :: t)
      = if 0xd800 ≤ n && n ≤ 0xdbff then
          (match t with
           | s1 :: u1 :: a2 :: b2 :: c3 :: d2 :: rest4 =>
             if s1 = '\\' && u1 = 'u' then
               match hex4Val? a2 b2 c3 d2 with
               | none => none
               | some n2 =>
                 if 0xdc00 ≤ n2 && n2 ≤ 0xdfff then
                   match parseJStr fuel rest4 with
                   | none => none
                   | some (s, r) =>
                     some (Char.ofNat
                       (0x10000 + (n - 0xd800) * 0x400 + (n2 - 0xdc00)) :: s, r)
                 else none
             else none
           | _ => none)
        else if 0xdc00 ≤ n && n ≤ 0xdfff then none
        else
          match parseJStr fuel t with
          | none => none
          | some (s, r) => some (Char.ofNat n :: s, r) := by
  rw [parseJStr_u, hh]

theorem jsonEscapeChar_printable (c : Char)
    (h1 : c ≠ '"') (h2 : c ≠ '\\') (h3 : c ≠ '\n') (h4 : c ≠ '\r') (h5 : c ≠ '\t')
    (h6 : c ≠ '\x08') (h7 : c ≠ '\x0c')
    (hlo : 0x20 ≤ c.toNat) (hhi : c.toNat ≤ 0x7e) :
    jsonEscapeChar c = [c] := by
  unfold jsonEscapeChar
  rw [if_neg h1, if_neg h2, if_neg h3, if_neg h4, if_neg h5, if_neg h6, if_neg h7,
      if_pos (show (decide (32 ≤ c.toNat) && decide (c.toNat ≤ 126)) = true by
        simp only [Bool.and_eq_true, decide_eq_true_eq]
        omega)]

theorem jsonEscapeChar_bmp (c : Char)
    (h1 : c ≠ '"') (h2 : c ≠ '\\') (h3 : c ≠ '\n') (h4 : c ≠ '\r') (h5 : c ≠ '\t')
    (h6 : c ≠ '\x08') (h7 : c ≠ '\x0c')
    (hp : c.toNat < 0x20 ∨ 0x7e < c.toNat) (hb : c.toNat < 0x10000) :
    jsonEscapeChar c = '\\' :: 'u' :: hex4 c.toNat := by
  unfold jsonEscapeChar
  rw [if_neg h1, if_neg h2, if_neg h3, if_neg h4, if_neg h5, if_neg h6, if_neg h7,
      if_neg (show ¬ ((decide (32 ≤ c.toNat) && decide (c.toNat ≤ 126)) = true) by
        simp only [Bool.and_eq_true, decide_eq_true_eq]
        omega),
      if_pos (show c.toNat < 65536 from hb)]

theorem jsonEscapeChar_astral (c : Char) (hge : 0x10000 ≤ c.toNat) :
    jsonEscapeChar c
      = ('\\' :: 'u' :: hex4 (0xd800 + (c.toNat - 0x10000) / 0x400))
        ++ ('\\' :: 'u' :: hex4 (0xdc00 + (c.toNat - 0x10000) % 0x400)) := by
  unfold jsonEscapeChar
  rw [if_neg (by intro h; rw [h] at hge; exact absurd hge (by decide)),
      if_neg (by intro h; rw [h] at hge; exact absurd hge (by decide)),
      if_neg (by intro h; rw [h] at hge; exact absurd hge (by decide)),
      if_neg (by intro h; rw [h] at hge; exact absurd hge (by decide)),
      if_neg (by intro h; rw [h] at hge; exact absurd hge (by decide)),
      if_neg (by intro h; rw [h] at hge; exact absurd hge (by decide)),
      if_neg (by intro h; rw [h] at hge; exact absurd hge (by decide)),
      if_neg (show ¬ ((decide (32 ≤ c.toNat) && decide (c.toNat ≤ 126)) = true) by
        simp only [Bool.and_eq_true, decide_eq_true_eq]
        omega),
      if_neg (show ¬ (c.toNat < 65536) by omega)]

theorem parseJStr_roundtrip : ∀ (cs : List Char) (fuel : Nat) (rest : List Char),
    cs.length + 1 ≤ fuel →
    parseJStr fuel ((cs.map jsonEscapeChar).flatten ++ '"' :: rest) = some (cs, rest) := by
  intro cs
  induction cs with
  | nil =>
    intro fuel rest hf
    obtain ⟨f, rfl⟩ : ∃ f, fuel = f + 1 := ⟨fuel - 1, by omega⟩
    simp only [List.map_nil, List.flatten_nil, List.nil_append]
    exact parseJStr_closequote f rest
  | cons c cs ih =>
    intro fuel rest hf
    obtain ⟨f, rfl⟩ : ∃ f, fuel = f + 1 := ⟨fuel - 1, by omega⟩
    rw [List.map_cons, List.flatten_cons, List.append_assoc]
    have hf' : cs.length + 1 ≤ f := by
      simp only [List.length_cons] at hf
      omega
    by_cases h1 : c = '"'
    · subst h1
      rw [show jsonEscapeChar '"' = ['\\', '"'] from rfl]
      rw [List.cons_append, List.cons_append, List.nil_append, parseJStr_esc_quote,
          ih f rest hf']
    by_cases h2 : c = '\\'
    · subst h2
      rw [show jsonEscapeChar '\\' = ['\\', '\\'] from rfl]
      rw [List.cons_append, List.cons_append, List.nil_append, parseJStr_esc_backslash,
          ih f rest hf']
    by_cases h3 : c = '\n'
    · subst h3
      rw [show jsonEscapeChar '\n' = ['\\', 'n'] from rfl]
      rw [List.cons_append, List.cons_append, List.nil_append, parseJStr_esc_n,
          ih f rest hf']
    by_cases h4 : c = '\r'
    · subst h4
      rw [show jsonEscapeChar '\r' = ['\\', 'r'] from rfl]
      rw [List.cons_append, List.cons_append, List.nil_append, parseJStr_esc_r,
          ih f rest hf']
    by_cases h5 : c = '\t'
    · subst h5
      rw [show jsonEscapeChar '\t' = ['\\', 't'] from rfl]
      rw [List.cons_append, List.cons_append, List.nil_append, parseJStr_esc_t,
          ih f rest hf']
    by_cases h6 : c = '\x08'
    · subst h6
      rw [show jsonEscapeChar '\x08' = ['\\', 'b'] from rfl]
      rw [List.cons_append, List.cons_append, List.nil_append, parseJStr_esc_b,
          ih f rest hf']
    by_cases h7 : c = '\x0c'
    · subst h7
      rw [show jsonEscapeChar '\x0c' = ['\\', 'f'] from rfl]
      rw [List.cons_append, List.cons_append, List.nil_append, parseJStr_esc_f,
          ih f rest hf']
    by_cases hpr : 0x20 ≤ c.toNat ∧ c.toNat ≤ 0x7e
    · rw [jsonEscapeChar_printable c h1 h2 h3 h4 h5 h6 h7 hpr.1 hpr.2]
      rw [List.cons_append, List.nil_append,
          parseJStr_plain f c _ h1 h2 (by omega), ih f rest hf']
    by_cases hb : c.toNat < 0x10000
    · rw [jsonEscapeChar_bmp c h1 h2 h3 h4 h5 h6 h7 (by omega) hb]
      rw [show hex4 c.toNat = [hexDigitChar (c.toNat / 4096 % 16),
            hexDigitChar (c.toNat / 256 % 16), hexDigitChar (c.toNat / 16 % 16),
            hexDigitChar (c.toNat % 16)] from rfl]
      rw [List.cons_append, List.cons_append, List.cons_append, List.cons_append,
          List.cons_append, List.cons_append, List.nil_append]
      rw [parseJStr_u, hex4Val_hex4 c.toNat (by omega)]
      have hv := char_valid_nat c
      rw [show (match some c.toNat with
            | none => none
            | some n =>
              if 0xd800 ≤ n && n ≤ 0xdbff then
                match (cs.map jsonEscapeChar).flatten ++ '"' :: rest with
                | s1 :: u1 :: a2 :: b2 :: c3 :: d2 :: rest4 =>
                  if s1 = '\\' && u1 = 'u' then
                    match hex4Val? a2 b2 c3 d2 with
                    | none => none
                    | some n2 =>
                      if 0xdc00 ≤ n2 && n2 ≤ 0xdfff then
                        match parseJStr f rest4 with
                        | none => none
                        | some (s, r) =>
                          some (Char.ofNat
                            (0x10000 + (n - 0xd800) * 0x400 + (n2 - 0xdc00)) :: s, r)
                      else none
                  else none
                | _ => none
              else if 0xdc00 ≤ n && n ≤ 0xdfff then none
              else
                match parseJStr f ((cs.map jsonEscapeChar).flatten ++ '"' :: rest) with
                | none => none
                | some (s, r) => some (Char.ofNat n :: s, r))
          = (if 0xd800 ≤ c.toNat && c.toNat ≤ 0xdbff then
                match (cs.map jsonEscapeChar).flatten ++ '"' :: rest with
                | s1 :: u1 :: a2 :: b2 :: c3 :: d2 :: rest4 =>
                  if s1 = '\\' && u1 = 'u' then
                    match hex4Val? a2 b2 c3 d2 with
                    | none => none
                    | some n2 =>
                      if 0xdc00 ≤ n2 && n2 ≤ 0xdfff then
                        match parseJStr f rest4 with
                        | none => none
                        | some (s, r) =>
                          some (Char.ofNat
                            (0x10000 + (c.toNat - 0xd800) * 0x400 + (n2 - 0xdc00)) :: s, r)
                      else none
                  else none
                | _ => none
              else if 0xdc00 ≤ c.toNat && c.toNat ≤ 0xdfff then none
              else
                match parseJStr f ((cs.map jsonEscapeChar).flatten ++ '"' :: rest) with
                | none => none
                | some (s, r) => some (Char.ofNat c.toNat :: s, r)) from rfl]
      rw [if_neg (by simp only [Bool.and_eq_true, decide_eq_true_eq]; omega),
          if_neg (by simp only [Bool.and_eq_true, decide_eq_true_eq]; omega)]
      rw [ih f rest hf', Char.ofNat_toNat]
    · have hv := char_valid_nat c
      have hge : 0x10000 ≤ c.toNat := by omega
      have hvlt : c.toNat < 0x110000 := by omega
      rw [jsonEscapeChar_astral c hge]
      rw [List.append_assoc]
      rw [show hex4 (0xd800 + (c.toNat - 0x10000) / 0x400)
            = [hexDigitChar ((0xd800 + (c.toNat - 0x10000) / 0x400) / 4096 % 16),
               hexDigitChar ((0xd800 + (c.toNat - 0x10000) / 0x400) / 256 % 16),
               hexDigitChar ((0xd800 + (c.toNat - 0x10000) / 0x400) / 16 % 16),
               hexDigitChar ((0xd800 + (c.toNat - 0x10000) / 0x400) % 16)] from rfl]
      rw [show hex4 (0xdc00 + (c.toNat - 0x10000) % 0x400)
            = [hexDigitChar ((0xdc00 + (c.toNat - 0x10000) % 0x400) / 4096 % 16),
               hexDigitChar ((0xdc00 + (c.toNat - 0x10000) % 0x400) / 256 % 16),
               hexDigitChar ((0xdc00 + (c.toNat - 0x10000) % 0x400) / 16 % 16),
               hexDigitChar ((0xdc00 + (c.toNat - 0x10000) % 0x400) % 16)] from rfl]
      simp only [List.cons_append, List.nil_append]
      rw [parseJStr_u_some f _ _ _ _ _ (0xd800 + (c.toNat - 0x10000) / 0x400)
            (hex4Val_hex4 _ (by omega))]
      rw [if_pos (show (decide (0xd800 ≤ 0xd800 + (c.toNat - 0x10000) / 0x400)
            && decide (0xd800 + (c.toNat - 0x10000) / 0x400 ≤ 0xdbff)) = true by
          simp only [Bool.and_eq_true, decide_eq_true_eq]
          omega)]
      dsimp only
      rw [if_pos (show (decide (('\\' : Char) = '\\') && decide (('u' : Char) = 'u')) = true
            by decide)]
      rw [hex4Val_hex4 (0xdc00 + (c.toNat - 0x10000) % 0x400) (by omega)]
      dsimp only
      rw [if_pos (show (decide (0xdc00 ≤ 0xdc00 + (c.toNat - 0x10000) % 0x400)
            && decide (0xdc00 + (c.toNat - 0x10000) % 0x400 ≤ 0xdfff)) = true by
          simp only [Bool.and_eq_true, decide_eq_true_eq]
          omega)]
      rw [ih f rest hf']
      dsimp only
      rw [show 0x10000 + (0xd800 + (c.toNat - 0x10000) / 0x400 - 0xd800) * 0x400
            + (0xdc00 + (c.toNat - 0x10000) % 0x400 - 0xdc00) = c.toNat by omega]
      rw [Char.ofNat_toNat]

/-! Number printing round-trip -/

theorem takeWhile_all_append (p : Char → Bool) : ∀ (ds rest : List Char),
    (∀ c ∈ ds, p c = true) → (∀ c, rest.head? = some c → p c = false) →
    List.takeWhile p (ds ++ rest) = ds ∧ List.dropWhile p (ds ++ rest) = rest := by
  intro ds
  induction ds with
  | nil =>
    intro rest _ hr
    cases rest with
    | nil => exact ⟨rfl, rfl⟩
    | cons c t =>
      simp only [List.nil_append, List.takeWhile_cons, List.dropWhile_cons, hr c rfl]
      exact ⟨rfl, rfl⟩
  | cons d ds ih =>
    intro rest hds hr
    have hd : p d = true := hds d (List.mem_cons_self d ds)
    have ⟨h1, h2⟩ := ih rest (fun c hc => hds c (List.mem_cons_of_mem d hc)) hr
    simp only [List.cons_append, List.takeWhile_cons, List.dropWhile_cons, hd, if_true]
    exact ⟨by rw [h1], h2⟩

theorem span_all_append (p : Char → Bool) (ds rest : List Char)
    (hds : ∀ c ∈ ds, p c = true) (hr : ∀ c, rest.head? = some c → p c = false) :
    List.span p (ds ++ rest) = (ds, rest) := by
  rw [List.span_eq_take_drop]
  have ⟨h1, h2⟩ := takeWhile_all_append p ds rest hds hr
  rw [h1, h2]

theorem floatCanon_succ2 (m : Int) (e : Nat) :
    floatCanon m (e + 2) = if m % 10 = 0 then floatCanon (m / 10) (e + 1) else ⟨m, e + 2⟩ := rfl

theorem floatCanon_eq_self (m : Int) (e : Nat) (he : 1 ≤ e) (h : e = 1 ∨ m % 10 ≠ 0) :
    floatCanon m e = ⟨m, e⟩ := by
  cases e with
  | zero => omega
  | succ e' =>
    cases e' with
    | zero => rfl
    | succ e'' =>
      rw [floatCanon_succ2]
      rw [if_neg (by rcases h with h | h; omega; exact h)]

theorem parseJNumRest_int (neg : Bool) (ip rest : List Char)
    (hr : ∀ c, rest.head? = some c → c.isDigit = false ∧ c ≠ '.' ∧ c ≠ 'e' ∧ c ≠ 'E') :
    parseJNum.parseJNumRest neg ip rest
      = some (⟨if neg then -(digitsVal ip : Int) else (digitsVal ip : Int), 0⟩, rest) := by
  unfold parseJNum.parseJNumRest
  split
  next fp cs isF heq =>
    split at heq
    next t => exact absurd rfl (hr '.' rfl).2.1
    next hne =>
      rw [Prod.mk.injEq, Prod.mk.injEq] at heq
      obtain ⟨he1, he2, he3⟩ := heq
      subst he1
      subst he2
      subst he3
      rw [if_neg (by simp)]
      dsimp only
      split
      next t => exact absurd rfl (hr 'e' rfl).2.2.1
      next t => exact absurd rfl (hr 'E' rfl).2.2.2
      next =>
        rw [if_neg (by simp)]
        have hm : digitsVal ip * 10 ^ List.length ([] : List Char) + digitsVal [] = digitsVal ip := by
          simp [digitsVal]
        rw [hm]

theorem parseJNumRest_float (neg : Bool) (ip fp rest : List Char)
    (hfp : ∀ c ∈ fp, c.isDigit = true) (hfpne : fp ≠ [])
    (hr : ∀ c, rest.head? = some c → c.isDigit = false ∧ c ≠ '.' ∧ c ≠ 'e' ∧ c ≠ 'E') :
    parseJNum.parseJNumRest neg ip ('.' :: (fp ++ rest))
      = some (floatCanon
          (if neg then -((digitsVal ip * 10 ^ fp.length + digitsVal fp : Nat) : Int)
           else ((digitsVal ip * 10 ^ fp.length + digitsVal fp : Nat) : Int)) fp.length, rest) := by
  unfold parseJNum.parseJNumRest
  split
  next fp2 cs isF heq =>
    split at heq
    next tv htv =>
      injection htv with htv1 htv2
      subst htv2
      rw [span_all_append _ fp rest hfp (fun c hc => (hr c hc).1)] at heq
      rw [Prod.mk.injEq, Prod.mk.injEq] at heq
      obtain ⟨he1, he2, he3⟩ := heq
      subst he1
      subst he2
      subst he3
      rw [if_neg (by simp only [Bool.true_and, List.isEmpty_eq_true]; exact hfpne)]
      dsimp only
      split
      next t2 => exact absurd rfl (hr 'e' rfl).2.2.1
      next t2 => exact absurd rfl (hr 'E' rfl).2.2.2
      next =>
        rw [if_pos rfl]
    next hne => exact absurd rfl (fun h => hne (fp ++ rest) h)

theorem isDigit_ne_minus (c : Char) (h : c.isDigit = true) : c ≠ '-' := by
  intro he
  rw [he] at h
  exact absurd h (by decide)

theorem parseJNum_natDigits (a : Nat) (rest : List Char)
    (hr : ∀ c, rest.head? = some c → c.isDigit = false) :
    parseJNum (natDigits a ++ rest) = parseJNum.parseJNumRest false (natDigits a) rest := by
  have hguard : (rest.headD ' ').isDigit = false := by
    cases rest with
    | nil => decide
    | cons c t => exact hr c rfl
  obtain ⟨hval, hdig, hne⟩ := natDigits_spec a
  unfold parseJNum
  split
  next neg cs heq =>
    split at heq
    next t ht =>
      have hd : ∃ d ds, natDigits a = d :: ds := by
        cases hx : natDigits a with
        | nil => exact absurd hx hne
        | cons d ds => exact ⟨d, ds, rfl⟩
      obtain ⟨d, ds, hds⟩ := hd
      rw [hds, List.cons_append] at ht
      injection ht with ht1 ht2
      have hdd : d.isDigit = true := hdig d (by rw [hds]; exact List.mem_cons_self d ds)
      rw [ht1] at hdd
      exact absurd hdd (by decide)
    next hne2 =>
      rw [Prod.mk.injEq] at heq
      obtain ⟨he1, he2⟩ := heq
      subst he1
      subst he2
      by_cases ha : a = 0
      · subst ha
        rw [show natDigits 0 = ['0'] from rfl]
        rw [show (['0'] : List Char) ++ rest = '0' :: rest from rfl]
        split
        next =>
          rename_i t ht
          injection ht with ht1 ht2
          subst ht2
          rw [if_neg (by rw [hguard]; decide)]
        next =>
          rename_i c t hne0 heq
          injection heq with h1 h2
          exact absurd h1.symm hne0
        next =>
          rename_i heq
          simp at heq
      · obtain ⟨d, ds, hds, hd0⟩ := natDigits_cons_ne_zero a (by omega)
        rw [hds, List.cons_append]
        split
        next =>
          rename_i t ht
          injection ht with ht1 ht2
          exact absurd ht1 hd0
        next =>
          rename_i c t hne0 heq
          injection heq with h1 h2
          subst h1
          subst h2
          have hdd : d.isDigit = true := hdig d (by rw [hds]; exact List.mem_cons_self d ds)
          rw [if_pos hdd]
          have hdsd : ∀ x ∈ ds, x.isDigit = true := by
            intro x hx
            exact hdig x (by rw [hds]; exact List.mem_cons_of_mem d hx)
          rw [span_all_append _ ds rest hdsd hr]
        next =>
          rename_i heq
          simp at heq

theorem parseJNum_neg_natDigits (a : Nat) (rest : List Char)
    (hr : ∀ c, rest.head? = some c → c.isDigit = false) :
    parseJNum ('-' :: (natDigits a ++ rest)) = parseJNum.parseJNumRest true (natDigits a) rest := by
  have hguard : (rest.headD ' ').isDigit = false := by
    cases rest with
    | nil => decide
    | cons c t => exact hr c rfl
  obtain ⟨hval, hdig, hne⟩ := natDigits_spec a
  unfold parseJNum
  split
  next neg cs heq =>
    split at heq
    next t ht =>
      injection ht with ht1 ht2
      rw [Prod.mk.injEq] at heq
      obtain ⟨he1, he2⟩ := heq
      subst he1
      rw [← ht2] at he2
      subst he2
      by_cases ha : a = 0
      · subst ha
        rw [show natDigits 0 = ['0'] from rfl]
        rw [show (['0'] : List Char) ++ rest = '0' :: rest from rfl]
        split
        next =>
          rename_i t ht
          injection ht with ht1 ht2
          subst ht2
          rw [if_neg (by rw [hguard]; decide)]
        next =>
          rename_i c t hne0 heq
          injection heq with h1 h2
          exact absurd h1.symm hne0
        next =>
          rename_i heq
          simp at heq
      · obtain ⟨d, ds, hds, hd0⟩ := natDigits_cons_ne_zero a (by omega)
        rw [hds, List.cons_append]
        split
        next =>
          rename_i t ht
          injection ht with ht1 ht2
          exact absurd ht1 hd0
        next =>
          rename_i c t hne0 heq
          injection heq with h1 h2
          subst h1
          subst h2
          have hdd : d.isDigit = true := hdig d (by rw [hds]; exact List.mem_cons_self d ds)
          rw [if_pos hdd]
          have hdsd : ∀ x ∈ ds, x.isDigit = true := by
            intro x hx
            exact hdig x (by rw [hds]; exact List.mem_cons_of_mem d hx)
          rw [span_all_append _ ds rest hdsd hr]
        next =>
          rename_i heq
          simp at heq
    next hne2 => exact absurd rfl (fun h => hne2 (natDigits a ++ rest) h)


theorem padZeros_length (cs : List Char) (w : Nat) (h : cs.length ≤ w) :
    (padZeros cs w).length = w := by
  unfold padZeros
  rw [List.length_append, List.length_replicate]
  omega

theorem padZeros_digits (cs : List Char) (w : Nat) (h : ∀ c ∈ cs, c.isDigit = true) :
    ∀ c ∈ padZeros cs w, c.isDigit = true := by
  intro c hc
  unfold padZeros at hc
  rcases List.mem_append.mp hc with hc | hc
  · rw [List.eq_of_mem_replicate hc]
    decide
  · exact h c hc

theorem padZeros_val (cs : List Char) (w : Nat) :
    digitsVal (padZeros cs w) = digitsVal cs := digitsVal_zero_prefix _ _

theorem natDigits_len_le (n e : Nat) (hn : n < 10 ^ e) (he : 1 ≤ e) :
    (natDigits n).length ≤ e := by
  unfold natDigits
  by_cases h : n = 0
  · rw [if_pos h]
    simpa using he
  · rw [if_neg h, List.length_reverse]
    exact natDigits_length_le n n e le_rfl hn

theorem parseJNum_PyNumStr (d : PyNum) (hwf : d.wf = true) (rest : List Char)
    (hr : ∀ c, rest.head? = some c → c.isDigit = false ∧ c ≠ '.' ∧ c ≠ 'e' ∧ c ≠ 'E') :
    parseJNum ((PyNum.str d).data ++ rest) = some (d, rest) := by
  have hrd : ∀ c, rest.head? = some c → c.isDigit = false := fun c hc => (hr c hc).1
  obtain ⟨man, exp⟩ := d
  unfold PyNum.str
  cases exp with
  | zero =>
    rw [if_pos rfl]
    unfold intStr
    by_cases hm : man < 0
    · rw [if_pos hm, String.data_append]
      rw [show ("-" : String).data = ['-'] from rfl,
          show (natStr man.natAbs).data = natDigits man.natAbs from rfl]
      rw [show (['-'] ++ natDigits man.natAbs) ++ rest
            = '-' :: (natDigits man.natAbs ++ rest) from by simp]
      rw [parseJNum_neg_natDigits _ rest hrd, parseJNumRest_int true _ rest hr]
      rw [(natDigits_spec man.natAbs).1]
      have : -((man.natAbs : Nat) : Int) = man := by omega
      rw [if_pos rfl, this]
    · rw [if_neg hm]
      rw [show (natStr man.natAbs).data = natDigits man.natAbs from rfl]
      rw [parseJNum_natDigits _ rest hrd, parseJNumRest_int false _ rest hr]
      rw [(natDigits_spec man.natAbs).1]
      have : ((man.natAbs : Nat) : Int) = man := by omega
      rw [if_neg (by decide), this]
  | succ e =>
    rw [if_neg (Nat.succ_ne_zero e)]
    dsimp only
    have hfrac : man.natAbs % 10 ^ (e + 1) < 10 ^ (e + 1) :=
      Nat.mod_lt _ (by positivity)
    have hlen : (natDigits (man.natAbs % 10 ^ (e + 1))).length ≤ e + 1 :=
      natDigits_len_le _ _ hfrac (by omega)
    have hfplen : (padZeros (natDigits (man.natAbs % 10 ^ (e + 1))) (e + 1)).length = e + 1 :=
      padZeros_length _ _ hlen
    have hfpdig : ∀ c ∈ padZeros (natDigits (man.natAbs % 10 ^ (e + 1))) (e + 1),
        c.isDigit = true :=
      padZeros_digits _ _ (natDigits_spec _).2.1
    have hfpne : padZeros (natDigits (man.natAbs % 10 ^ (e + 1))) (e + 1) ≠ [] := by
      intro hnil
      rw [hnil] at hfplen
      simp at hfplen
    have hfpval : digitsVal (padZeros (natDigits (man.natAbs % 10 ^ (e + 1))) (e + 1))
        = man.natAbs % 10 ^ (e + 1) := by
      rw [padZeros_val, (natDigits_spec _).1]
    have hwf2 : e + 1 = 1 ∨ man % 10 ≠ 0 := by
      simp only [PyNum.wf, Bool.or_eq_true, decide_eq_true_eq] at hwf
      rcases hwf with (h | h) | h
      · omega
      · omega
      · exact Or.inr h

    by_cases hm : man < 0
    · rw [if_pos hm]
      rw [String.data_append, String.data_append, String.data_append]
      rw [show ("-" : String).data = ['-'] from rfl,
          show (natStr (man.natAbs / 10 ^ (e + 1))).data
            = natDigits (man.natAbs / 10 ^ (e + 1)) from rfl,
          show ("." : String).data = ['.'] from rfl,
          show (String.mk (padZeros (natDigits (man.natAbs % 10 ^ (e + 1))) (e + 1))).data
            = padZeros (natDigits (man.natAbs % 10 ^ (e + 1))) (e + 1) from rfl]
      rw [show ((['-'] ++ natDigits (man.natAbs / 10 ^ (e + 1)) ++ ['.'])
              ++ padZeros (natDigits (man.natAbs % 10 ^ (e + 1))) (e + 1)) ++ rest
            = '-' :: (natDigits (man.natAbs / 10 ^ (e + 1))
                ++ ('.' :: (padZeros (natDigits (man.natAbs % 10 ^ (e + 1))) (e + 1) ++ rest)))
            from by simp]
      rw [parseJNum_neg_natDigits _ _ (by intro c hc; injection hc with hc2; rw [← hc2]; decide)]
      rw [parseJNumRest_float true _ _ rest hfpdig hfpne hr]
      rw [if_pos rfl, hfplen, hfpval, (natDigits_spec _).1]
      rw [show man.natAbs / 10 ^ (e + 1) * 10 ^ (e + 1) + man.natAbs % 10 ^ (e + 1)
            = man.natAbs from by rw [Nat.mul_comm]; exact Nat.div_add_mod _ _]
      have hcast : -((man.natAbs : Nat) : Int) = man := by omega
      rw [hcast]
      rw [floatCanon_eq_self man (e + 1) (by omega) hwf2]
    · rw [if_neg hm]
      rw [String.data_append, String.data_append, String.data_append]
      rw [show ("" : String).data = [] from rfl,
          show (natStr (man.natAbs / 10 ^ (e + 1))).data
            = natDigits (man.natAbs / 10 ^ (e + 1)) from rfl,
          show ("." : String).data = ['.'] from rfl,
          show (String.mk (padZeros (natDigits (man.natAbs % 10 ^ (e + 1))) (e + 1))).data
            = padZeros (natDigits (man.natAbs % 10 ^ (e + 1))) (e + 1) from rfl]
      rw [show (([] ++ natDigits (man.natAbs / 10 ^ (e + 1)) ++ ['.'])
              ++ padZeros (natDigits (man.natAbs % 10 ^ (e + 1))) (e + 1)) ++ rest
            = natDigits (man.natAbs / 10 ^ (e + 1))
                ++ ('.' :: (padZeros (natDigits (man.natAbs % 10 ^ (e + 1))) (e + 1) ++ rest))
            from by simp]
      rw [parseJNum_natDigits _ _ (by intro c hc; injection hc with hc2; rw [← hc2]; decide)]
      rw [parseJNumRest_float false _ _ rest hfpdig hfpne hr]
      rw [if_neg (by decide), hfplen, hfpval, (natDigits_spec _).1]
      rw [show man.natAbs / 10 ^ (e + 1) * 10 ^ (e + 1) + man.natAbs % 10 ^ (e + 1)
            = man.natAbs from by rw [Nat.mul_comm]; exact Nat.div_add_mod _ _]
      have hcast : ((man.natAbs : Nat) : Int) = man := by omega
      rw [hcast]
      rw [floatCanon_eq_self man (e + 1) (by omega) hwf2]


/-! Scalar values round-trip through `parseJVal` -/

theorem skipWs_cons_not (c : Char) (cs : List Char) (h : isJsonWs c = false) :
    skipWs (c :: cs) = c :: cs := by
  unfold skipWs
  rw [List.dropWhile_cons, h]
  rfl

theorem skipWs_ws_append (ws cs : List Char) (h : ∀ c ∈ ws, isJsonWs c = true) :
    skipWs (ws ++ cs) = skipWs cs := by
  induction ws with
  | nil => rfl
  | cons w ws ih =>
    rw [List.cons_append]
    unfold skipWs
    rw [List.dropWhile_cons, h w (List.mem_cons_self w ws)]
    exact ih fun c hc => h c (List.mem_cons_of_mem w hc)

theorem jsonEscapeChar_length_pos (c : Char) : 1 ≤ (jsonEscapeChar c).length := by
  unfold jsonEscapeChar
  repeat' split
  all_goals simp [hex4]

theorem escape_flatten_len : ∀ cs : List Char,
    cs.length ≤ ((cs.map jsonEscapeChar).flatten).length := by
  intro cs
  induction cs with
  | nil => simp
  | cons c cs ih =>
    rw [List.map_cons, List.flatten_cons, List.length_append, List.length_cons]
    have := jsonEscapeChar_length_pos c
    omega

theorem isDigit_bounds (c : Char) (h : c.isDigit = true) :
    48 ≤ c.toNat ∧ c.toNat ≤ 57 := by
  simp [Char.isDigit] at h
  exact ⟨h.1, h.2⟩

theorem numHead_props (c : Char) (h : c = '-' ∨ c.isDigit = true) :
    isJsonWs c = false ∧ c ≠ '"' ∧ c ≠ 't' ∧ c ≠ 'f' ∧ c ≠ 'n' ∧ c ≠ '[' ∧ c ≠ '\x7b' := by
  rcases h with rfl | h
  · exact ⟨by decide, by decide, by decide, by decide, by decide, by decide, by decide⟩
  · obtain ⟨h1, h2⟩ := isDigit_bounds c h
    refine ⟨?_, ?_, ?_, ?_, ?_, ?_, ?_⟩
    · simp only [isJsonWs, Bool.or_eq_false_iff, decide_eq_false_iff_not]
      refine ⟨⟨⟨?_, ?_⟩, ?_⟩, ?_⟩ <;>
        (intro he; rw [he] at h1; exact absurd h1 (by decide))
    · intro he; rw [he] at h1; exact absurd h1 (by decide)
    · intro he; rw [he] at h2; exact absurd h2 (by decide)
    · intro he; rw [he] at h2; exact absurd h2 (by decide)
    · intro he; rw [he] at h2; exact absurd h2 (by decide)
    · intro he; rw [he] at h2; exact absurd h2 (by decide)
    · intro he; rw [he] at h2; exact absurd h2 (by decide)

theorem PyNumStr_head (d : PyNum) :
    ∃ c t, (PyNum.str d).data = c :: t ∧ (c = '-' ∨ c.isDigit = true) := by
  obtain ⟨man, exp⟩ := d
  unfold PyNum.str
  cases exp with
  | zero =>
    rw [if_pos rfl]
    unfold intStr
    by_cases hm : man < 0
    · rw [if_pos hm, String.data_append]
      exact ⟨'-', _, rfl, Or.inl rfl⟩
    · rw [if_neg hm]
      obtain ⟨hval, hdig, hne⟩ := natDigits_spec man.natAbs
      cases hx : natDigits man.natAbs with
      | nil => exact absurd hx hne
      | cons d0 ds =>
        refine ⟨d0, ds, by rw [show (natStr man.natAbs).data = natDigits man.natAbs from rfl, hx],
          Or.inr (hdig d0 (by rw [hx]; exact List.mem_cons_self d0 ds))⟩
  | succ e =>
    rw [if_neg (Nat.succ_ne_zero e)]
    dsimp only
    by_cases hm : man < 0
    · rw [if_pos hm, String.data_append, String.data_append, String.data_append]
      exact ⟨'-', _, rfl, Or.inl rfl⟩
    · rw [if_neg hm, String.data_append, String.data_append, String.data_append]
      rw [show ("" : String).data = [] from rfl, List.nil_append]
      rw [show (natStr (man.natAbs / 10 ^ (e + 1))).data
            = natDigits (man.natAbs / 10 ^ (e + 1)) from rfl]
      obtain ⟨hval, hdig, hne⟩ := natDigits_spec (man.natAbs / 10 ^ (e + 1))
      cases hx : natDigits (man.natAbs / 10 ^ (e + 1)) with
      | nil => exact absurd hx hne
      | cons d0 ds =>
        exact ⟨d0, _, rfl, Or.inr (hdig d0 (by rw [hx]; exact List.mem_cons_self d0 ds))⟩

theorem parseJVal_scalar (v : Value) (hv : cleanVal v = true) (f : Nat) (ind : Nat)
    (rest : List Char)
    (hr : ∀ c, rest.head? = some c → c.isDigit = false ∧ c ≠ '.' ∧ c ≠ 'e' ∧ c ≠ 'E') :
    parseJVal (f + 1) ((dumpVal v ind).data ++ rest) = some (v, rest) := by
  cases v with
  | vStr s =>
    rw [show (dumpVal (Value.vStr s) ind).data ++ rest
          = '"' :: ((s.data.map jsonEscapeChar).flatten ++ '"' :: rest) from by
        show (jsonQuote s).data ++ rest = _
        unfold jsonQuote
        rw [String.data_append, String.data_append]
        simp]
    rw [parseJVal.eq_2]
    rw [skipWs_cons_not _ _ (by decide)]
    dsimp only
    rw [if_pos rfl]
    rw [parseJStr_roundtrip s.data _ rest (by
      have h := escape_flatten_len s.data
      simp only [List.length_append, List.length_cons]
      omega)]
  | vNum d =>
    have hwf : d.wf = true := hv
    obtain ⟨c, t, hshape, hcd⟩ := PyNumStr_head d
    obtain ⟨hws, hq, ht, hf2, hn, hbr, hob⟩ := numHead_props c hcd
    rw [show (dumpVal (Value.vNum d) ind).data ++ rest = c :: (t ++ rest) from by
        show (PyNum.str d).data ++ rest = _
        rw [hshape, List.cons_append]]
    rw [parseJVal.eq_2]
    rw [skipWs_cons_not _ _ hws]
    dsimp only
    rw [if_neg hq, if_neg ht, if_neg hf2, if_neg hn, if_neg hbr, if_neg hob]
    rw [show c :: (t ++ rest) = (PyNum.str d).data ++ rest from by
        rw [hshape, List.cons_append]]
    rw [parseJNum_PyNumStr d hwf rest hr]
  | vBool b =>
    cases b with
    | true =>
      rw [show (dumpVal (Value.vBool true) ind).data ++ rest
            = 't' :: 'r' :: 'u' :: 'e' :: rest from rfl]
      rw [parseJVal.eq_2]
      rw [skipWs_cons_not _ _ (by decide)]
      dsimp only
      rw [if_neg (by decide), if_pos rfl]
      rfl
    | false =>
      rw [show (dumpVal (Value.vBool false) ind).data ++ rest
            = 'f' :: 'a' :: 'l' :: 's' :: 'e' :: rest from rfl]
      rw [parseJVal.eq_2]
      rw [skipWs_cons_not _ _ (by decide)]
      dsimp only
      rw [if_neg (by decide), if_neg (by decide), if_pos rfl]
      rfl
  | vNull =>
    rw [show (dumpVal Value.vNull ind).data ++ rest
          = 'n' :: 'u' :: 'l' :: 'l' :: rest from rfl]
    rw [parseJVal.eq_2]
    rw [skipWs_cons_not _ _ (by decide)]
    dsimp only
    rw [if_neg (by decide), if_neg (by decide), if_neg (by decide), if_pos rfl]
    rfl
  | vArr l => exact absurd hv (by simp [cleanVal])
  | vObj l => exact absurd hv (by simp [cleanVal])


/-! Record and list utilities -/

theorem toPairs_ofPairs : ∀ l : List (String × Value), (FieldList.ofPairs l).toPairs = l := by
  intro l
  induction l with
  | nil => rfl
  | cons kv t ih =>
    obtain ⟨k, v⟩ := kv
    unfold FieldList.ofPairs FieldList.toPairs
    rw [ih]

theorem toList_ofList : ∀ l : List Value, (ValueList.ofList l).toList = l := by
  intro l
  induction l with
  | nil => rfl
  | cons v t ih =>
    unfold ValueList.ofList ValueList.toList
    rw [ih]

theorem setVal_append_not_mem : ∀ (acc : Record) (k : String) (v : Value),
    k ∉ acc.map Prod.fst → Record.setVal acc k v = acc ++ [(k, v)] := by
  intro acc
  induction acc with
  | nil => intro k v _; rfl
  | cons kv t ih =>
    intro k v hk
    obtain ⟨k0, v0⟩ := kv
    rw [List.map_cons, List.mem_cons] at hk
    push_neg at hk
    unfold Record.setVal
    rw [if_neg (fun h => hk.1 h.symm)]
    rw [List.cons_append, ih k v hk.2]

theorem foldl_setVal_nodup : ∀ (fs acc : Record),
    ((acc ++ fs).map Prod.fst).Nodup →
    fs.foldl (fun acc kv => Record.setVal acc kv.1 kv.2) acc = acc ++ fs := by
  intro fs
  induction fs with
  | nil => intro acc _; simp
  | cons kv t ih =>
    intro acc hnd
    obtain ⟨k, v⟩ := kv
    have hk : k ∉ acc.map Prod.fst := by
      intro hmem
      rw [List.map_append, List.nodup_append] at hnd
      exact hnd.2.2 hmem (by simp)
    rw [List.foldl_cons]
    rw [show Record.setVal acc k v = acc ++ [(k, v)] from setVal_append_not_mem acc k v hk]
    rw [ih (acc ++ [(k, v)]) (by simpa using hnd)]
    simp

theorem asRecords_map_obj : ∀ rs : List Record,
    asRecords (rs.map fun r => Value.vObj (FieldList.ofPairs r)) = .ok rs := by
  intro rs
  induction rs with
  | nil => rfl
  | cons r t ih =>
    rw [List.map_cons]
    unfold asRecords
    rw [ih, toPairs_ofPairs]

theorem setVal_findVal_self : ∀ (r : Record) (k : String) (v : Value),
    r.findVal k = some v → Record.setVal r k v = r := by
  intro r
  induction r with
  | nil => intro k v h; exact absurd h (by simp [Record.findVal])
  | cons kv t ih =>
    intro k v h
    obtain ⟨k0, v0⟩ := kv
    unfold Record.findVal at h
    unfold Record.setVal
    by_cases hk : k0 = k
    · rw [if_pos hk] at h ⊢
      injection h with h2
      rw [h2]
    · rw [if_neg hk] at h ⊢
      rw [ih k v h]

theorem normalizeJsonRecord_id (r : Record) (hs : scoreClean r = true) :
    normalizeJsonRecord r = .ok r := by
  unfold scoreClean at hs
  unfold normalizeJsonRecord
  cases hv : r.findVal "sentiment_score" with
  | none => rfl
  | some v =>
    rw [hv] at hs
    cases v with
    | vNull =>
      dsimp only
      rw [if_pos (by decide)]
      rw [setVal_findVal_self r _ _ hv]
    | vNum d =>
      dsimp only at hs ⊢
      rw [if_neg (show ¬ ((Value.vNum d).eqStr "null" = true) by simp [Value.eqStr]),
          if_pos (show (!(Value.vNum d).eqStr "") = true by simp [Value.eqStr])]
      have hd : pyFloat (Value.vNum d) = .ok d := by
        unfold pyFloat
        simp only [decide_eq_true_eq] at hs
        match d, hs with
        | ⟨m, e + 1⟩, _ => rfl
      rw [hd]
      dsimp only [Except.map]
      rw [setVal_findVal_self r _ _ hv]
    | vStr s => simp at hs
    | vBool b => simp at hs
    | vArr l => simp at hs
    | vObj l => simp at hs

theorem normalizeRecords_id : ∀ rs : List Record,
    (∀ r ∈ rs, scoreClean r = true) → normalizeRecords rs = .ok rs := by
  intro rs
  induction rs with
  | nil => intro _; rfl
  | cons r t ih =>
    intro h
    unfold normalizeRecords
    rw [normalizeJsonRecord_id r (h r (List.mem_cons_self r t))]
    rw [ih fun x hx => h x (List.mem_cons_of_mem r hx)]


/-! Object members round-trip -/

theorem jsonWs_not_num (c : Char) (h : isJsonWs c = true) :
    c.isDigit = false ∧ c ≠ '.' ∧ c ≠ 'e' ∧ c ≠ 'E' := by
  simp only [isJsonWs, Bool.or_eq_true, decide_eq_true_eq] at h
  rcases h with ((rfl | rfl) | rfl) | rfl <;>
    exact ⟨by decide, by decide, by decide, by decide⟩

theorem boundary_ws_close (ws rest : List Char) (cl : Char)
    (hws : ∀ c ∈ ws, isJsonWs c = true)
    (hcl : cl.isDigit = false ∧ cl ≠ '.' ∧ cl ≠ 'e' ∧ cl ≠ 'E') :
    ∀ c, (ws ++ cl :: rest).head? = some c →
      c.isDigit = false ∧ c ≠ '.' ∧ c ≠ 'e' ∧ c ≠ 'E' := by
  intro c hc
  cases ws with
  | nil =>
    injection hc with hc2
    rw [← hc2]
    exact hcl
  | cons w ws' =>
    rw [List.cons_append] at hc
    injection hc with hc2
    rw [← hc2]
    exact jsonWs_not_num w (hws w (List.mem_cons_self w ws'))

theorem parseJVal_ws (f : Nat) (ws cs : List Char) (h : ∀ c ∈ ws, isJsonWs c = true) :
    parseJVal (f + 1) (ws ++ cs) = parseJVal (f + 1) cs := by
  rw [parseJVal.eq_2, parseJVal.eq_2, skipWs_ws_append ws cs h]

theorem parseJStr_roundtrip_auto (cs rest : List Char) :
    parseJStr (((cs.map jsonEscapeChar).flatten ++ '"' :: rest).length + 1)
      ((cs.map jsonEscapeChar).flatten ++ '"' :: rest) = some (cs, rest) :=
  parseJStr_roundtrip cs _ rest (by
    have h := escape_flatten_len cs
    simp only [List.length_append, List.length_cons]
    omega)

theorem spaces_ws (ind : Nat) : ∀ c ∈ (spaces ind).data, isJsonWs c = true := by
  intro c hc
  rw [show (spaces ind).data = List.replicate ind ' ' from rfl] at hc
  rw [List.eq_of_mem_replicate hc]
  decide

theorem parseJMembers_fields : ∀ (fs : List (String × Value)) (f : Nat) (ws ws2 : List Char)
    (ind : Nat) (rest : List Char),
    fs ≠ [] →
    (∀ kv ∈ fs, cleanVal kv.2 = true) →
    (∀ c ∈ ws, isJsonWs c = true) →
    (∀ c ∈ ws2, isJsonWs c = true) →
    fs.length + 1 ≤ f →
    parseJMembers f (ws ++ (dumpFields (FieldList.ofPairs fs) ind).data ++ ws2 ++ '\x7d' :: rest)
      = some (fs, rest) := by
  intro fs
  induction fs with
  | nil =>
    intro _ _ _ _ _ hne
    exact absurd rfl hne
  | cons kv fs ih =>
    intro f ws ws2 ind rest _ hclean hws hws2 hfuel
    obtain ⟨k, v⟩ := kv
    obtain ⟨f1, rfl⟩ : ∃ f1, f = f1 + 1 := ⟨f - 1, by omega⟩
    obtain ⟨f2, rfl⟩ : ∃ f2, f1 = f2 + 1 := ⟨f1 - 1, by simp at hfuel; omega⟩
    have hvclean : cleanVal v = true := hclean (k, v) (List.mem_cons_self _ _)
    have hbnd : ∀ c, (ws2 ++ '\x7d' :: rest).head? = some c →
        c.isDigit = false ∧ c ≠ '.' ∧ c ≠ 'e' ∧ c ≠ 'E' :=
      boundary_ws_close ws2 rest '\x7d' hws2 ⟨by decide, by decide, by decide, by decide⟩
    cases fs with
    | nil =>
      rw [show ws ++ (dumpFields (FieldList.ofPairs [(k, v)]) ind).data
              ++ ws2 ++ '\x7d' :: rest
            = (ws ++ (spaces ind).data)
              ++ '"' :: ((k.data.map jsonEscapeChar).flatten
                ++ '"' :: (':' :: ' ' :: ((dumpVal v ind).data ++ (ws2 ++ '\x7d' :: rest))))
            from by
          rw [show FieldList.ofPairs [(k, v)] = FieldList.cons k v FieldList.nil from rfl]
          rw [show dumpFields (FieldList.cons k v FieldList.nil) ind
                = spaces ind ++ jsonQuote k ++ ": " ++ dumpVal v ind from rfl]
          rw [String.data_append, String.data_append, String.data_append]
          rw [show (jsonQuote k).data
                = '"' :: ((k.data.map jsonEscapeChar).flatten ++ ['"']) from by
              unfold jsonQuote
              rw [String.data_append, String.data_append]
              rfl]
          rw [show (": " : String).data = [':', ' '] from rfl]
          simp]
      rw [parseJMembers.eq_2]
      rw [skipWs_ws_append _ _ (by
        intro c hc
        rcases List.mem_append.mp hc with hc | hc
        · exact hws c hc
        · exact spaces_ws ind c hc)]
      rw [skipWs_cons_not _ _ (by decide)]
      dsimp only
      rw [if_pos rfl]
      rw [parseJStr_roundtrip_auto k.data
        (':' :: ' ' :: ((dumpVal v ind).data ++ (ws2 ++ '\x7d' :: rest)))]
      dsimp only
      rw [skipWs_cons_not _ _ (by decide)]
      dsimp only
      rw [if_pos rfl]
      rw [show (' ' :: ((dumpVal v ind).data ++ (ws2 ++ '\x7d' :: rest)))
            = [' '] ++ ((dumpVal v ind).data ++ (ws2 ++ '\x7d' :: rest)) from rfl]
      rw [parseJVal_ws f2 [' '] _ (by intro c hc; simp at hc; rw [hc]; decide)]
      rw [parseJVal_scalar v hvclean f2 ind (ws2 ++ '\x7d' :: rest) hbnd]
      dsimp only
      rw [skipWs_ws_append _ _ hws2, skipWs_cons_not _ _ (by decide)]
      dsimp only
      rw [if_neg (by decide), if_pos rfl]
    | cons kv2 fs' =>
      obtain ⟨k2, v2⟩ := kv2
      rw [show ws ++ (dumpFields (FieldList.ofPairs ((k, v) :: (k2, v2) :: fs')) ind).data
              ++ ws2 ++ '\x7d' :: rest
            = (ws ++ (spaces ind).data)
              ++ '"' :: ((k.data.map jsonEscapeChar).flatten
                ++ '"' :: (':' :: ' ' :: ((dumpVal v ind).data
                  ++ (',' :: '\n'
                    :: ((dumpFields (FieldList.ofPairs ((k2, v2) :: fs')) ind).data
                      ++ (ws2 ++ '\x7d' :: rest))))))
            from by
          rw [show FieldList.ofPairs ((k, v) :: (k2, v2) :: fs')
                = FieldList.cons k v (FieldList.ofPairs ((k2, v2) :: fs')) from rfl]
          rw [show FieldList.ofPairs ((k2, v2) :: fs')
                = FieldList.cons k2 v2 (FieldList.ofPairs fs') from rfl]
          rw [show dumpFields (FieldList.cons k v
                  (FieldList.cons k2 v2 (FieldList.ofPairs fs'))) ind
                = spaces ind ++ jsonQuote k ++ ": " ++ dumpVal v ind ++ ",\n"
                  ++ dumpFields (FieldList.cons k2 v2 (FieldList.ofPairs fs')) ind from rfl]
          rw [String.data_append, String.data_append, String.data_append, String.data_append,
              String.data_append]
          rw [show (jsonQuote k).data
                = '"' :: ((k.data.map jsonEscapeChar).flatten ++ ['"']) from by
              unfold jsonQuote
              rw [String.data_append, String.data_append]
              rfl]
          rw [show (": " : String).data = [':', ' '] from rfl]
          rw [show (",\n" : String).data = [',', '\n'] from rfl]
          simp]
      rw [parseJMembers.eq_2]
      rw [skipWs_ws_append _ _ (by
        intro c hc
        rcases List.mem_append.mp hc with hc | hc
        · exact hws c hc
        · exact spaces_ws ind c hc)]
      rw [skipWs_cons_not _ _ (by decide)]
      dsimp only
      rw [if_pos rfl]
      rw [parseJStr_roundtrip_auto k.data
        (':' :: ' ' :: ((dumpVal v ind).data
          ++ (',' :: '\n' :: ((dumpFields (FieldList.ofPairs ((k2, v2) :: fs')) ind).data
            ++ (ws2 ++ '\x7d' :: rest)))))]
      dsimp only
      rw [skipWs_cons_not _ _ (by decide)]
      dsimp only
      rw [if_pos rfl]
      rw [show (' ' :: ((dumpVal v ind).data
              ++ (',' :: '\n' :: ((dumpFields (FieldList.ofPairs ((k2, v2) :: fs')) ind).data
                ++ (ws2 ++ '\x7d' :: rest)))))
            = [' '] ++ ((dumpVal v ind).data
              ++ (',' :: '\n' :: ((dumpFields (FieldList.ofPairs ((k2, v2) :: fs')) ind).data
                ++ (ws2 ++ '\x7d' :: rest)))) from rfl]
      rw [parseJVal_ws f2 [' '] _ (by intro c hc; simp at hc; rw [hc]; decide)]
      rw [parseJVal_scalar v hvclean f2 ind _ (by
        intro c hc
        injection hc with hc2
        rw [← hc2]
        exact ⟨by decide, by decide, by decide, by decide⟩)]
      dsimp only
      rw [skipWs_cons_not _ _ (by decide)]
      dsimp only
      rw [if_pos rfl]
      rw [show ('\n' :: ((dumpFields (FieldList.ofPairs ((k2, v2) :: fs')) ind).data
              ++ (ws2 ++ '\x7d' :: rest)))
            = ['\n'] ++ (dumpFields (FieldList.ofPairs ((k2, v2) :: fs')) ind).data
              ++ ws2 ++ '\x7d' :: rest from by simp]
      rw [ih (f2 + 1) ['\n'] ws2 ind rest (by simp)
        (fun kv hkv => hclean kv (List.mem_cons_of_mem _ hkv))
        (by intro c hc; simp at hc; rw [hc]; decide) hws2
        (by simp at hfuel ⊢; omega)]


/-! Record objects and arrays round-trip -/

theorem dumpFields_cons_shape (k : String) (v : Value) (fs : FieldList) (ind : Nat) :
    ∃ X, (dumpFields (FieldList.cons k v fs) ind).data = (spaces ind).data ++ '"' :: X := by
  cases fs with
  | nil =>
    refine ⟨(k.data.map jsonEscapeChar).flatten
      ++ '"' :: (':' :: ' ' :: (dumpVal v ind).data), ?_⟩
    rw [show dumpFields (FieldList.cons k v FieldList.nil) ind
          = spaces ind ++ jsonQuote k ++ ": " ++ dumpVal v ind from rfl]
    rw [String.data_append, String.data_append, String.data_append]
    rw [show (jsonQuote k).data
          = '"' :: ((k.data.map jsonEscapeChar).flatten ++ ['"']) from by
        unfold jsonQuote
        rw [String.data_append, String.data_append]
        rfl]
    rw [show (": " : String).data = [':', ' '] from rfl]
    simp
  | cons k2 v2 fs' =>
    refine ⟨(k.data.map jsonEscapeChar).flatten
      ++ '"' :: (':' :: ' ' :: ((dumpVal v ind).data
        ++ (',' :: '\n' :: (dumpFields (FieldList.cons k2 v2 fs') ind).data))), ?_⟩
    rw [show dumpFields (FieldList.cons k v (FieldList.cons k2 v2 fs')) ind
          = spaces ind ++ jsonQuote k ++ ": " ++ dumpVal v ind ++ ",\n"
            ++ dumpFields (FieldList.cons k2 v2 fs') ind from rfl]
    rw [String.data_append, String.data_append, String.data_append, String.data_append,
        String.data_append]
    rw [show (jsonQuote k).data
          = '"' :: ((k.data.map jsonEscapeChar).flatten ++ ['"']) from by
        unfold jsonQuote
        rw [String.data_append, String.data_append]
        rfl]
    rw [show (": " : String).data = [':', ' '] from rfl]
    rw [show (",\n" : String).data = [',', '\n'] from rfl]
    simp

theorem parseJVal_recordObj (r : Record) (f ind : Nat) (rest : List Char)
    (hclean : cleanRecord r = true) (hnodup : (r.map Prod.fst).Nodup)
    (hfuel : r.length + 1 ≤ f) :
    parseJVal (f + 1) ((dumpVal (Value.vObj (FieldList.ofPairs r)) ind).data ++ rest)
      = some (Value.vObj (FieldList.ofPairs r), rest) := by
  cases r with
  | nil =>
    rw [show (dumpVal (Value.vObj (FieldList.ofPairs [])) ind).data ++ rest
          = '\x7b' :: '\x7d' :: rest from rfl]
    rw [parseJVal.eq_2]
    rw [skipWs_cons_not _ _ (by decide)]
    dsimp only
    rw [if_neg (by decide), if_neg (by decide), if_neg (by decide), if_neg (by decide),
        if_neg (by decide), if_pos rfl]
    rw [skipWs_cons_not _ _ (by decide)]
    rfl
  | cons kv r' =>
    obtain ⟨k, v⟩ := kv
    obtain ⟨f1, rfl⟩ : ∃ f1, f = f1 + 1 := ⟨f - 1, by omega⟩
    have hshape : (dumpVal (Value.vObj (FieldList.ofPairs ((k, v) :: r'))) ind).data ++ rest
        = '\x7b' :: (['\n'] ++ (dumpFields (FieldList.ofPairs ((k, v) :: r')) (ind + 2)).data
            ++ ('\n' :: (spaces ind).data) ++ '\x7d' :: rest) := by
      rw [show FieldList.ofPairs ((k, v) :: r')
            = FieldList.cons k v (FieldList.ofPairs r') from rfl]
      rw [show dumpVal (Value.vObj (FieldList.cons k v (FieldList.ofPairs r'))) ind
            = "\x7b\n" ++ dumpFields (FieldList.cons k v (FieldList.ofPairs r')) (ind + 2)
              ++ "\n" ++ spaces ind ++ "\x7d" from rfl]
      rw [String.data_append, String.data_append, String.data_append, String.data_append]
      rw [show ("\x7b\n" : String).data = ['\x7b', '\n'] from rfl]
      rw [show ("\n" : String).data = ['\n'] from rfl]
      rw [show ("\x7d" : String).data = ['\x7d'] from rfl]
      simp
    rw [hshape]
    rw [parseJVal.eq_2]
    rw [skipWs_cons_not _ _ (by decide)]
    dsimp only
    rw [if_neg (by decide), if_neg (by decide), if_neg (by decide), if_neg (by decide),
        if_neg (by decide), if_pos rfl]
    obtain ⟨X, hX⟩ := dumpFields_cons_shape k v (FieldList.ofPairs r') (ind + 2)
    rw [show skipWs (['\n'] ++ (dumpFields (FieldList.ofPairs ((k, v) :: r')) (ind + 2)).data
            ++ ('\n' :: (spaces ind).data) ++ '\x7d' :: rest)
          = '"' :: (X ++ (('\n' :: (spaces ind).data) ++ '\x7d' :: rest)) from by
        rw [show FieldList.ofPairs ((k, v) :: r')
              = FieldList.cons k v (FieldList.ofPairs r') from rfl]
        rw [hX]
        rw [show ['\n'] ++ ((spaces (ind + 2)).data ++ '"' :: X)
                ++ ('\n' :: (spaces ind).data) ++ '\x7d' :: rest
              = ('\n' :: (spaces (ind + 2)).data)
                ++ ('"' :: (X ++ (('\n' :: (spaces ind).data) ++ '\x7d' :: rest))) from by simp]
        rw [skipWs_ws_append _ _ (by
          intro c hc
          rcases List.mem_cons.mp hc with rfl | hc
          · decide
          · exact spaces_ws _ c hc)]
        rw [skipWs_cons_not _ _ (by decide)]]
    rw [parseJMembers_fields ((k, v) :: r') (f1 + 1) ['\n'] ('\n' :: (spaces ind).data)
      (ind + 2) rest (by simp) (by
        intro kv hkv
        unfold cleanRecord at hclean
        rw [List.all_eq_true] at hclean
        exact hclean kv hkv)
      (by intro c hc; simp at hc; rw [hc]; decide)
      (by
        intro c hc
        rcases List.mem_cons.mp hc with rfl | hc
        · decide
        · exact spaces_ws _ c hc)
      (by simpa using hfuel)]
    have hfold : ((k, v) :: r').foldl (fun acc kv => Record.setVal acc kv.1 kv.2) [] = (k, v) :: r' :=
      foldl_setVal_nodup _ [] (by simpa using hnodup)
    conv_rhs => rw [← hfold]
    rfl

theorem parseJElems_items : ∀ (rs : List Record) (f : Nat) (ws ws2 : List Char)
    (ind : Nat) (rest : List Char),
    rs ≠ [] → (∀ r ∈ rs, cleanRecord r = true) → (∀ r ∈ rs, (r.map Prod.fst).Nodup) →
    (∀ c ∈ ws, isJsonWs c = true) → (∀ c ∈ ws2, isJsonWs c = true) →
    rs.length + (rs.map List.length).sum + 2 ≤ f →
    parseJElems f (ws ++ (dumpItems (ValueList.ofList
        (rs.map fun r => Value.vObj (FieldList.ofPairs r))) ind).data ++ ws2 ++ ']' :: rest)
      = some (rs.map fun r => Value.vObj (FieldList.ofPairs r), rest) := by
  intro rs
  induction rs with
  | nil =>
    intro _ _ _ _ _ hne
    exact absurd rfl hne
  | cons r rs ih =>
    intro f ws ws2 ind rest _ hclean hnodup hws hws2 hfuel
    obtain ⟨f1, rfl⟩ : ∃ f1, f = f1 + 1 := ⟨f - 1, by omega⟩
    obtain ⟨f2, rfl⟩ : ∃ f2, f1 = f2 + 1 := ⟨f1 - 1, by simp at hfuel; omega⟩
    have hrclean : cleanRecord r = true := hclean r (List.mem_cons_self r rs)
    have hrnodup : (r.map Prod.fst).Nodup := hnodup r (List.mem_cons_self r rs)
    rw [parseJElems.eq_2]
    cases rs with
    | nil =>
      rw [show List.map (fun r => Value.vObj (FieldList.ofPairs r)) [r]
            = [Value.vObj (FieldList.ofPairs r)] from rfl]
      rw [show dumpItems (ValueList.ofList [Value.vObj (FieldList.ofPairs r)]) ind
            = spaces ind ++ dumpVal (Value.vObj (FieldList.ofPairs r)) ind from rfl]
      rw [String.data_append]
      rw [show ws ++ ((spaces ind).data ++ (dumpVal (Value.vObj (FieldList.ofPairs r)) ind).data)
              ++ ws2 ++ ']' :: rest
            = (ws ++ (spaces ind).data)
              ++ ((dumpVal (Value.vObj (FieldList.ofPairs r)) ind).data
                ++ (ws2 ++ ']' :: rest)) from by simp]
      rw [parseJVal_ws f2 _ _ (by
        intro c hc
        rcases List.mem_append.mp hc with hc | hc
        · exact hws c hc
        · exact spaces_ws ind c hc)]
      rw [parseJVal_recordObj r f2 ind _ hrclean hrnodup (by
        simp at hfuel
        omega)]
      dsimp only
      rw [skipWs_ws_append _ _ hws2, skipWs_cons_not _ _ (by decide)]
      dsimp only
      rw [if_neg (by decide), if_pos rfl]
    | cons r2 rs' =>
      rw [List.map_cons, List.map_cons]
      rw [show ValueList.ofList (Value.vObj (FieldList.ofPairs r)
              :: Value.vObj (FieldList.ofPairs r2)
              :: List.map (fun r => Value.vObj (FieldList.ofPairs r)) rs')
            = ValueList.cons (Value.vObj (FieldList.ofPairs r))
                (ValueList.ofList (Value.vObj (FieldList.ofPairs r2)
                  :: List.map (fun r => Value.vObj (FieldList.ofPairs r)) rs')) from rfl]
      rw [show ValueList.ofList (Value.vObj (FieldList.ofPairs r2)
              :: List.map (fun r => Value.vObj (FieldList.ofPairs r)) rs')
            = ValueList.cons (Value.vObj (FieldList.ofPairs r2))
                (ValueList.ofList (List.map (fun r => Value.vObj (FieldList.ofPairs r)) rs')) from rfl]
      rw [show dumpItems (ValueList.cons (Value.vObj (FieldList.ofPairs r))
              (ValueList.cons (Value.vObj (FieldList.ofPairs r2))
                (ValueList.ofList (List.map (fun r => Value.vObj (FieldList.ofPairs r)) rs')))) ind
            = spaces ind ++ dumpVal (Value.vObj (FieldList.ofPairs r)) ind ++ ",\n"
              ++ dumpItems (ValueList.cons (Value.vObj (FieldList.ofPairs r2))
                (ValueList.ofList (List.map (fun r => Value.vObj (FieldList.ofPairs r)) rs'))) ind
            from rfl]
      rw [String.data_append, String.data_append, String.data_append]
      rw [show (",\n" : String).data = [',', '\n'] from rfl]
      rw [show ws ++ ((spaces ind).data
              ++ (dumpVal (Value.vObj (FieldList.ofPairs r)) ind).data
              ++ [',', '\n']
              ++ (dumpItems (ValueList.cons (Value.vObj (FieldList.ofPairs r2))
                  (ValueList.ofList (List.map (fun r => Value.vObj (FieldList.ofPairs r)) rs'))) ind).data)
              ++ ws2 ++ ']' :: rest
            = (ws ++ (spaces ind).data)
              ++ ((dumpVal (Value.vObj (FieldList.ofPairs r)) ind).data
                ++ (',' :: '\n'
                  :: ((dumpItems (ValueList.cons (Value.vObj (FieldList.ofPairs r2))
                      (ValueList.ofList (List.map (fun r => Value.vObj (FieldList.ofPairs r)) rs'))) ind).data
                    ++ (ws2 ++ ']' :: rest)))) from by simp]
      rw [parseJVal_ws f2 _ _ (by
        intro c hc
        rcases List.mem_append.mp hc with hc | hc
        · exact hws c hc
        · exact spaces_ws ind c hc)]
      rw [parseJVal_recordObj r f2 ind _ hrclean hrnodup (by
        simp at hfuel
        omega)]
      dsimp only
      rw [skipWs_cons_not _ _ (by decide)]
      dsimp only
      rw [if_pos rfl]
      rw [show ('\n' :: ((dumpItems (ValueList.cons (Value.vObj (FieldList.ofPairs r2))
              (ValueList.ofList (List.map (fun r => Value.vObj (FieldList.ofPairs r)) rs'))) ind).data
            ++ (ws2 ++ ']' :: rest)))
            = ['\n'] ++ (dumpItems (ValueList.ofList (List.map
                (fun r => Value.vObj (FieldList.ofPairs r)) (r2 :: rs'))) ind).data
              ++ ws2 ++ ']' :: rest from by
          rw [List.map_cons]
          rw [show ValueList.ofList (Value.vObj (FieldList.ofPairs r2)
                :: List.map (fun r => Value.vObj (FieldList.ofPairs r)) rs')
              = ValueList.cons (Value.vObj (FieldList.ofPairs r2))
                  (ValueList.ofList (List.map (fun r => Value.vObj (FieldList.ofPairs r)) rs')) from rfl]
          simp]
      rw [ih (f2 + 1) ['\n'] ws2 ind rest (by simp)
        (fun x hx => hclean x (List.mem_cons_of_mem r hx))
        (fun x hx => hnodup x (List.mem_cons_of_mem r hx))
        (by intro c hc; simp at hc; rw [hc]; decide) hws2
        (by simp at hfuel ⊢; omega)]
      rw [List.map_cons]


theorem dumpVal_obj_shape (fl : FieldList) (ind : Nat) :
    ∃ X, (dumpVal (Value.vObj fl) ind).data = '\x7b' :: X := by
  cases fl with
  | nil => exact ⟨['\x7d'], rfl⟩
  | cons k v fs =>
    refine ⟨'\n' :: ((dumpFields (FieldList.cons k v fs) (ind + 2)).data
      ++ '\n' :: ((spaces ind).data ++ ['\x7d'])), ?_⟩
    rw [show dumpVal (Value.vObj (FieldList.cons k v fs)) ind
          = "\x7b\n" ++ dumpFields (FieldList.cons k v fs) (ind + 2)
            ++ "\n" ++ spaces ind ++ "\x7d" from rfl]
    rw [String.data_append, String.data_append, String.data_append, String.data_append]
    rw [show ("\x7b\n" : String).data = ['\x7b', '\n'] from rfl,
        show ("\n" : String).data = ['\n'] from rfl,
        show ("\x7d" : String).data = ['\x7d'] from rfl]
    simp

theorem dumpItems_objs_shape (fl : FieldList) (vs : ValueList) (ind : Nat) :
    ∃ X, (dumpItems (ValueList.cons (Value.vObj fl) vs) ind).data
      = (spaces ind).data ++ '\x7b' :: X := by
  obtain ⟨Y, hY⟩ := dumpVal_obj_shape fl ind
  cases vs with
  | nil =>
    refine ⟨Y, ?_⟩
    rw [show dumpItems (ValueList.cons (Value.vObj fl) ValueList.nil) ind
          = spaces ind ++ dumpVal (Value.vObj fl) ind from rfl]
    rw [String.data_append, hY]
  | cons w ws =>
    refine ⟨Y ++ (',' :: '\n' :: (dumpItems (ValueList.cons w ws) ind).data), ?_⟩
    rw [show dumpItems (ValueList.cons (Value.vObj fl) (ValueList.cons w ws)) ind
          = spaces ind ++ dumpVal (Value.vObj fl) ind ++ ",\n"
            ++ dumpItems (ValueList.cons w ws) ind from rfl]
    rw [String.data_append, String.data_append, String.data_append, hY]
    rw [show (",\n" : String).data = [',', '\n'] from rfl]
    simp

theorem parseJVal_recordsArr (rs : List Record) (f ind : Nat) (rest : List Char)
    (hclean : ∀ r ∈ rs, cleanRecord r = true)
    (hnodup : ∀ r ∈ rs, (r.map Prod.fst).Nodup)
    (hfuel : rs.length + (rs.map List.length).sum + 2 ≤ f) :
    parseJVal (f + 1) ((dumpVal (Value.vArr (ValueList.ofList
        (rs.map fun r => Value.vObj (FieldList.ofPairs r)))) ind).data ++ rest)
      = some (Value.vArr (ValueList.ofList
          (rs.map fun r => Value.vObj (FieldList.ofPairs r))), rest) := by
  cases rs with
  | nil =>
    rw [show (dumpVal (Value.vArr (ValueList.ofList
          (List.map (fun r => Value.vObj (FieldList.ofPairs r)) []))) ind).data ++ rest
        = '[' :: ']' :: rest from rfl]
    rw [parseJVal.eq_2]
    rw [skipWs_cons_not _ _ (by decide)]
    dsimp only
    rw [if_neg (by decide), if_neg (by decide), if_neg (by decide), if_neg (by decide),
        if_pos rfl]
    rw [skipWs_cons_not _ _ (by decide)]
    rfl
  | cons r0 rs' =>
    have hshape : (dumpVal (Value.vArr (ValueList.ofList
          (List.map (fun r => Value.vObj (FieldList.ofPairs r)) (r0 :: rs')))) ind).data ++ rest
        = '[' :: (['\n'] ++ (dumpItems (ValueList.ofList
            (List.map (fun r => Value.vObj (FieldList.ofPairs r)) (r0 :: rs'))) (ind + 2)).data
          ++ ('\n' :: (spaces ind).data) ++ ']' :: rest) := by
      rw [show ValueList.ofList (List.map (fun r => Value.vObj (FieldList.ofPairs r)) (r0 :: rs'))
            = ValueList.cons (Value.vObj (FieldList.ofPairs r0))
                (ValueList.ofList (List.map (fun r => Value.vObj (FieldList.ofPairs r)) rs'))
            from rfl]
      rw [show dumpVal (Value.vArr (ValueList.cons (Value.vObj (FieldList.ofPairs r0))
            (ValueList.ofList (List.map (fun r => Value.vObj (FieldList.ofPairs r)) rs')))) ind
          = "[\n" ++ dumpItems (ValueList.cons (Value.vObj (FieldList.ofPairs r0))
              (ValueList.ofList (List.map (fun r => Value.vObj (FieldList.ofPairs r)) rs'))) (ind + 2)
            ++ "\n" ++ spaces ind ++ "]" from rfl]
      rw [String.data_append, String.data_append, String.data_append, String.data_append]
      rw [show ("[\n" : String).data = ['[', '\n'] from rfl,
          show ("\n" : String).data = ['\n'] from rfl,
          show ("]" : String).data = [']'] from rfl]
      simp
    rw [hshape]
    rw [parseJVal.eq_2]
    rw [skipWs_cons_not _ _ (by decide)]
    dsimp only
    rw [if_neg (by decide), if_neg (by decide), if_neg (by decide), if_neg (by decide),
        if_pos rfl]
    obtain ⟨X, hX⟩ := dumpItems_objs_shape (FieldList.ofPairs r0)
      (ValueList.ofList (List.map (fun r => Value.vObj (FieldList.ofPairs r)) rs')) (ind + 2)
    rw [show skipWs (['\n'] ++ (dumpItems (ValueList.ofList
            (List.map (fun r => Value.vObj (FieldList.ofPairs r)) (r0 :: rs'))) (ind + 2)).data
          ++ ('\n' :: (spaces ind).data) ++ ']' :: rest)
        = '\x7b' :: (X ++ (('\n' :: (spaces ind).data) ++ ']' :: rest)) from by
      rw [show ValueList.ofList (List.map (fun r => Value.vObj (FieldList.ofPairs r)) (r0 :: rs'))
            = ValueList.cons (Value.vObj (FieldList.ofPairs r0))
                (ValueList.ofList (List.map (fun r => Value.vObj (FieldList.ofPairs r)) rs'))
            from rfl]
      rw [hX]
      rw [show ['\n'] ++ ((spaces (ind + 2)).data ++ '\x7b' :: X)
              ++ ('\n' :: (spaces ind).data) ++ ']' :: rest
            = ('\n' :: (spaces (ind + 2)).data)
              ++ ('\x7b' :: (X ++ (('\n' :: (spaces ind).data) ++ ']' :: rest))) from by simp]
      rw [skipWs_ws_append _ _ (by
        intro c hc
        rcases List.mem_cons.mp hc with rfl | hc
        · decide
        · exact spaces_ws _ c hc)]
      rw [skipWs_cons_not _ _ (by decide)]]
    rw [parseJElems_items (r0 :: rs') f ['\n'] ('\n' :: (spaces ind).data) (ind + 2) rest
      (by simp) hclean hnodup
      (by intro c hc; simp at hc; rw [hc]; decide)
      (by
        intro c hc
        rcases List.mem_cons.mp hc with rfl | hc
        · decide
        · exact spaces_ws _ c hc)
      hfuel]
    rfl


/-! Length lower bounds for fuel sufficiency -/

theorem len_dumpFields_pairs : ∀ (r' : List (String × Value)) (kv : String × Value) (ind : Nat),
    r'.length + 1 ≤ (dumpFields (FieldList.ofPairs (kv :: r')) ind).length := by
  intro r'
  induction r' with
  | nil =>
    intro kv ind
    obtain ⟨k, v⟩ := kv
    rw [show dumpFields (FieldList.ofPairs [(k, v)]) ind
          = spaces ind ++ jsonQuote k ++ ": " ++ dumpVal v ind from rfl]
    rw [String.length_append, String.length_append, String.length_append]
    have h2 : (": " : String).length = 2 := rfl
    simp only [List.length_nil]
    omega
  | cons kv2 r'' ih =>
    intro kv ind
    obtain ⟨k, v⟩ := kv
    obtain ⟨k2, v2⟩ := kv2
    rw [show dumpFields (FieldList.ofPairs ((k, v) :: (k2, v2) :: r'')) ind
          = spaces ind ++ jsonQuote k ++ ": " ++ dumpVal v ind ++ ",\n"
            ++ dumpFields (FieldList.ofPairs ((k2, v2) :: r'')) ind from rfl]
    rw [String.length_append, String.length_append, String.length_append,
        String.length_append, String.length_append]
    have h2 : (": " : String).length = 2 := rfl
    have h3 : (",\n" : String).length = 2 := rfl
    have hih := ih (k2, v2) ind
    simp only [List.length_cons] at hih ⊢
    omega

theorem len_dumpVal_obj (r : Record) (ind : Nat) :
    r.length + 2 ≤ (dumpVal (Value.vObj (FieldList.ofPairs r)) ind).length := by
  cases r with
  | nil =>
    show [].length + 2 ≤ ("\x7b\x7d" : String).length
    decide
  | cons kv r' =>
    obtain ⟨k, v⟩ := kv
    rw [show dumpVal (Value.vObj (FieldList.ofPairs ((k, v) :: r'))) ind
          = "\x7b\n" ++ dumpFields (FieldList.ofPairs ((k, v) :: r')) (ind + 2)
            ++ "\n" ++ spaces ind ++ "\x7d" from rfl]
    rw [String.length_append, String.length_append, String.length_append,
        String.length_append]
    have hf := len_dumpFields_pairs r' (k, v) (ind + 2)
    have h1 : ("\x7b\n" : String).length = 2 := rfl
    have h2 : ("\n" : String).length = 1 := rfl
    have h3 : ("\x7d" : String).length = 1 := rfl
    simp only [List.length_cons] at hf ⊢
    omega

theorem len_dumpItems_objs : ∀ (rs' : List Record) (r0 : Record) (ind : Nat),
    (r0 :: rs').length + ((r0 :: rs').map List.length).sum
      ≤ (dumpItems (ValueList.ofList
          ((r0 :: rs').map fun r => Value.vObj (FieldList.ofPairs r))) ind).length := by
  intro rs'
  induction rs' with
  | nil =>
    intro r0 ind
    rw [show ValueList.ofList (List.map (fun r => Value.vObj (FieldList.ofPairs r)) [r0])
          = ValueList.cons (Value.vObj (FieldList.ofPairs r0)) ValueList.nil from rfl]
    rw [show dumpItems (ValueList.cons (Value.vObj (FieldList.ofPairs r0)) ValueList.nil) ind
          = spaces ind ++ dumpVal (Value.vObj (FieldList.ofPairs r0)) ind from rfl]
    rw [String.length_append]
    have hobj := len_dumpVal_obj r0 ind
    simp only [List.length_cons, List.length_nil, List.map_cons, List.map_nil,
      List.sum_cons, List.sum_nil]
    omega
  | cons r1 rs'' ih =>
    intro r0 ind
    rw [show ValueList.ofList (List.map (fun r => Value.vObj (FieldList.ofPairs r)) (r0 :: r1 :: rs''))
          = ValueList.cons (Value.vObj (FieldList.ofPairs r0))
              (ValueList.cons (Value.vObj (FieldList.ofPairs r1))
                (ValueList.ofList (List.map (fun r => Value.vObj (FieldList.ofPairs r)) rs'')))
          from rfl]
    rw [show dumpItems (ValueList.cons (Value.vObj (FieldList.ofPairs r0))
            (ValueList.cons (Value.vObj (FieldList.ofPairs r1))
              (ValueList.ofList (List.map (fun r => Value.vObj (FieldList.ofPairs r)) rs'')))) ind
          = spaces ind ++ dumpVal (Value.vObj (FieldList.ofPairs r0)) ind ++ ",\n"
            ++ dumpItems (ValueList.cons (Value.vObj (FieldList.ofPairs r1))
                (ValueList.ofList (List.map (fun r => Value.vObj (FieldList.ofPairs r)) rs''))) ind
            from rfl]
    rw [String.length_append, String.length_append, String.length_append]
    rw [show ValueList.cons (Value.vObj (FieldList.ofPairs r1))
            (ValueList.ofList (List.map (fun r => Value.vObj (FieldList.ofPairs r)) rs''))
          = ValueList.ofList (List.map (fun r => Value.vObj (FieldList.ofPairs r)) (r1 :: rs''))
          from rfl]
    have hobj := len_dumpVal_obj r0 ind
    have hih := ih r1 ind
    have h3 : (",\n" : String).length = 2 := rfl
    simp only [List.length_cons, List.map_cons, List.sum_cons] at hih ⊢
    omega

theorem len_detailPayload (r0 : Record) (pd' : List Record) :
    (r0 :: pd').length + ((r0 :: pd').map List.length).sum + 4
      ≤ (detailPayload (r0 :: pd')).length := by
  rw [show detailPayload (r0 :: pd')
        = "\x7b\n" ++ (spaces 2 ++ jsonQuote "feedbacks" ++ ": "
            ++ dumpVal (Value.vArr (ValueList.ofList
              ((r0 :: pd').map fun r => Value.vObj (FieldList.ofPairs r)))) 2)
          ++ "\n" ++ spaces 0 ++ "\x7d" from rfl]
  rw [show ValueList.ofList (List.map (fun r => Value.vObj (FieldList.ofPairs r)) (r0 :: pd'))
        = ValueList.cons (Value.vObj (FieldList.ofPairs r0))
            (ValueList.ofList (List.map (fun r => Value.vObj (FieldList.ofPairs r)) pd'))
        from rfl]
  rw [show dumpVal (Value.vArr (ValueList.cons (Value.vObj (FieldList.ofPairs r0))
          (ValueList.ofList (List.map (fun r => Value.vObj (FieldList.ofPairs r)) pd')))) 2
        = "[\n" ++ dumpItems (ValueList.cons (Value.vObj (FieldList.ofPairs r0))
            (ValueList.ofList (List.map (fun r => Value.vObj (FieldList.ofPairs r)) pd'))) 4
          ++ "\n" ++ spaces 2 ++ "]" from rfl]
  simp only [String.length_append]
  rw [show ValueList.cons (Value.vObj (FieldList.ofPairs r0))
          (ValueList.ofList (List.map (fun r => Value.vObj (FieldList.ofPairs r)) pd'))
        = ValueList.ofList (List.map (fun r => Value.vObj (FieldList.ofPairs r)) (r0 :: pd'))
        from rfl]
  have hitems := len_dumpItems_objs pd' r0 4
  have c1 : ("\x7b\n" : String).length = 2 := rfl
  have c2 : (spaces 2).length = 2 := rfl
  have c3 : (jsonQuote "feedbacks").length = 11 := by decide
  have c4 : (": " : String).length = 2 := rfl
  have c5 : ("[\n" : String).length = 2 := rfl
  have c6 : ("\n" : String).length = 1 := rfl
  have c7 : ("]" : String).length = 1 := rfl
  have c8 : (spaces 0).length = 0 := rfl
  have c9 : ("\x7d" : String).length = 1 := rfl
  omega


theorem jsonQuote_data (s : String) :
    (jsonQuote s).data = '"' :: ((s.data.map jsonEscapeChar).flatten ++ ['"']) := by
  unfold jsonQuote
  rw [String.data_append, String.data_append]
  rfl

theorem jsonLoads_detailPayload (pd : List Record)
    (hclean : ∀ r ∈ pd, cleanRecord r = true)
    (hnodup : ∀ r ∈ pd, (r.map Prod.fst).Nodup) :
    jsonLoads (detailPayload pd)
      = some (Value.vObj (FieldList.ofPairs [("feedbacks",
          Value.vArr (ValueList.ofList (pd.map fun r => Value.vObj (FieldList.ofPairs r))))])) := by
  cases pd with
  | nil => decide
  | cons r0 pd' =>
    have hlen := len_detailPayload r0 pd'
    obtain ⟨L2, hL2, hbound⟩ : ∃ L2, (detailPayload (r0 :: pd')).length = L2 + 2
        ∧ (r0 :: pd').length + ((r0 :: pd').map List.length).sum + 2 ≤ L2 :=
      ⟨(detailPayload (r0 :: pd')).length - 2, by omega, by omega⟩
    have hshape : (detailPayload (r0 :: pd')).data
        = '\x7b' :: (('\n' :: (spaces 2).data)
            ++ '"' :: ((List.map jsonEscapeChar "feedbacks".data).flatten
              ++ '"' :: (':' :: ' ' :: ((dumpVal (Value.vArr (ValueList.ofList
                (List.map (fun r => Value.vObj (FieldList.ofPairs r)) (r0 :: pd')))) 2).data
                  ++ '\n' :: ['\x7d'])))) := by
      rw [show detailPayload (r0 :: pd')
            = "\x7b\n" ++ (spaces 2 ++ jsonQuote "feedbacks" ++ ": "
                ++ dumpVal (Value.vArr (ValueList.ofList
                  (List.map (fun r => Value.vObj (FieldList.ofPairs r)) (r0 :: pd')))) 2)
              ++ "\n" ++ spaces 0 ++ "\x7d" from rfl]
      rw [String.data_append, String.data_append, String.data_append, String.data_append,
          String.data_append, String.data_append, String.data_append]
      rw [jsonQuote_data]
      rw [show ("\x7b\n" : String).data = ['\x7b', '\n'] from rfl,
          show (": " : String).data = [':', ' '] from rfl,
          show ("\n" : String).data = ['\n'] from rfl,
          show (spaces 0).data = [] from rfl,
          show ("\x7d" : String).data = ['\x7d'] from rfl]
      simp
    have hskT : skipWs (('\n' :: (spaces 2).data)
          ++ '"' :: ((List.map jsonEscapeChar "feedbacks".data).flatten
            ++ '"' :: (':' :: ' ' :: ((dumpVal (Value.vArr (ValueList.ofList
              (List.map (fun r => Value.vObj (FieldList.ofPairs r)) (r0 :: pd')))) 2).data
                ++ '\n' :: ['\x7d']))))
        = '"' :: ((List.map jsonEscapeChar "feedbacks".data).flatten
            ++ '"' :: (':' :: ' ' :: ((dumpVal (Value.vArr (ValueList.ofList
              (List.map (fun r => Value.vObj (FieldList.ofPairs r)) (r0 :: pd')))) 2).data
                ++ '\n' :: ['\x7d']))) := by
      rw [skipWs_ws_append _ _ (by
        intro c hc
        rcases List.mem_cons.mp hc with rfl | hc
        · decide
        · exact spaces_ws 2 c hc)]
      rw [skipWs_cons_not _ _ (by decide)]
    have hmem : parseJMembers (L2 + 2) (('\n' :: (spaces 2).data)
          ++ '"' :: ((List.map jsonEscapeChar "feedbacks".data).flatten
            ++ '"' :: (':' :: ' ' :: ((dumpVal (Value.vArr (ValueList.ofList
              (List.map (fun r => Value.vObj (FieldList.ofPairs r)) (r0 :: pd')))) 2).data
                ++ '\n' :: ['\x7d']))))
        = some ([("feedbacks", Value.vArr (ValueList.ofList
            (List.map (fun r => Value.vObj (FieldList.ofPairs r)) (r0 :: pd'))))], []) := by
      rw [show L2 + 2 = (L2 + 1) + 1 from rfl]
      rw [parseJMembers.eq_2]
      rw [hskT]
      dsimp only
      rw [if_pos rfl]
      rw [parseJStr_roundtrip_auto ("feedbacks".data)
        (':' :: ' ' :: ((dumpVal (Value.vArr (ValueList.ofList
          (List.map (fun r => Value.vObj (FieldList.ofPairs r)) (r0 :: pd')))) 2).data
            ++ '\n' :: ['\x7d']))]
      dsimp only
      rw [skipWs_cons_not _ _ (by decide)]
      dsimp only
      rw [if_pos rfl]
      rw [show (' ' :: ((dumpVal (Value.vArr (ValueList.ofList
            (List.map (fun r => Value.vObj (FieldList.ofPairs r)) (r0 :: pd')))) 2).data
              ++ '\n' :: ['\x7d']))
          = [' '] ++ ((dumpVal (Value.vArr (ValueList.ofList
              (List.map (fun r => Value.vObj (FieldList.ofPairs r)) (r0 :: pd')))) 2).data
                ++ '\n' :: ['\x7d']) from rfl]
      rw [parseJVal_ws L2 [' '] _ (by intro c hc; simp at hc; rw [hc]; decide)]
      rw [parseJVal_recordsArr (r0 :: pd') L2 2 ('\n' :: ['\x7d']) hclean hnodup hbound]
      dsimp only
      rw [show skipWs ('\n' :: ['\x7d']) = ['\x7d'] from rfl]
      dsimp only
      rw [if_neg (by decide), if_pos rfl]
    have hparse : parseJVal ((detailPayload (r0 :: pd')).length + 1)
          (detailPayload (r0 :: pd')).data
        = some (Value.vObj (FieldList.ofPairs [("feedbacks",
            Value.vArr (ValueList.ofList
              (List.map (fun r => Value.vObj (FieldList.ofPairs r)) (r0 :: pd'))))]), []) := by
      rw [hshape, hL2]
      rw [show L2 + 2 + 1 = (L2 + 2) + 1 from rfl]
      rw [parseJVal.eq_2]
      rw [skipWs_cons_not _ _ (by decide)]
      dsimp only
      rw [if_neg (by decide), if_neg (by decide), if_neg (by decide), if_neg (by decide),
          if_neg (by decide), if_pos rfl]
      rw [hskT]
      rw [hmem]
      rfl
    unfold jsonLoads
    rw [hparse]
    rfl


/-- **C9** (`algebraic_relational`): round-trip.  For every processed batch
whose records have scalar canonical values (as the enricher emits), pairwise
distinct keys, and a null-or-float `sentiment_score`, decoding the detail
report's trailing structured payload with the structured-form decoder
`parse_json` reproduces the same batch values. -/
theorem C9_payload_roundtrip (pd : List Record)
    (hclean : ∀ r ∈ pd, cleanRecord r = true)
    (hkeys : ∀ r ∈ pd, keysNodup r = true)
    (hscore : ∀ r ∈ pd, scoreClean r = true) :
    parse_json (detailPayload pd) = .ok pd := by
  unfold parse_json
  rw [jsonLoads_detailPayload pd hclean (fun r hr => by
    have h := hkeys r hr
    unfold keysNodup at h
    exact of_decide_eq_true h)]
  dsimp only
  rw [toPairs_ofPairs]
  rw [show Record.findVal [("feedbacks", Value.vArr (ValueList.ofList
        (pd.map fun r => Value.vObj (FieldList.ofPairs r))))] "feedbacks"
      = some (Value.vArr (ValueList.ofList
          (pd.map fun r => Value.vObj (FieldList.ofPairs r)))) from by
    simp [Record.findVal]]
  dsimp only
  rw [toList_ofList]
  rw [asRecords_map_obj]
  dsimp only
  rw [normalizeRecords_id pd hscore]

theorem C9_payload_roundtrip_witness :
    parse_json (detailPayload
        [[("feedback_id", Value.vStr "FB1"), ("language", Value.vStr "en"),
          ("feedback_text", Value.vStr "hello"),
          ("timestamp", Value.vStr "2023-03-21T08:00:00+00:00"),
          ("sentiment_score", Value.vNum ⟨0, 1⟩)]])
      = .ok [[("feedback_id", Value.vStr "FB1"), ("language", Value.vStr "en"),
          ("feedback_text", Value.vStr "hello"),
          ("timestamp", Value.vStr "2023-03-21T08:00:00+00:00"),
          ("sentiment_score", Value.vNum ⟨0, 1⟩)]] :=
  C9_payload_roundtrip _ (by decide) (by decide) (by decide)

end Feedback
